import Mathlib

/-!
# Auto-configuration decision engine (`nodeobs_autoconfig.cpp`)

A shallow embedding of the parts of `obs-studio-server/source/nodeobs_autoconfig.cpp`
that decide which ingest servers are tested, how a bandwidth measurement is turned
into a bitrate verdict and how the best server is selected, followed by theorems
about those definitions.

Conventions.
* C `int` values are `Int`; a cast to `int` is `toInt32` (two's-complement wrap) and
  C division is `Int.tdiv` (truncation towards zero).
* `uint64_t` values are `Nat`, reduced modulo `2^64` after every operation.
* C strings are `String`s; the byte-wise helpers work on the character list and
  treat the end of the list as the terminating NUL.
-/

namespace AutoConfig

/-! ## Enumerations and global state -/

inductive ConfigType where
  | Invalid | Streaming | Recording
  deriving DecidableEq, Repr

inductive Service where
  | Twitch | Hitbox | Beam | YouTube | Other
  deriving DecidableEq, Repr

inductive Encoder where
  | x264 | NVENC | QSV | AMD | Stream | appleHW | appleHWM1
  deriving DecidableEq, Repr

inductive Quality where
  | Stream | High
  deriving DecidableEq, Repr

inductive FPSType where
  | PreferHighFPS | PreferHighRes | UseCurrent | fps30 | fps60
  deriving DecidableEq, Repr

/-- One entry of the progress queue (`class AutoConfigInfo`). The percentage is a
`double` in the source; every value pushed by the modelled code is a rational. -/
structure AutoConfigInfo where
  event : String
  description : String
  percentage : Rat
  deriving DecidableEq, Repr

/-- The file-level globals of `nodeobs_autoconfig.cpp`, with their initialisers
as field defaults. -/
structure Globals where
  events : List AutoConfigInfo := []
  serviceSelected : Service := Service.Other
  recordingQuality : Quality := Quality.Stream
  recordingEncoder : Encoder := Encoder.Stream
  streamingEncoder : Encoder := Encoder.x264
  type : ConfigType := ConfigType.Streaming
  fpsType : FPSType := FPSType.PreferHighFPS
  idealBitrate : Nat := 2500
  baseResolutionCX : Nat := 1920
  baseResolutionCY : Nat := 1080
  idealResolutionCX : Nat := 1280
  idealResolutionCY : Nat := 720
  idealFPSNum : Int := 60
  idealFPSDen : Int := 1
  serviceName : String := ""
  serverName : String := ""
  server : String := ""
  key : String := ""
  hardwareEncodingAvailable : Bool := false
  nvencAvailable : Bool := false
  jimnvencAvailable : Bool := false
  qsvAvailable : Bool := false
  vceAvailable : Bool := false
  appleHWAvailable : Bool := false
  startingBitrate : Int := 2500
  customServer : Bool := false
  bandwidthTest : Bool := true
  testRegions : Bool := true
  regionNA : Bool := false
  regionSA : Bool := false
  regionEU : Bool := false
  regionAS : Bool := false
  regionOC : Bool := false
  preferHighFPS : Bool := true
  preferHardware : Bool := true
  specificFPSNum : Int := 0
  specificFPSDen : Int := 0
  cancel : Bool := false
  started : Bool := false
  softwareTested : Bool := false
  deriving Repr

/-- `struct ServerInfo`: a default-constructed entry has empty strings,
`bitrate = 0` and `ms = -1`. -/
structure ServerInfo where
  name : String := ""
  address : String := ""
  bitrate : Int := 0
  ms : Int := -1
  deriving DecidableEq, Repr

/-! ## C string helpers -/

/-- The byte read through a `const char *` positioned at the start of `s`:
the first character, or NUL at the end of the string. -/
def cur (s : List Char) : Nat := (s.headD (Char.ofNat 0)).toNat

/-- Modelled from the spec: `astrcmp_n` is the libobs string helper the source calls
(its body is not under `src/`); the spec describes its use as case-sensitive
string-prefix comparison. The model follows the libobs loop: the result is `0`
when `n = 0`, otherwise the strings are compared byte by byte, returning `-1` or
`1` at the first difference and `0` when a NUL is reached or `n` bytes agreed. -/
def astrcmp_n : List Char → List Char → Nat → Int
  | _, _, 0 => 0
  | s1, s2, n + 1 =>
    if cur s1 < cur s2 then -1
    else if cur s1 > cur s2 then 1
    else if cur s1 = 0 then 0
    else if cur s2 = 0 then 0
    else astrcmp_n s1.tail s2.tail n

/-- Modelled from the spec: the C library `strcmp` (not under `src/`), comparing
two NUL-terminated strings byte by byte; `0` means equal. -/
def strcmp : List Char → List Char → Int
  | [], s2 => if cur s2 = 0 then 0 else -1
  | c1 :: t1, s2 =>
    if c1.toNat < cur s2 then -1
    else if c1.toNat > cur s2 then 1
    else if c1.toNat = 0 then 0
    else strcmp t1 s2.tail

/-! ## Server candidate selection -/

/-- `autoConfig::CanTestServer`. In the `Beam` branch the source uses the results
of the `"Canada:"` and `"Mexico:"` comparisons as truth values (non-zero is true),
which is reproduced here. -/
def CanTestServer (g : Globals) (server : String) : Bool :=
  let s := server.toList
  let pre (p : String) : Int := astrcmp_n s p.toList p.length
  if !g.testRegions || (g.regionNA && g.regionSA && g.regionEU && g.regionAS && g.regionOC) then
    true
  else if g.serviceSelected = Service.Twitch then
    if pre "NA:" = 0 ∨ pre "US West:" = 0 ∨ pre "US East:" = 0 ∨ pre "US Central:" = 0 then
      g.regionNA
    else if pre "South America:" = 0 then g.regionSA
    else if pre "EU:" = 0 then g.regionEU
    else if pre "Asia:" = 0 then g.regionAS
    else if pre "Australia:" = 0 then g.regionOC
    else true
  else if g.serviceSelected = Service.Hitbox then
    if strcmp s "Default".toList = 0 then true
    else if pre "US-West:" = 0 ∨ pre "US-East:" = 0 then g.regionNA
    else if pre "South America:" = 0 then g.regionSA
    else if pre "EU-" = 0 then g.regionEU
    else if pre "South Korea:" = 0 ∨ pre "Asia:" = 0 ∨ pre "China:" = 0 then g.regionAS
    else if pre "Oceania:" = 0 then g.regionOC
    else true
  else if g.serviceSelected = Service.Beam then
    if pre "US:" = 0 ∨ pre "Canada:" ≠ 0 ∨ pre "Mexico:" ≠ 0 then g.regionNA
    else if pre "Brazil:" = 0 then g.regionSA
    else if pre "EU:" = 0 then g.regionEU
    else if pre "South Korea:" = 0 ∨ pre "Asia:" = 0 ∨ pre "India:" = 0 then g.regionAS
    else if pre "Australia:" = 0 then g.regionOC
    else true
  else true

/-- `GetServers`: walks the service's server catalog (pairs of display name and
address, in catalog order) and keeps the entries whose name passes `CanTestServer`. -/
def GetServers (g : Globals) : List (String × String) → List ServerInfo
  | [] => []
  | (name, server) :: rest =>
    if CanTestServer g name then
      { name := name, address := server } :: GetServers g rest
    else GetServers g rest

/-- `std::vector<ServerInfo>::resize(n)`: keeps the first `n` entries and pads with
default-constructed entries up to length `n`. -/
def resize (v : List ServerInfo) (n : Nat) : List ServerInfo :=
  v.take n ++ List.replicate (n - v.length) ({} : ServerInfo)

/-- The statement `if (servers.size() < 3) servers.resize(1);` of
`TestBandwidthThread`. -/
def useFirstIfFew (servers : List ServerInfo) : List ServerInfo :=
  if servers.length < 3 then resize servers 1 else servers

/-- The servers `TestBandwidthThread` tests: the custom server alone, or the
filtered catalog, collapsed to one entry when it has fewer than three. -/
def serversToTest (g : Globals) (catalog : List (String × String)) : List ServerInfo :=
  useFirstIfFew
    (if g.customServer then [{ name := g.server, address := g.server }] else GetServers g catalog)

/-! ## Machine arithmetic -/

/-- Conversion to a 32-bit `int`: the value modulo `2^32`, taken in
`[-2^31, 2^31)`. Used for the casts `(int)x` and for the result of `int`
multiplications. -/
def toInt32 (x : Int) : Int := (x + 2147483648) % 4294967296 - 2147483648

/-- Conversion to `uint64_t`: the value modulo `2^64`. -/
def toUInt64 (x : Int) : Nat := (x % 18446744073709551616).toNat

/-- The C library `abs` on `int`. -/
def cabs (x : Int) : Int := toInt32 (if x < 0 then -x else x)

/-! ## Bandwidth evaluation -/

/-- The measured bitrate of `EvaluateBandwidth` in kbps:
`(uint64_t)total_bytes * 8U * 1000000000U / total_time / 1000U` when
`total_time > 0`, else `0`. `total_bytes` is an `int`, `total_time` a `uint64_t`. -/
def measuredBitrate (total_bytes : Int) (total_time : Nat) : Nat :=
  if total_time > 0 then
    (toUInt64 total_bytes * 8 % 18446744073709551616 * 1000000000 % 18446744073709551616)
      / total_time / 1000
  else 0

/-- The bitrate `EvaluateBandwidth` stores in `server.bitrate`: the measured bitrate
scaled by `70 / 100` when frames were dropped or the measured bitrate is below
`startingBitrate * 75 / 100`, else `startingBitrate`. -/
def usableBitrate (framesDropped : Int) (bitrate : Nat) (startingBitrate : Int) : Int :=
  if framesDropped ≠ 0 ∨
      toInt32 bitrate < Int.tdiv (toInt32 (startingBitrate * 75)) 100 then
    Int.tdiv (toInt32 (toInt32 bitrate * 70)) 100
  else startingBitrate

/-- What one call of `EvaluateBandwidth` observes of its environment: the output,
the flags written by the signal callbacks and by `StopThread`, and the clock. -/
structure OutputRun where
  /-- Result of `obs_output_start(output)`. -/
  startOk : Bool
  /-- Value of `cancel` right after taking the lock. -/
  cancelAtLock : Bool
  /-- Value of `cancel` after the connect wait. -/
  cancelAfterConnect : Bool
  /-- Value of `connected` after the connect wait. -/
  connected : Bool
  /-- Value of `stopped` after the 10 second window. -/
  stoppedInWindow : Bool
  /-- Value of `cancel` after the 10 second window. -/
  cancelInWindow : Bool
  /-- For each iteration of the loop after `obs_output_stop`: the value of
  `obs_output_active(output)` and of `errorOnStop`. -/
  polls : List (Bool × Bool)
  /-- The difference `os_gettime_ns() - t_start`, a `uint64_t`. -/
  total_time : Nat
  /-- Result of `obs_output_get_total_bytes(output)`, a `uint64_t`. -/
  totalBytes : Nat
  /-- Result of `obs_data_get_int(vencoder_settings, "bitrate")`. -/
  bitrateSetting : Int
  /-- Result of `obs_output_get_frames_dropped(output)`. -/
  framesDropped : Int
  /-- Result of `obs_output_get_connect_time_ms(output)`. -/
  connectTimeMs : Int
  /-- Value of `cancel` when the wait for the stop signal (`cv.wait(ul)` after the
  loop) returns. `EvaluateBandwidth` does not read it. -/
  cancelAfterStop : Bool := false
  /-- Value of `cancel` when the wait for the deactivate signal (the last
  `cv.wait(ul)`) returns. `EvaluateBandwidth` does not read it. -/
  cancelAfterDeactivate : Bool := false
  deriving Repr

/-- How the loop `while (!obs_output_active(output))` ends on a finite sequence of
observations. -/
inductive PollOutcome where
  /-- The output was seen active: the loop exits. -/
  | exited
  /-- The branch on `errorOnStop` was taken inside the loop. -/
  | aborted
  /-- Every observation kept the loop running. -/
  | running
  deriving DecidableEq, Repr

/-- The loop `while (!obs_output_active(output)) { if (errorOnStop) ...; sleep }`. -/
def pollLoop : List (Bool × Bool) → PollOutcome
  | [] => PollOutcome.running
  | (active, errorOnStop) :: rest =>
    if !active then
      if errorOnStop then PollOutcome.aborted else pollLoop rest
    else PollOutcome.exited

/-- The effect of one call of `EvaluateBandwidth`. -/
structure EvalResult where
  /-- The returned `int`. -/
  ret : Int
  /-- The `ServerInfo &server` argument after the call. -/
  server : ServerInfo
  /-- The `bool &success` argument after the call. -/
  success : Bool
  /-- The global `startingBitrate` after the call. -/
  startingBitrate : Int
  /-- Whether `obs_output_force_stop` was called. -/
  forceStopped : Bool
  deriving DecidableEq, Repr

/-- `EvaluateBandwidth`. The result is `none` when the observations run out while
the loop after `obs_output_stop` is still running. -/
def EvaluateBandwidth (run : OutputRun) (server : ServerInfo) (success : Bool)
    (startingBitrate : Int) : Option EvalResult :=
  let fail (forced : Bool) : Option EvalResult :=
    some { ret := -1, server := server, success := success,
           startingBitrate := startingBitrate, forceStopped := forced }
  if !run.startOk then fail false
  else if run.cancelAtLock then fail true
  else if run.cancelAfterConnect then fail true
  else if !run.connected then fail false
  else if run.stoppedInWindow then fail false
  else if run.cancelInWindow then fail true
  else
    match pollLoop run.polls with
    | PollOutcome.running => none
    | PollOutcome.aborted => fail true
    | PollOutcome.exited =>
      let total_bytes : Int := toInt32 run.totalBytes
      let bitrate : Nat := measuredBitrate total_bytes run.total_time
      let startingBitrate1 : Int := toInt32 run.bitrateSetting
      some { ret := 0,
             server :=
               { server with
                 bitrate := usableBitrate run.framesDropped bitrate startingBitrate1,
                 ms := run.connectTimeMs },
             success := true,
             startingBitrate := startingBitrate1,
             forceStopped := false }

/-- A run in which the output starts, connects, is not cancelled or stopped early
and is seen active at the first poll, so that `EvaluateBandwidth` reaches its
verdict; the connect time is 30 ms. -/
def completedRun (totalBytes total_time : Nat) (bitrateSetting framesDropped : Int) :
    OutputRun :=
  { startOk := true, cancelAtLock := false, cancelAfterConnect := false, connected := true,
    stoppedInWindow := false, cancelInWindow := false, polls := [(true, false)],
    total_time := total_time, totalBytes := totalBytes, bitrateSetting := bitrateSetting,
    framesDropped := framesDropped, connectTimeMs := 30 }

/-! ## Best-server selection -/

/-- The locals `bestServer`, `bestServerName`, `bestBitrate`, `bestMS` of
`TestBandwidthThread`, with their initial values. -/
structure Best where
  bestServer : String := ""
  bestServerName : String := ""
  bestBitrate : Int := 0
  bestMS : Int := 2147483647
  deriving DecidableEq, Repr

/-- One iteration of the selection loop `for (auto &server : servers)`. -/
def selectStep (b : Best) (server : ServerInfo) : Best :=
  let close : Bool := decide (cabs (toInt32 (server.bitrate - b.bestBitrate)) < 400)
  if (!close && decide (server.bitrate > b.bestBitrate)) ||
      (close && decide (server.ms < b.bestMS)) then
    { bestServer := server.address, bestServerName := server.name,
      bestBitrate := server.bitrate, bestMS := server.ms }
  else b

/-- The selection loop over all tested servers. -/
def selectBest (b : Best) (servers : List ServerInfo) : Best :=
  servers.foldl selectStep b

/-- The selection holds the data of the server `s`. -/
def Picks (b : Best) (s : ServerInfo) : Prop :=
  b.bestServer = s.address ∧ b.bestServerName = s.name ∧ b.bestBitrate = s.bitrate ∧
    b.bestMS = s.ms

instance (b : Best) (s : ServerInfo) : Decidable (Picks b s) := by
  unfold Picks; infer_instance

/-- A server left at the defaults of `ServerInfo` because its evaluation failed. -/
def Failed (s : ServerInfo) : Prop := s.bitrate = 0 ∧ s.ms = -1

/-- A successfully evaluated server: a non-negative `int` bitrate and a
non-negative round-trip time. -/
def Evaluated (s : ServerInfo) : Prop :=
  0 ≤ s.bitrate ∧ s.bitrate < 2147483648 ∧ 0 ≤ s.ms ∧ s.ms < 2147483647

instance (s : ServerInfo) : Decidable (Failed s) := by
  unfold Failed; infer_instance

instance (s : ServerInfo) : Decidable (Evaluated s) := by
  unfold Evaluated; infer_instance

/-- A label starts with the prefix `p` (character-wise, case-sensitive). -/
def StartsWith (label p : String) : Prop := p.toList <+: label.toList

instance (label p : String) : Decidable (StartsWith label p) := by
  unfold StartsWith; infer_instance

/-! ## Progress event queue -/

/-- Appends an event to the progress queue (`events.push(...)` under `eventsMutex`). -/
def pushEvent (g : Globals) (event description : String) (percentage : Rat) : Globals :=
  { g with events := g.events ++ [{ event := event, description := description,
                                    percentage := percentage }] }

/-- `sendErrorMessage`: pushes an event of kind "error" with percentage 0. -/
def sendErrorMessage (g : Globals) (message : String) : Globals :=
  pushEvent g "error" message 0

/-- The values a reply carries (`ipc::value`). -/
inductive IpcValue where
  /-- The reply `ipc::value((uint64_t)ErrorCode::Ok)`. -/
  | errorCodeOk
  /-- A string value. -/
  | string (s : String)
  /-- A floating-point value. -/
  | double (q : Rat)
  /-- A 32-bit unsigned value. -/
  | uint32 (n : Nat)
  deriving DecidableEq, Repr

/-- `autoConfig::Query`: replies `Ok` alone on an empty queue, else `Ok` followed by
the fields of `events.front()`, which is popped. -/
def Query (g : Globals) : List IpcValue × Globals :=
  match g.events with
  | [] => ([IpcValue.errorCodeOk], g)
  | e :: rest =>
    ([IpcValue.errorCodeOk, IpcValue.string e.event, IpcValue.string e.description,
      IpcValue.double e.percentage], { g with events := rest })

/-- An operation on the progress queue: a push by a probe, or a `Query` call. -/
inductive QueueOp where
  | push (e : AutoConfigInfo)
  | query
  deriving DecidableEq, Repr

/-- The reply `Query` gives when it returns the event `e`. -/
def replyOf (e : AutoConfigInfo) : List IpcValue :=
  [IpcValue.errorCodeOk, IpcValue.string e.event, IpcValue.string e.description,
   IpcValue.double e.percentage]

/-- Runs a sequence of queue operations; returns the replies of the `Query` calls in
call order and the final state. -/
def runQueueOps : List QueueOp → Globals → List (List IpcValue) × Globals
  | [], g => ([], g)
  | QueueOp.push e :: ops, g =>
    runQueueOps ops (pushEvent g e.event e.description e.percentage)
  | QueueOp.query :: ops, g =>
    let r := Query g
    let rest := runQueueOps ops r.2
    (r.1 :: rest.1, rest.2)

/-- The events pushed by a sequence of operations, in push order. -/
def pushedBy : List QueueOp → List AutoConfigInfo
  | [] => []
  | QueueOp.push e :: ops => e :: pushedBy ops
  | QueueOp.query :: ops => pushedBy ops

/-! ## Hardware encoder detection and default settings -/

/-- The value of the macro `APPLE_HARDWARE_VIDEO_ENCODER` (`nodeobs_service.h`). -/
def APPLE_HARDWARE_VIDEO_ENCODER : String := "com.apple.videotoolbox.videoencoder.h264.gva"

/-- The value of the macro `APPLE_HARDWARE_VIDEO_ENCODER_M1` (`nodeobs_service.h`). -/
def APPLE_HARDWARE_VIDEO_ENCODER_M1 : String := "com.apple.videotoolbox.videoencoder.ave.avc"

/-- The body of the loop of `TestHardwareEncoding` for one enumerated identifier
(`none` is a null `id`, which is skipped). -/
def detectEncoder (g : Globals) (id : Option String) : Globals :=
  match id with
  | none => g
  | some id =>
    let is (name : String) : Bool := decide (strcmp id.toList name.toList = 0)
    let g1 : Globals :=
      if is "ffmpeg_nvenc" then { g with hardwareEncodingAvailable := true, nvencAvailable := true }
      else g
    if is "jim_nvenc" then
      { g1 with hardwareEncodingAvailable := true, jimnvencAvailable := true }
    else if is "obs_qsv11" then
      { g1 with hardwareEncodingAvailable := true, qsvAvailable := true }
    else if is "amd_amf_h264" then
      { g1 with hardwareEncodingAvailable := true, vceAvailable := true }
    else if is APPLE_HARDWARE_VIDEO_ENCODER || is APPLE_HARDWARE_VIDEO_ENCODER_M1 then
      { g1 with hardwareEncodingAvailable := true, appleHWAvailable := true }
    else g1

/-- `autoConfig::TestHardwareEncoding` over the identifiers enumerated by
`obs_enum_encoder_types`, in enumeration order. -/
def TestHardwareEncoding (g : Globals) (ids : List (Option String)) : Globals :=
  ids.foldl detectEncoder g

/-- `autoConfig::SetDefaultSettings`. -/
def SetDefaultSettings (g : Globals) : Globals :=
  let g1 := pushEvent g "starting_step" "setting_default_settings" 0
  let g2 : Globals :=
    { g1 with idealResolutionCX := 1280, idealResolutionCY := 720, idealFPSNum := 30,
              recordingQuality := Quality.High, idealBitrate := 2500,
              streamingEncoder := Encoder.x264, recordingEncoder := Encoder.Stream }
  pushEvent g2 "stopping_step" "setting_default_settings" 100

/-! ## Resolution and bitrate estimation -/

/-- `struct Result`: a candidate output resolution and frame rate. -/
structure Result where
  cx : Int
  cy : Int
  fps_num : Int
  fps_den : Int
  deriving DecidableEq, Repr

/-- The divisors passed to `testRes`, in source order: `1.0`, `1.5`, `1.0 / 0.6`,
`2.0` and `2.25`. -/
inductive Divisor where
  | d1_0 | d1_5 | d1_0_over_0_6 | d2_0 | d2_25
  deriving DecidableEq, Repr

/-- The two computations of the estimator that go through the floating-point
library, taken as parameters. Every finite `long double` is a rational number. -/
structure Numerics where
  /-- The value `int((long double)base / div)`. -/
  scale : Divisor → Int → Int
  /-- The value `EstimateBitrateVal(cx, cy, fps_num, fps_den)`, computed in the
  source with `pow` and `sqrt`. -/
  bitrateVal : Int → Int → Int → Int → Rat

/-- What the machine and the live encoder sessions report to the encoder probes. -/
structure EncodeProbe where
  /-- Whether `obs_set_video_info` returned `OBS_VIDEO_SUCCESS`. -/
  setVideoOk : Bool
  /-- Value of `cancel` after taking the lock. -/
  cancelAtLock : Bool
  /-- Result of `obs_output_start(output)`. -/
  startOk : Bool
  /-- The value `(int)video_output_get_skipped_frames(obs_get_video())`. -/
  skipped : Int
  /-- Value of `cancel` when `testRes` returns. -/
  cancelAtEnd : Bool
  deriving DecidableEq, Repr

/-- The environment of the encoder probes. -/
structure EncoderEnv where
  /-- The identifiers enumerated by `obs_enum_encoder_types` (`none` for null). -/
  encoders : List (Option String)
  /-- Result of `os_get_physical_cores()`. -/
  pcores : Int
  /-- Result of `os_get_logical_cores()`. -/
  lcores : Int
  /-- The observations of the live test made by the `i`-th call of `testRes`. -/
  probe : Nat → EncodeProbe

/-- The constant `std::numeric_limits<double>::epsilon()`, which is `2^-52`. -/
def epsilon : Rat := 1 / 4503599627370496

/-- Conversion `int(x)` of a floating-point value: truncation towards zero. -/
def truncToInt (q : Rat) : Int := toInt32 (Int.tdiv q.num q.den)

/-- `EstimateMinBitrate`: the cost of the candidate relative to the cost of the base
resolution at 60 fps, which stands for 5800 kbps. -/
def EstimateMinBitrate (N : Numerics) (g : Globals) (cx cy fps_num fps_den : Int) : Rat :=
  let val : Rat :=
    N.bitrateVal (toInt32 g.baseResolutionCX) (toInt32 g.baseResolutionCY) 60 1 / 5800
  if val < epsilon ∧ val > -epsilon then 0
  else N.bitrateVal cx cy fps_num fps_den / val

/-- `EstimateUpperBitrate`: the cost of the candidate relative to the cost of
1280x720 at 30 fps, which stands for 3000 kbps. -/
def EstimateUpperBitrate (N : Numerics) (cx cy fps_num fps_den : Int) : Rat :=
  let val : Rat := N.bitrateVal 1280 720 30 1 / 3000
  if val < epsilon ∧ val > -epsilon then 0
  else N.bitrateVal cx cy fps_num fps_den / val

/-- The value `int(baseResolutionCX * baseResolutionCY * fps + 1000)`: a `uint64_t`
expression converted to `int`. -/
def baseDataRate (g : Globals) (fps : Nat) : Int :=
  toInt32 (((g.baseResolutionCX * g.baseResolutionCY * fps + 1000) % 18446744073709551616 : Nat) : Int)

/-- The arguments of one call of `testRes`. -/
structure TestCall where
  div : Divisor
  fps_num : Int
  fps_den : Int
  force : Bool
  deriving DecidableEq, Repr

/-- The five calls made when a specific frame rate is set. -/
def fixedFpsCalls : List TestCall :=
  [⟨Divisor.d1_0, 0, 0, false⟩, ⟨Divisor.d1_5, 0, 0, false⟩,
   ⟨Divisor.d1_0_over_0_6, 0, 0, false⟩, ⟨Divisor.d2_0, 0, 0, false⟩,
   ⟨Divisor.d2_25, 0, 0, true⟩]

/-- The ten calls made otherwise: each divisor at 60 fps, then at 30 fps. -/
def autoFpsCalls : List TestCall :=
  [⟨Divisor.d1_0, 60, 1, false⟩, ⟨Divisor.d1_0, 30, 1, false⟩,
   ⟨Divisor.d1_5, 60, 1, false⟩, ⟨Divisor.d1_5, 30, 1, false⟩,
   ⟨Divisor.d1_0_over_0_6, 60, 1, false⟩, ⟨Divisor.d1_0_over_0_6, 30, 1, false⟩,
   ⟨Divisor.d2_0, 60, 1, false⟩, ⟨Divisor.d2_0, 30, 1, false⟩,
   ⟨Divisor.d2_25, 60, 1, false⟩, ⟨Divisor.d2_25, 30, 1, true⟩]

/-- The calls the probes make: `if (specificFPSNum && specificFPSDen) ... else ...`. -/
def testCalls (g : Globals) : List TestCall :=
  if g.specificFPSNum ≠ 0 ∧ g.specificFPSDen ≠ 0 then fixedFpsCalls else autoFpsCalls

/-- The candidate a call of `testRes` computes: the frame rate (replaced by the
specific one when `fps_num` or `fps_den` is zero) and the scaled base resolution. -/
def candidateOf (N : Numerics) (g : Globals) (c : TestCall) : Result :=
  let zero : Bool := decide (c.fps_num = 0) || decide (c.fps_den = 0)
  { cx := N.scale c.div (toInt32 g.baseResolutionCX),
    cy := N.scale c.div (toInt32 g.baseResolutionCY),
    fps_num := if zero then g.specificFPSNum else c.fps_num,
    fps_den := if zero then g.specificFPSDen else c.fps_den }

/-- The value `rate = (long double)cx * (long double)cy * fps` of `testRes`. -/
def dataRate (r : Result) : Rat := (r.cx : Rat) * (r.cy : Rat) * ((r.fps_num : Rat) / (r.fps_den : Rat))

/-- The lambda `testRes` of `FindIdealHardwareResolution`. -/
def testResHardware (N : Numerics) (g : Globals) (maxDataRate : Int) (results : List Result)
    (c : TestCall) : List Result :=
  if results.length ≥ 3 then results
  else
    let r := candidateOf N g c
    if !c.force && decide (dataRate r > (maxDataRate : Rat)) then results
    else
      let minBitrate : Int :=
        truncToInt (EstimateMinBitrate N g r.cx r.cy r.fps_num r.fps_den * 114 / 100)
      let force : Bool := c.force || decide (g.type = ConfigType.Recording)
      if force || decide (g.idealBitrate ≥ toUInt64 minBitrate) then results ++ [r]
      else results

/-- The preference for the higher frame rate applied to the candidate list: when no
specific frame rate is set, `preferHighFPS` holds and the first two candidates are at
30 and 60 fps, the first is erased if the area of the second reaches `minArea`. -/
def dropLowFPS (g : Globals) (results : List Result) : List Result :=
  let minArea : Int := 960 * 540 + 1000
  if g.specificFPSNum = 0 ∧ g.preferHighFPS = true ∧ results.length > 1 then
    match results with
    | result1 :: result2 :: rest =>
      if result1.fps_num = 30 ∧ result2.fps_num = 60 then
        let nextArea : Int := toInt32 (result2.cx * result2.cy)
        if nextArea ≥ minArea then result2 :: rest else results
      else results
    | _ => results
  else results

/-- The assignments of the chosen `result` to the ideal resolution and frame rate,
with the cap to 1280x720 evaluated in `uint64_t`. -/
def applyResult (g : Globals) (result : Result) : Globals :=
  let cx : Nat := toUInt64 result.cx
  let cy : Nat := toUInt64 result.cy
  let over : Bool := decide (cx * cy % 18446744073709551616 > 1280 * 720)
  { g with idealResolutionCX := if over then 1280 else cx,
           idealResolutionCY := if over then 720 else cy,
           idealFPSNum := result.fps_num,
           idealFPSDen := result.fps_den }

/-- The candidate list `FindIdealHardwareResolution` holds after its calls of
`testRes`. -/
def hardwareCandidates (N : Numerics) (pcores : Int) (g : Globals) : List Result :=
  let maxDataRate : Int := if pcores ≥ 4 then baseDataRate g 60 else 1280 * 720 * 30 + 1000
  (testCalls g).foldl (testResHardware N g maxDataRate) []

/-- `autoConfig::FindIdealHardwareResolution`. The result is `none` when
`results.front()` would be taken from an empty vector. -/
def FindIdealHardwareResolution (N : Numerics) (pcores : Int) (g : Globals) : Option Globals :=
  match (dropLowFPS g (hardwareCandidates N pcores g)).head? with
  | none => none
  | some result => some (applyResult g result)

/-- The lambda `testRes` of `TestSoftwareEncoding` at its `i`-th call: the returned
`bool` and the candidate list after the call. -/
def testResSoftware (N : Numerics) (env : EncoderEnv) (g : Globals) (maxDataRate : Int)
    (i : Nat) (results : List Result) (c : TestCall) : Bool × List Result :=
  if results.length ≥ 3 then (true, results)
  else
    let r := candidateOf N g c
    let est : Int := truncToInt (EstimateMinBitrate N g r.cx r.cy r.fps_num r.fps_den)
    if !c.force && decide (g.type ≠ ConfigType.Recording) &&
        decide (toUInt64 est > g.idealBitrate) then (true, results)
    else if !c.force && decide (dataRate r > (maxDataRate : Rat)) then (true, results)
    else
      let p := env.probe i
      if !p.setVideoOk then (false, results)
      else if p.cancelAtLock then (false, results)
      else if !p.startOk then (false, results)
      else
        (!p.cancelAtEnd,
         if c.force || decide (p.skipped ≤ 10) then results ++ [r] else results)

/-- The chain `if (!testRes(...)) return false;`: the candidate list after all
calls, or `none` when some call returned `false`. The counter `i` is incremented
at the start of every call. -/
def softwareTests (N : Numerics) (env : EncoderEnv) (g : Globals) (maxDataRate : Int) :
    List TestCall → Nat → List Result → Option (List Result)
  | [], _, results => some results
  | c :: cs, i, results =>
    let out := testResSoftware N env g maxDataRate (i + 1) results c
    if out.1 then softwareTests N env g maxDataRate cs (i + 1) out.2 else none

/-- The test data rate `TestSoftwareEncoding` allows, by core counts. -/
def softwareMaxDataRate (env : EncoderEnv) (g : Globals) : Int :=
  if env.lcores > 8 ∨ env.pcores > 4 then baseDataRate g 60
  else if env.lcores > 4 ∧ env.pcores = 4 then baseDataRate g 60
  else if env.pcores = 4 then baseDataRate g 30
  else 960 * 540 * 30 + 1000

/-- The candidate list of `TestSoftwareEncoding`, `none` when a live test failed or
was cancelled. -/
def softwareCandidates (N : Numerics) (env : EncoderEnv) (g : Globals) : Option (List Result) :=
  softwareTests N env g (softwareMaxDataRate env g) (testCalls g) 0 []

/-- The clamp of `idealBitrate` at the end of `TestSoftwareEncoding`:
`upperBitrate = int(floor(fUpperBitrate / 50) * 50)`, scaled by `114 / 100` in `int`
arithmetic unless the streaming encoder is x264, compared with `idealBitrate` as
`uint64_t`. -/
def clampIdealBitrate (g : Globals) (fUpperBitrate : Rat) : Globals :=
  let upperBitrate0 : Int := toInt32 (⌊fUpperBitrate / 50⌋ * 50)
  let upperBitrate : Int :=
    if g.streamingEncoder ≠ Encoder.x264 then Int.tdiv (toInt32 (upperBitrate0 * 114)) 100
    else upperBitrate0
  if g.idealBitrate > toUInt64 upperBitrate then { g with idealBitrate := toUInt64 upperBitrate }
  else g

/-- `autoConfig::TestSoftwareEncoding`: the returned `bool` and the globals after the
call. The result is `none` when `results.front()` would be taken from an empty
vector. -/
def TestSoftwareEncoding (N : Numerics) (env : EncoderEnv) (g : Globals) :
    Option (Bool × Globals) :=
  match softwareCandidates N env g with
  | none => some (false, g)
  | some results =>
    match (dropLowFPS g results).head? with
    | none => none
    | some result =>
      let g1 := applyResult g result
      let g2 := clampIdealBitrate g1
        (EstimateUpperBitrate N result.cx result.cy result.fps_num result.fps_den)
      some (true, { g2 with softwareTested := true })

/-- A sample instance of the floating-point parameters: exact scaling by the
nominal divisors, rounded down, and a cost equal to the pixel rate. -/
def sampleNumerics : Numerics :=
  { scale := fun d b =>
      match d with
      | Divisor.d1_0 => b
      | Divisor.d1_5 => b * 2 / 3
      | Divisor.d1_0_over_0_6 => b * 3 / 5
      | Divisor.d2_0 => b / 2
      | Divisor.d2_25 => b * 4 / 9,
    bitrateVal := fun cx cy fps_num fps_den => ((cx * cy * fps_num : Int) : Rat) / (fps_den : Rat) }

/-- A live test that starts, is not cancelled and skips no frame. -/
def goodProbe : EncodeProbe :=
  { setVideoOk := true, cancelAtLock := false, startOk := true, skipped := 0,
    cancelAtEnd := false }

/-- A machine with four physical and eight logical cores, no hardware encoder, on
which every live test succeeds. -/
def sampleEnv : EncoderEnv :=
  { encoders := [some "obs_x264"], pcores := 4, lcores := 8, probe := fun _ => goodProbe }

/-- The invariant on the ideal resolution: its area is at most 1280x720. -/
def AreaBounded (g : Globals) : Prop := g.idealResolutionCX * g.idealResolutionCY ≤ 1280 * 720

instance (g : Globals) : Decidable (AreaBounded g) := by
  unfold AreaBounded; infer_instance

/-- The scaled base resolutions are non-negative `int` values, as they are for every
base resolution that fits an `int`. -/
def ScalesInRange (N : Numerics) (g : Globals) : Prop :=
  ∀ d : Divisor,
    (0 ≤ N.scale d (toInt32 g.baseResolutionCX) ∧
      N.scale d (toInt32 g.baseResolutionCX) < 2147483648) ∧
    (0 ≤ N.scale d (toInt32 g.baseResolutionCY) ∧
      N.scale d (toInt32 g.baseResolutionCY) < 2147483648)

deriving instance DecidableEq for Globals

/-- The globals after a successful `TestSoftwareEncoding` that chose the candidate
`r`, starting from `g`. -/
def afterSoftwareTest (N : Numerics) (g : Globals) (r : Result) : Globals :=
  { clampIdealBitrate (applyResult g r) (EstimateUpperBitrate N r.cx r.cy r.fps_num r.fps_den)
    with softwareTested := true }

/-! ## Encoder probes -/

/-- The choice of the streaming encoder at the end of `TestStreamEncoderThread`:
by hardware family when the software test has not run, else x264. The branch for
Apple hardware is commented out in the source. -/
def chooseStreamingEncoder (g : Globals) : Globals :=
  if !g.softwareTested then
    if g.nvencAvailable || g.jimnvencAvailable then { g with streamingEncoder := Encoder.NVENC }
    else if g.qsvAvailable then { g with streamingEncoder := Encoder.QSV }
    else if g.vceAvailable then { g with streamingEncoder := Encoder.AMD }
    else g
  else { g with streamingEncoder := Encoder.x264 }

/-- The choice of the recording encoder and quality at the end of
`TestRecordingEncoderThread`. -/
def chooseRecordingEncoder (g : Globals) : Globals :=
  let g5 : Globals := { g with recordingQuality := Quality.High }
  let recordingOnly : Bool := decide (g5.type = ConfigType.Recording)
  let g6 : Globals :=
    if g5.hardwareEncodingAvailable then
      if g5.nvencAvailable || g5.jimnvencAvailable then
        { g5 with recordingEncoder := Encoder.NVENC }
      else if g5.qsvAvailable then { g5 with recordingEncoder := Encoder.QSV }
      else if g5.vceAvailable then { g5 with recordingEncoder := Encoder.AMD }
      else g5
    else { g5 with recordingEncoder := Encoder.x264 }
  if g6.recordingEncoder ≠ Encoder.NVENC then
    if !recordingOnly then
      { g6 with recordingEncoder := Encoder.Stream, recordingQuality := Quality.Stream }
    else g6
  else g6

/-- `autoConfig::TestStreamEncoderThread`. The flag of the result tells whether the
function ran to its end (and pushed its `stopping_step`) rather than returning
early; the result is `none` when `results.front()` would be taken from an empty
vector. -/
def TestStreamEncoderThread (N : Numerics) (env : EncoderEnv) (g : Globals) :
    Option (Bool × Globals) :=
  let g1 := pushEvent g "starting_step" "streamingEncoder_test" 0
  let g2 := TestHardwareEncoding g1 env.encoders
  let tested : Option (Bool × Globals) :=
    if !g2.softwareTested && (!g2.preferHardware || !g2.hardwareEncodingAvailable) then
      TestSoftwareEncoding N env g2
    else some (true, g2)
  match tested with
  | none => none
  | some (false, g3) => some (false, g3)
  | some (true, g3) =>
    let found : Option Globals :=
      if g3.preferHardware && !g3.softwareTested && g3.hardwareEncodingAvailable then
        FindIdealHardwareResolution N env.pcores g3
      else some g3
    match found with
    | none => none
    | some g4 =>
      some (true, pushEvent (chooseStreamingEncoder g4) "stopping_step" "streamingEncoder_test" 100)

/-- `autoConfig::TestRecordingEncoderThread`, with the same conventions as
`TestStreamEncoderThread`. -/
def TestRecordingEncoderThread (N : Numerics) (env : EncoderEnv) (g : Globals) :
    Option (Bool × Globals) :=
  let g1 := pushEvent g "starting_step" "recordingEncoder_test" 0
  let g2 := TestHardwareEncoding g1 env.encoders
  let tested : Option (Bool × Globals) :=
    if !g2.hardwareEncodingAvailable && !g2.softwareTested then TestSoftwareEncoding N env g2
    else some (true, g2)
  match tested with
  | none => none
  | some (false, g3) => some (false, g3)
  | some (true, g3) =>
    let found : Option Globals :=
      if decide (g3.type = ConfigType.Recording) && g3.hardwareEncodingAvailable then
        FindIdealHardwareResolution N env.pcores g3
      else some g3
    match found with
    | none => none
    | some g4 =>
      some (true, pushEvent (chooseRecordingEncoder g4) "stopping_step" "recordingEncoder_test" 100)

/-- The fields the encoder decisions read and write, apart from `softwareTested`. -/
structure EncoderView where
  type : ConfigType
  preferHardware : Bool
  hardwareEncodingAvailable : Bool
  nvencAvailable : Bool
  jimnvencAvailable : Bool
  qsvAvailable : Bool
  vceAvailable : Bool
  appleHWAvailable : Bool
  streamingEncoder : Encoder
  recordingEncoder : Encoder
  recordingQuality : Quality
  deriving DecidableEq, Repr

/-- The encoder-related fields of the globals. -/
def encoderView (g : Globals) : EncoderView :=
  { type := g.type, preferHardware := g.preferHardware,
    hardwareEncodingAvailable := g.hardwareEncodingAvailable,
    nvencAvailable := g.nvencAvailable, jimnvencAvailable := g.jimnvencAvailable,
    qsvAvailable := g.qsvAvailable, vceAvailable := g.vceAvailable,
    appleHWAvailable := g.appleHWAvailable, streamingEncoder := g.streamingEncoder,
    recordingEncoder := g.recordingEncoder, recordingQuality := g.recordingQuality }

/-- The facts about the capability flags that hold in every state reached from the
initial one: the combined flag is the disjunction of the family flags, and the
recording encoder is NVENC only if an NVENC variant was detected. -/
def FlagsConsistent (g : Globals) : Prop :=
  g.hardwareEncodingAvailable =
      (g.nvencAvailable || g.jimnvencAvailable || g.qsvAvailable || g.vceAvailable ||
        g.appleHWAvailable) ∧
    (g.recordingEncoder = Encoder.NVENC →
      (g.nvencAvailable || g.jimnvencAvailable) = true)

instance (g : Globals) : Decidable (FlagsConsistent g) := by
  unfold FlagsConsistent; infer_instance

/-- A machine like `sampleEnv` that enumerates the given encoders. -/
def envWithEncoders (ids : List (Option String)) : EncoderEnv :=
  { sampleEnv with encoders := ids }

/-- A machine like `sampleEnv` on which the output of the live test does not
start. -/
def envOutputFails : EncoderEnv :=
  { sampleEnv with probe := fun _ => { goodProbe with startOk := false } }

/-- The globals after the stream-encoder probe on a machine that enumerates only
`obs_qsv11`, from the initial state. -/
def sampleStreamRun : Globals :=
  ((TestStreamEncoderThread sampleNumerics (envWithEncoders [some "obs_qsv11"]) {}).getD
    (false, {})).2

/-- `string_depad_key`: removes trailing spaces, tabs, line feeds and carriage
returns, one `pop_back` at a time. -/
def string_depad_key (key : String) : String :=
  ⟨(key.data.reverse.dropWhile
      (fun ch => ch = ' ' || ch = '\t' || ch = '\n' || ch = '\r')).reverse⟩

/-- What `OBS_service::getService(StreamServiceId::Main)` gives access to. -/
structure CurrentService where
  /-- Whether `obs_service_get_settings` returned a non-null object. -/
  hasSettings : Bool
  /-- The value `obs_data_get_string(currentServiceSettings, "service")`. -/
  service : String
  /-- The value `obs_service_get_key(currentService)`. -/
  key : String
  /-- The value `obs_service_get_url(currentService)`. -/
  url : String
  deriving DecidableEq, Repr

/-- The environment of one run of `TestBandwidthThread`. -/
structure BandwidthEnv where
  /-- Whether `obs_set_video_info` returned `OBS_VIDEO_SUCCESS`. -/
  videoInfoOk : Bool
  /-- The current service, `none` for a null pointer. -/
  currentService : Option CurrentService
  /-- The server list of the service, as display name and address. -/
  catalog : List (String × String)
  /-- What the call number `i` (from 0) of `EvaluateBandwidth` observes. -/
  runs : Nat → OutputRun

/-- The result of a run of `TestBandwidthThread`: the globals, and the key written
to `service_settings` for the test when the run got that far. -/
structure BandwidthOutcome where
  g : Globals
  keyToEvaluate : Option String
  deriving DecidableEq, Repr

/-- The loop `for (size_t i = 0; i < servers.size(); i++)` of the probe from index
`i`: every server is evaluated and a progress event is pushed after each. Returns
the evaluated servers, the globals and `success`; `none` when an evaluation does
not come to an end. -/
def evaluateServers (env : BandwidthEnv) (size : Nat) :
    List ServerInfo → Nat → Globals → Bool → Option (List ServerInfo × Globals × Bool)
  | [], _, g, success => some ([], g, success)
  | s :: rest, i, g, success =>
    match EvaluateBandwidth (env.runs i) s success g.startingBitrate with
    | none => none
    | some r =>
      let g1 := pushEvent { g with startingBitrate := r.startingBitrate } "progress"
        "bandwidth_test" (((i : Rat) + 1) * 100 / (size : Rat))
      match evaluateServers env size rest (i + 1) g1 r.success with
      | none => none
      | some (rest1, g2, success1) => some (r.server :: rest1, g2, success1)

/-- The assignment of `serviceSelected` from `serviceName` and `customServer`. -/
def selectService (g : Globals) : Service :=
  if !g.customServer then
    if g.serviceName = "Twitch" then Service.Twitch
    else if g.serviceName = "hitbox.tv" then Service.Hitbox
    else if g.serviceName = "beam.pro" then Service.Beam
    else if "YouTube".data <:+: g.serviceName.data then Service.YouTube
    else Service.Other
  else Service.Other

/-- The end of `TestBandwidthThread` once the servers were tested: the error for a
run without success, the selection loop with its assignments, and the
`stopping_step`. -/
def finishBandwidthTest (g : Globals) (servers : List ServerInfo) (best : Best)
    (success gotError : Bool) : Globals :=
  let g1 := if !success && !gotError then pushEvent g "error" "invalid_stream_settings" 0 else g
  let gotError1 : Bool := gotError || !success
  if !gotError1 then
    let b := selectBest best servers
    pushEvent { g1 with server := b.bestServer, serverName := b.bestServerName,
                        idealBitrate := toUInt64 b.bestBitrate }
      "stopping_step" "bandwidth_test" 100
  else g1

/-- The part of `TestBandwidthThread` between the key check and the server list:
`serviceSelected` is assigned, for Twitch the stored key is depadded, and for
YouTube the server becomes the stream URL of the current service. -/
def prepareService (g1 : Globals) (url : String) : Globals :=
  let g2 : Globals := { g1 with serviceSelected := selectService g1 }
  let g3 : Globals :=
    if g2.serviceSelected = Service.Twitch then { g2 with key := string_depad_key g2.key }
    else g2
  if g3.serviceSelected = Service.YouTube then
    { g3 with serverName := "Stream URL", server := url }
  else g3

/-- The local `keyToEvaluate`: a copy of the key taken before the depadding, with
`"?bandwidthtest"` appended for Twitch. -/
def keyToEvaluate (g1 : Globals) : String :=
  if selectService g1 = Service.Twitch then g1.key ++ "?bandwidthtest" else g1.key

/-- The part of `TestBandwidthThread` that tests the servers and decides, from the
globals `g4` reached after the settings were prepared. -/
def testServers (env : BandwidthEnv) (g4 : Globals) : Option Globals :=
  let servers := serversToTest g4 env.catalog
  if g4.serverName ≠ "" then
    let info : ServerInfo := { name := g4.serverName, address := g4.server }
    match EvaluateBandwidth (env.runs 0) info false g4.startingBitrate with
    | none => none
    | some r =>
      let g5 : Globals := { g4 with startingBitrate := r.startingBitrate }
      if r.ret < 0 then
        some (finishBandwidthTest (pushEvent g5 "error" "invalid_stream_settings" 0) servers {}
          r.success true)
      else
        some (finishBandwidthTest (pushEvent g5 "progress" "bandwidth_test" 100) servers
          { bestServer := r.server.address, bestServerName := r.server.name,
            bestBitrate := r.server.bitrate }
          r.success false)
  else
    match evaluateServers env servers.length servers 0 g4 false with
    | none => none
    | some (servers1, g5, success) => some (finishBandwidthTest g5 servers1 {} success false)

/-- `autoConfig::TestBandwidthThread`. The result is `none` when a call of
`EvaluateBandwidth` does not come to an end. -/
def TestBandwidthThread (env : BandwidthEnv) (g : Globals) : Option BandwidthOutcome :=
  let g0 := pushEvent g "starting_step" "bandwidth_test" 0
  if !env.videoInfoOk then
    some { g := pushEvent g0 "error" "invalid_video_settings" 0, keyToEvaluate := none }
  else
    match env.currentService with
    | none => some { g := sendErrorMessage g0 "invalid_stream_settings", keyToEvaluate := none }
    | some cs =>
      if !cs.hasSettings then
        some { g := sendErrorMessage g0 "invalid_stream_settings", keyToEvaluate := none }
      else
        let g1 : Globals :=
          { g0 with serviceName := if g0.serviceName = "" then cs.service else g0.serviceName,
                    key := cs.key }
        if g1.key = "" then
          some { g := sendErrorMessage g1 "invalid_stream_settings", keyToEvaluate := none }
        else
          match testServers env (prepareService g1 cs.url) with
          | none => none
          | some g6 => some { g := g6, keyToEvaluate := some (keyToEvaluate g1) }

/-- The ideal settings a probe decides. -/
def idealSettings (g : Globals) : Nat × Nat × Nat × Int × Int :=
  (g.idealBitrate, g.idealResolutionCX, g.idealResolutionCY, g.idealFPSNum, g.idealFPSDen)

/-- The events a run of the bandwidth probe pushes: its `starting_step`, progress
events, and then either one error event, with the ideal settings untouched, or its
`stopping_step`. -/
def BandwidthTrace (g g1 : Globals) : Prop :=
  ∃ mid : List AutoConfigInfo, (∀ e ∈ mid, e.event = "progress") ∧
    ((∃ label : String,
        g1.events = g.events ++
          ({ event := "starting_step", description := "bandwidth_test", percentage := 0 } ::
            (mid ++ [{ event := "error", description := label, percentage := 0 }])) ∧
        idealSettings g1 = idealSettings g) ∨
      g1.events = g.events ++
        ({ event := "starting_step", description := "bandwidth_test", percentage := 0 } ::
          (mid ++ [{ event := "stopping_step", description := "bandwidth_test",
                     percentage := 100 }])))

/-- A machine-independent sample environment of the bandwidth probe: a Twitch
service with three servers, every evaluation completing at the measured 8000 kbps
of `completedRun`. -/
def sampleBandwidthEnv : BandwidthEnv :=
  { videoInfoOk := true,
    currentService := some { hasSettings := true, service := "Twitch", key := "live_abc \n",
                             url := "" },
    catalog := [("EU: Amsterdam", "rtmp://ams"), ("EU: Paris", "rtmp://par"),
                ("US West: Seattle", "rtmp://sea")],
    runs := fun _ => completedRun 10000000 10000000000 10000 0 }

/-- A sample environment of the bandwidth probe in which no output ever starts. -/
def refusedBandwidthEnv : BandwidthEnv :=
  { sampleBandwidthEnv with
    runs := fun _ => { completedRun 0 10000000000 10000 0 with startOk := false } }

/-- Sample globals before a bandwidth probe: all servers of the catalogue are to be
tested and the ideal settings differ from their defaults. -/
def sampleProbeGlobals : Globals :=
  { testRegions := false, idealBitrate := 6000, idealResolutionCX := 1920,
    idealResolutionCY := 1080, idealFPSNum := 60 }

/-- The outcome of the probe of `sampleProbeGlobals` in an environment. -/
def probeOutcome (env : BandwidthEnv) : BandwidthOutcome :=
  (TestBandwidthThread env sampleProbeGlobals).getD ⟨sampleProbeGlobals, none⟩

/-- The four characters `string_depad_key` removes: space, tab, line feed and
carriage return. -/
def isPadding (ch : Char) : Bool := ch = ' ' || ch = '\t' || ch = '\n' || ch = '\r'

/-- `autoConfig::InitializeAutoConfig`, on the globals: the server becomes the
automatic one and `cancel` is cleared. -/
def InitializeAutoConfig (g : Globals) : Globals :=
  { g with serverName := "Auto (Recommended)", server := "auto", cancel := false }

/-- A sample environment like `sampleBandwidthEnv` whose output carries 300 kbps
against a 10000 kbps probe, so that 210 kbps is recorded. -/
def slowBandwidthEnv : BandwidthEnv :=
  { sampleBandwidthEnv with runs := fun _ => completedRun 375000 10000000000 10000 0 }

/-- The decided bitrate, server address and server name after the server tests of
the probe, from the globals `g4`. -/
def decidedServer (env : BandwidthEnv) (g4 : Globals) : Option (Nat × String × String) :=
  (testServers env g4).map (fun g6 => (g6.idealBitrate, g6.server, g6.serverName))

/-- The result of the evaluation of the automatic server in `slowBandwidthEnv`:
210 kbps recorded, 30 ms connect time. -/
def slowEvaluation : EvalResult :=
  EvalResult.mk 0 (ServerInfo.mk "Auto (Recommended)" "auto" 210 30) true 10000 false

/-- A string that can be held in a `const char *`: it has no NUL character. -/
def IsCString (s : String) : Prop := Char.ofNat 0 ∉ s.toList

instance (s : String) : Decidable (IsCString s) := by
  unfold IsCString; infer_instance

/-- The disjunction of the five family flags. -/
def anyFamily (g : Globals) : Bool :=
  g.nvencAvailable || g.jimnvencAvailable || g.qsvAvailable || g.vceAvailable ||
    g.appleHWAvailable

/-- The cost of a resolution without area is zero: `pow(0, 0.85)` is `0`, so
`EstimateBitrateVal` returns `0` when `cx` or `cy` is `0`. -/
def ZeroAtZeroArea (N : Numerics) : Prop :=
  ∀ cx cy fps_num fps_den : Int, cx = 0 ∨ cy = 0 → N.bitrateVal cx cy fps_num fps_den = 0

/-- The reference value of `EstimateMinBitrate`: the cost of the base resolution at
60 fps divided by 5800. -/
def minReference (N : Numerics) (g : Globals) : Rat :=
  N.bitrateVal (toInt32 g.baseResolutionCX) (toInt32 g.baseResolutionCY) 60 1 / 5800

/-- The reference value of `EstimateUpperBitrate`: the cost of 1280x720 at 30 fps
divided by 3000. -/
def upperReference (N : Numerics) : Rat := N.bitrateVal 1280 720 30 1 / 3000

/-- A run of `EvaluateBandwidth` that gets as far as `obs_output_stop`: the output
starts and connects, is not reported stopped, and `cancel` is not set at any of the
three places where it is read. -/
def ReachesStop (run : OutputRun) : Prop :=
  run.startOk = true ∧ run.cancelAtLock = false ∧ run.cancelAfterConnect = false ∧
    run.connected = true ∧ run.stoppedInWindow = false ∧ run.cancelInWindow = false

instance (run : OutputRun) : Decidable (ReachesStop run) := by
  unfold ReachesStop; infer_instance

/-- A completed run during which `cancel` is set while `EvaluateBandwidth` waits for
the stop signal, and is still set when the wait for the deactivate signal returns. -/
def lateCancelRun : OutputRun :=
  { completedRun 10000000 10000000000 10000 0 with
    cancelAfterStop := true, cancelAfterDeactivate := true }

/-- The sample environment of the bandwidth probe with `lateCancelRun` as the
behaviour of every evaluation. -/
def lateCancelEnv : BandwidthEnv :=
  { sampleBandwidthEnv with runs := fun _ => lateCancelRun }

/-- The kinds of the events a run of the bandwidth probe leaves in the queue. -/
def probeEventKinds (env : BandwidthEnv) (g : Globals) : Option (List String) :=
  (TestBandwidthThread env g).map (fun o => o.g.events.map (fun e => e.event))

/-! ## Checking the settings -/

/-- What one call of `CheckSettings` observes of its environment. -/
structure CheckEnv where
  /-- Whether `obs_service_create` returned a service. -/
  serviceOk : Bool
  /-- Whether `obs_set_video_info` returned `OBS_VIDEO_SUCCESS`. -/
  setVideoOk : Bool
  /-- Value of `cancel` after taking the lock. -/
  cancelAtLock : Bool
  /-- Result of `obs_output_start(output)`. -/
  startOk : Bool
  /-- Whether the `start` signal ran `on_started` before the function returns. -/
  startSignalled : Bool
  /-- Whether the two waits `cv.wait(ul)` after `obs_output_stop` return. -/
  waitsReturn : Bool
  deriving DecidableEq, Repr

/-- `autoConfig::CheckSettings`: the returned `bool` and the globals. The result is
`none` when the output was started and a wait for its stop or deactivate signal
does not return. -/
def CheckSettings (env : CheckEnv) (g : Globals) : Option (Bool × Globals) :=
  if !env.serviceOk then some (false, pushEvent g "error" "invalid_service" 100)
  else if !env.setVideoOk then some (false, pushEvent g "error" "invalid_video_settings" 100)
  else
    let success : Bool := true
    if !env.cancelAtLock then
      if !env.startOk then some (success, g)
      else if !env.waitsReturn then none
      else
        let success1 : Bool := if env.startSignalled then true else success
        some (success1, g)
    else some (false, g)

/-- `autoConfig::StartCheckSettings`: the reply carries `Ok` and the result of
`CheckSettings` as a 32-bit unsigned value. -/
def StartCheckSettings (env : CheckEnv) (g : Globals) : Option (List IpcValue × Globals) :=
  (CheckSettings env g).map
    (fun r => ([IpcValue.errorCodeOk, IpcValue.uint32 (if r.1 then 1 else 0)], r.2))

/-- A call of `CheckSettings` that finds `cancel` set when it takes the lock. -/
def cancelledCheck : CheckEnv :=
  { serviceOk := true, setVideoOk := true, cancelAtLock := true, startOk := true,
    startSignalled := true, waitsReturn := true }

/-! ## Saving the settings -/

/-- A value held by the configuration store. -/
inductive ConfigValue where
  /-- A value written by `config_set_int`. -/
  | int (n : Int)
  /-- A value written by `config_set_uint`. -/
  | uint (n : Nat)
  /-- A value written by `config_set_string`. -/
  | string (s : String)
  /-- A value written by `config_set_bool`. -/
  | bool (b : Bool)
  deriving DecidableEq, Repr

/-- Modelled from the spec: the configuration store (`config_t` of libobs, whose code
is not under `src/`), which the spec describes as a persistent key/value store; a
map from section and name to the value held, `none` for an absent key. -/
def Config : Type := String → String → Option ConfigValue

/-- A store without any key. -/
def emptyConfig : Config := fun _ _ => none

/-- Modelled from the spec: the common effect of the libobs `config_set_*`
functions, which replace the value held under one section and name. -/
def configSet (c : Config) (sect name : String) (v : ConfigValue) : Config :=
  fun s n => if s = sect ∧ n = name then some v else c s n

/-- Modelled from the spec: libobs `config_set_int`. -/
def config_set_int (c : Config) (sect name : String) (value : Int) : Config :=
  configSet c sect name (ConfigValue.int value)

/-- Modelled from the spec: libobs `config_set_uint`. -/
def config_set_uint (c : Config) (sect name : String) (value : Nat) : Config :=
  configSet c sect name (ConfigValue.uint value)

/-- Modelled from the spec: libobs `config_set_string`. -/
def config_set_string (c : Config) (sect name : String) (value : String) : Config :=
  configSet c sect name (ConfigValue.string value)

/-- Modelled from the spec: libobs `config_set_bool`. -/
def config_set_bool (c : Config) (sect name : String) (value : Bool) : Config :=
  configSet c sect name (ConfigValue.bool value)

/-- Modelled from the spec: libobs `config_remove_value`, which deletes the key. -/
def config_remove_value (c : Config) (sect name : String) : Config :=
  fun s n => if s = sect ∧ n = name then none else c s n

/-- Conversion to `int64_t`, the parameter type of `config_set_int`. -/
def toInt64 (x : Int) : Int :=
  (x + 9223372036854775808) % 18446744073709551616 - 9223372036854775808

/-- The build targets for which `nodeobs_service.h` defines `SIMPLE_ENCODER_X264`. -/
inductive Target where
  /-- Built with `WIN32` defined. -/
  | win32
  /-- Built with `__APPLE__` defined. -/
  | apple
  deriving DecidableEq, Repr

/-- The value of the macro `SIMPLE_ENCODER_X264` (`nodeobs_service.h`). -/
def SIMPLE_ENCODER_X264 (t : Target) : String :=
  match t with
  | Target.win32 => "x264"
  | Target.apple => "obs_x264"

/-- The value of the macro `SIMPLE_ENCODER_QSV`. -/
def SIMPLE_ENCODER_QSV : String := "qsv"

/-- The value of the macro `SIMPLE_ENCODER_NVENC`. -/
def SIMPLE_ENCODER_NVENC : String := "nvenc"

/-- The value of the macro `SIMPLE_ENCODER_AMD`. -/
def SIMPLE_ENCODER_AMD : String := "amd"

/-- `GetEncoderDisplayName`. -/
def GetEncoderDisplayName (t : Target) (enc : Encoder) : String :=
  match enc with
  | Encoder.NVENC => SIMPLE_ENCODER_NVENC
  | Encoder.QSV => SIMPLE_ENCODER_QSV
  | Encoder.AMD => SIMPLE_ENCODER_AMD
  | Encoder.appleHW => APPLE_HARDWARE_VIDEO_ENCODER
  | Encoder.appleHWM1 => APPLE_HARDWARE_VIDEO_ENCODER_M1
  | _ => SIMPLE_ENCODER_X264 t

/-- `autoConfig::SaveStreamSettings`, on the globals and the configuration store.
`newServiceOk` tells whether `obs_service_create` returned a service; the service
objects themselves are not part of the model. -/
def SaveStreamSettings (t : Target) (newServiceOk : Bool) (g : Globals) (c : Config) :
    Globals × Config :=
  let g1 := pushEvent g "starting_step" "saving_service" 0
  if !newServiceOk then (g1, c)
  else
    let c1 := config_set_int c "SimpleOutput" "VBitrate" (toInt64 g1.idealBitrate)
    let c2 := config_set_string c1 "SimpleOutput" "StreamEncoder"
      (GetEncoderDisplayName t g1.streamingEncoder)
    let c3 := config_remove_value c2 "SimpleOutput" "UseAdvanced"
    (pushEvent g1 "stopping_step" "saving_service" 100, c3)

/-- `autoConfig::SaveSettings`, on the globals and the configuration store. -/
def SaveSettings (t : Target) (g : Globals) (c : Config) : Globals × Config :=
  let g1 := pushEvent g "starting_step" "saving_settings" 0
  let c1 :=
    if g1.recordingEncoder ≠ Encoder.Stream then
      config_set_string c "SimpleOutput" "RecEncoder"
        (GetEncoderDisplayName t g1.recordingEncoder)
    else c
  let quality : String := if g1.recordingQuality = Quality.High then "Small" else "Stream"
  let c2 := config_set_string c1 "Output" "Mode" "Simple"
  let c3 := config_set_string c2 "SimpleOutput" "RecQuality" quality
  let c4 := config_set_int c3 "Video" "OutputCX" (toInt64 g1.idealResolutionCX)
  let c5 := config_set_int c4 "Video" "OutputCY" (toInt64 g1.idealResolutionCY)
  let c6 := config_set_int c5 "Video" "Canvases" 1
  let c7 := config_set_bool c6 "Output" "DynamicBitrate" false
  let c8 :=
    if g1.fpsType ≠ FPSType.UseCurrent then
      config_set_string (config_set_uint c7 "Video" "FPSType" 0) "Video" "FPSCommon"
        (toString g1.idealFPSNum)
    else c7
  let g2 := pushEvent g1 "stopping_step" "saving_settings" 100
  (pushEvent g2 "done" "" 0, c8)

/-- The keys `SaveStreamSettings` writes or removes. -/
def streamSettingsKeys : List (String × String) :=
  [("SimpleOutput", "VBitrate"), ("SimpleOutput", "StreamEncoder"),
   ("SimpleOutput", "UseAdvanced")]

/-- The keys `SaveSettings` may write. -/
def settingsKeys : List (String × String) :=
  [("SimpleOutput", "RecEncoder"), ("Output", "Mode"), ("SimpleOutput", "RecQuality"),
   ("Video", "OutputCX"), ("Video", "OutputCY"), ("Video", "Canvases"),
   ("Output", "DynamicBitrate"), ("Video", "FPSType"), ("Video", "FPSCommon")]

/-- The encoder values the probes of this file assign and the initial values: every
value except the two Apple hardware encoders, whose assignments are commented out
in the source. -/
def ProbeEncoder (e : Encoder) : Prop := e ≠ Encoder.appleHW ∧ e ≠ Encoder.appleHWM1

instance (e : Encoder) : Decidable (ProbeEncoder e) := by
  unfold ProbeEncoder; infer_instance

/-! ## Theorems: server candidate selection -/

/-- C1: `CanTestServer` returns true for every service kind, label and region flags
when `testRegions` is false, and also whenever all five region flags are enabled. -/
theorem canTestServer_unconditional (g : Globals) (label : String)
    (h : g.testRegions = false ∨
      (g.regionNA = true ∧ g.regionSA = true ∧ g.regionEU = true ∧ g.regionAS = true ∧
        g.regionOC = true)) :
    CanTestServer g label = true := by
  unfold CanTestServer
  rcases h with h | ⟨h1, h2, h3, h4, h5⟩
  · simp [h]
  · simp [h1, h2, h3, h4, h5]

theorem canTestServer_unconditional_witness :
    CanTestServer { serviceSelected := Service.Twitch, testRegions := false } "NA: Chicago" = true ∧
      CanTestServer
        { serviceSelected := Service.Beam, regionNA := true, regionSA := true, regionEU := true,
          regionAS := true, regionOC := true } "Brazil: Sao Paulo" = true :=
  ⟨canTestServer_unconditional _ _ (Or.inl rfl),
   canTestServer_unconditional _ _ (Or.inr ⟨rfl, rfl, rfl, rfl, rfl⟩)⟩

/-- A label that starts with `p` is `p` followed by some rest. -/
theorem startsWith_data {label p : String} (h : StartsWith label p) :
    ∃ t, label.data = p.data ++ t := by
  obtain ⟨t, ht⟩ := h
  exact ⟨t, ht.symm⟩

/-- The early-return guard of `CanTestServer` is not taken when region testing is
on and some region is disabled. -/
theorem guard_false (g : Globals) (ht : g.testRegions = true)
    (hn : ¬ (g.regionNA = true ∧ g.regionSA = true ∧ g.regionEU = true ∧ g.regionAS = true ∧
      g.regionOC = true)) :
    (!g.testRegions || (g.regionNA && g.regionSA && g.regionEU && g.regionAS && g.regionOC))
      = false := by
  rw [ht]
  simp only [Bool.not_true, Bool.false_or]
  cases h1 : g.regionNA <;> cases h2 : g.regionSA <;> cases h3 : g.regionEU <;>
    cases h4 : g.regionAS <;> cases h5 : g.regionOC <;> simp_all

/-- C2: with region testing enabled and not all regions enabled, `CanTestServer`
returns the flag of the region named by the label prefix, for the Twitch and the
Hitbox prefix vocabularies (exact, case-sensitive prefixes; the Hitbox label
"Default" gives true). -/
theorem canTestServer_region_flag (g : Globals) (label : String)
    (ht : g.testRegions = true)
    (hn : ¬ (g.regionNA = true ∧ g.regionSA = true ∧ g.regionEU = true ∧ g.regionAS = true ∧
      g.regionOC = true)) :
    (g.serviceSelected = Service.Twitch →
      ((StartsWith label "NA:" ∨ StartsWith label "US West:" ∨ StartsWith label "US East:" ∨
          StartsWith label "US Central:") → CanTestServer g label = g.regionNA) ∧
      (StartsWith label "South America:" → CanTestServer g label = g.regionSA) ∧
      (StartsWith label "EU:" → CanTestServer g label = g.regionEU) ∧
      (StartsWith label "Asia:" → CanTestServer g label = g.regionAS) ∧
      (StartsWith label "Australia:" → CanTestServer g label = g.regionOC)) ∧
    (g.serviceSelected = Service.Hitbox →
      (label = "Default" → CanTestServer g label = true) ∧
      ((StartsWith label "US-West:" ∨ StartsWith label "US-East:") →
        CanTestServer g label = g.regionNA) ∧
      (StartsWith label "South America:" → CanTestServer g label = g.regionSA) ∧
      (StartsWith label "EU-" → CanTestServer g label = g.regionEU) ∧
      ((StartsWith label "South Korea:" ∨ StartsWith label "Asia:" ∨ StartsWith label "China:") →
        CanTestServer g label = g.regionAS) ∧
      (StartsWith label "Oceania:" → CanTestServer g label = g.regionOC)) := by
  have hg := guard_false g ht hn
  refine ⟨fun hs => ⟨?_, ?_, ?_, ?_, ?_⟩, fun hs => ⟨?_, ?_, ?_, ?_, ?_, ?_⟩⟩
  · rintro (h | h | h | h) <;> obtain ⟨t, hl⟩ := startsWith_data h <;>
      simp [CanTestServer, hs, hg, hl, astrcmp_n, cur]
  · intro h
    obtain ⟨t, hl⟩ := startsWith_data h
    simp [CanTestServer, hs, hg, hl, astrcmp_n, cur]
  · intro h
    obtain ⟨t, hl⟩ := startsWith_data h
    simp [CanTestServer, hs, hg, hl, astrcmp_n, cur]
  · intro h
    obtain ⟨t, hl⟩ := startsWith_data h
    simp [CanTestServer, hs, hg, hl, astrcmp_n, cur]
  · intro h
    obtain ⟨t, hl⟩ := startsWith_data h
    simp [CanTestServer, hs, hg, hl, astrcmp_n, cur]
  · intro h
    subst h
    simp [CanTestServer, hs, hg, strcmp, cur]
  · rintro (h | h) <;> obtain ⟨t, hl⟩ := startsWith_data h <;>
      simp [CanTestServer, hs, hg, hl, astrcmp_n, strcmp, cur]
  · intro h
    obtain ⟨t, hl⟩ := startsWith_data h
    simp [CanTestServer, hs, hg, hl, astrcmp_n, strcmp, cur]
  · intro h
    obtain ⟨t, hl⟩ := startsWith_data h
    simp [CanTestServer, hs, hg, hl, astrcmp_n, strcmp, cur]
  · rintro (h | h | h) <;> obtain ⟨t, hl⟩ := startsWith_data h <;>
      simp [CanTestServer, hs, hg, hl, astrcmp_n, strcmp, cur]
  · intro h
    obtain ⟨t, hl⟩ := startsWith_data h
    simp [CanTestServer, hs, hg, hl, astrcmp_n, strcmp, cur]

theorem canTestServer_region_flag_witness :
    CanTestServer { serviceSelected := Service.Twitch, regionEU := true } "EU: Amsterdam, NL" = true ∧
      CanTestServer { serviceSelected := Service.Twitch, regionEU := true } "Asia: Tokyo" = false ∧
      CanTestServer { serviceSelected := Service.Hitbox, regionNA := true } "Oceania: Sydney"
        = false ∧
      CanTestServer { serviceSelected := Service.Twitch, regionEU := true } "eu: amsterdam" = true :=
  ⟨((canTestServer_region_flag { serviceSelected := Service.Twitch, regionEU := true }
      "EU: Amsterdam, NL" rfl (by decide)).1 rfl).2.2.1 (by decide),
   ((canTestServer_region_flag { serviceSelected := Service.Twitch, regionEU := true }
      "Asia: Tokyo" rfl (by decide)).1 rfl).2.2.2.1 (by decide),
   ((canTestServer_region_flag { serviceSelected := Service.Hitbox, regionNA := true }
      "Oceania: Sydney" rfl (by decide)).2 rfl).2.2.2.2.2 (by decide),
   by decide⟩

/-- C3: for the service Beam the label "Default", which starts with none of the
Beam region prefixes, is rejected when region testing is on and no region is
enabled, although an unrecognised label should be testable: the Beam branch uses
the "Canada:" and "Mexico:" comparisons as truth values, so its first test
succeeds for every label. -/
theorem canTestServer_beam_unrecognized :
    (∀ p ∈ ["US:", "Canada:", "Mexico:", "Brazil:", "EU:", "South Korea:", "Asia:", "India:",
        "Australia:"], ¬ StartsWith "Default" p) ∧
      CanTestServer { serviceSelected := Service.Beam, testRegions := true } "Default" = false := by
  decide

/-! ## Theorems: candidate list used by the bandwidth probe -/

/-- C4: a filtered candidate list with fewer than three entries is replaced by a
list of exactly one entry, the original first entry when there is one; a list of
three or more entries is used unchanged. -/
theorem useFirstIfFew_spec (servers : List ServerInfo) :
    (servers.length < 3 →
      (useFirstIfFew servers).length = 1 ∧
        ∀ s, servers.head? = some s → useFirstIfFew servers = [s]) ∧
    (3 ≤ servers.length → useFirstIfFew servers = servers) := by
  constructor
  · intro h
    match servers, h with
    | [], _ => simp [useFirstIfFew, resize]
    | [a], _ => simp [useFirstIfFew, resize]
    | [a, b], _ => simp [useFirstIfFew, resize]
  · intro h
    have : ¬ servers.length < 3 := by omega
    simp [useFirstIfFew, this]

theorem useFirstIfFew_spec_witness :
    useFirstIfFew [{ name := "a", address := "x" }, { name := "b", address := "y" }]
        = [{ name := "a", address := "x" }] ∧
      useFirstIfFew [] = [({} : ServerInfo)] ∧
      useFirstIfFew [{ name := "a" }, { name := "b" }, { name := "c" }]
        = [{ name := "a" }, { name := "b" }, { name := "c" }] :=
  ⟨((useFirstIfFew_spec _).1 (by decide)).2 _ rfl,
   by decide,
   (useFirstIfFew_spec _).2 (by decide)⟩

/-! ## Theorems: best-server selection -/

/-- Two `int` bitrates in `[0, 2^31)` are "close" exactly when they differ by less
than 400. -/
theorem close_iff (x y : Int) (hx : 0 ≤ x ∧ x < 2147483648) (hy : 0 ≤ y ∧ y < 2147483648) :
    cabs (toInt32 (x - y)) < 400 ↔ (x < y + 400 ∧ y < x + 400) := by
  unfold cabs toInt32
  split <;> omega

/-- The selection step on non-negative `int` bitrates, with the closeness test
written as a comparison of the two bitrates. -/
theorem selectStep_eq (b : Best) (s : ServerInfo)
    (hs : 0 ≤ s.bitrate ∧ s.bitrate < 2147483648)
    (hb : 0 ≤ b.bestBitrate ∧ b.bestBitrate < 2147483648) :
    selectStep b s =
      if b.bestBitrate + 400 ≤ s.bitrate ∨
          (s.bitrate < b.bestBitrate + 400 ∧ b.bestBitrate < s.bitrate + 400 ∧
            s.ms < b.bestMS) then
        { bestServer := s.address, bestServerName := s.name,
          bestBitrate := s.bitrate, bestMS := s.ms }
      else b := by
  have hc := close_iff s.bitrate b.bestBitrate hs hb
  unfold selectStep
  by_cases hclose : cabs (toInt32 (s.bitrate - b.bestBitrate)) < 400
  · have h2 := hc.1 hclose
    by_cases hms : s.ms < b.bestMS
    · have : b.bestBitrate + 400 ≤ s.bitrate ∨
          (s.bitrate < b.bestBitrate + 400 ∧ b.bestBitrate < s.bitrate + 400 ∧
            s.ms < b.bestMS) := Or.inr ⟨h2.1, h2.2, hms⟩
      rw [if_pos this]
      simp [hclose, hms]
    · have : ¬ (b.bestBitrate + 400 ≤ s.bitrate ∨
          (s.bitrate < b.bestBitrate + 400 ∧ b.bestBitrate < s.bitrate + 400 ∧
            s.ms < b.bestMS)) := by
        rintro (h | ⟨_, _, h⟩)
        · omega
        · exact hms h
      rw [if_neg this]
      simp [hclose, hms]
  · have h2 : ¬ (s.bitrate < b.bestBitrate + 400 ∧ b.bestBitrate < s.bitrate + 400) :=
      fun h => hclose (hc.2 h)
    by_cases hgt : b.bestBitrate + 400 ≤ s.bitrate
    · have h3 : s.bitrate > b.bestBitrate := by omega
      rw [if_pos (Or.inl hgt)]
      simp [hclose, h3]
    · have h3 : ¬ s.bitrate > b.bestBitrate := by omega
      have : ¬ (b.bestBitrate + 400 ≤ s.bitrate ∨
          (s.bitrate < b.bestBitrate + 400 ∧ b.bestBitrate < s.bitrate + 400 ∧
            s.ms < b.bestMS)) := by
        rintro (h | ⟨h, h', _⟩)
        · exact hgt h
        · exact h2 ⟨h, h'⟩
      rw [if_neg this]
      simp [hclose, h3]

/-- From the initial locals, the first evaluated server is always taken. -/
theorem selectStep_init (s : ServerInfo)
    (hs : 0 ≤ s.bitrate ∧ s.bitrate < 2147483648) (hms : s.ms < 2147483647) :
    selectStep {} s =
      { bestServer := s.address, bestServerName := s.name,
        bestBitrate := s.bitrate, bestMS := s.ms } := by
  rw [selectStep_eq _ _ hs (by decide)]
  have : (0 : Int) + 400 ≤ s.bitrate ∨
      (s.bitrate < 0 + 400 ∧ (0 : Int) < s.bitrate + 400 ∧ s.ms < 2147483647) := by
    by_cases h : (400 : Int) ≤ s.bitrate
    · left; omega
    · right; omega
  exact if_pos this

/-- C5: for two evaluated servers (bitrates in `[0, 2^31)`, round-trip times in
`[0, 2^31 - 1)`), in either list order, the selection loop started from
`bestBitrate = 0`, `bestMS = INT_MAX` picks the server whose bitrate is higher by
400 or more, and, when the bitrates differ by less than 400, the server with the
strictly lower round-trip time. -/
theorem selectBest_pair (a b : ServerInfo)
    (ha : 0 ≤ a.bitrate ∧ a.bitrate < 2147483648) (hb : 0 ≤ b.bitrate ∧ b.bitrate < 2147483648)
    (hams : 0 ≤ a.ms ∧ a.ms < 2147483647) (hbms : 0 ≤ b.ms ∧ b.ms < 2147483647) :
    (a.bitrate + 400 ≤ b.bitrate →
      Picks (selectBest {} [a, b]) b ∧ Picks (selectBest {} [b, a]) b) ∧
    ((a.bitrate < b.bitrate + 400 ∧ b.bitrate < a.bitrate + 400) → a.ms < b.ms →
      Picks (selectBest {} [a, b]) a ∧ Picks (selectBest {} [b, a]) a) := by
  have ia := selectStep_init a ha hams.2
  have ib := selectStep_init b hb hbms.2
  constructor
  · intro h
    constructor
    · simp only [selectBest, List.foldl, ia]
      rw [selectStep_eq _ _ hb ha, if_pos (Or.inl h)]
      exact ⟨rfl, rfl, rfl, rfl⟩
    · simp only [selectBest, List.foldl, ib]
      rw [selectStep_eq _ _ ha hb, if_neg]
      · exact ⟨rfl, rfl, rfl, rfl⟩
      · simp only [not_or, not_and]
        constructor
        · omega
        · intro h1 h2; omega
  · intro h hms
    constructor
    · simp only [selectBest, List.foldl, ia]
      rw [selectStep_eq _ _ hb ha, if_neg]
      · exact ⟨rfl, rfl, rfl, rfl⟩
      · simp only [not_or, not_and]
        constructor
        · omega
        · intro h1 h2; omega
    · simp only [selectBest, List.foldl, ib]
      rw [selectStep_eq _ _ ha hb, if_pos (Or.inr ⟨h.1, h.2, hms⟩)]
      exact ⟨rfl, rfl, rfl, rfl⟩

theorem selectBest_pair_witness :
    (Picks (selectBest {} [{ name := "a", address := "x", bitrate := 4000, ms := 80 },
        { name := "b", address := "y", bitrate := 4300, ms := 40 }])
        { name := "b", address := "y", bitrate := 4300, ms := 40 } ∧
      Picks (selectBest {} [{ name := "b", address := "y", bitrate := 4300, ms := 40 },
        { name := "a", address := "x", bitrate := 4000, ms := 80 }])
        { name := "b", address := "y", bitrate := 4300, ms := 40 }) ∧
    (Picks (selectBest {} [{ name := "a", address := "x", bitrate := 3000, ms := 20 },
        { name := "b", address := "y", bitrate := 4000, ms := 90 }])
        { name := "b", address := "y", bitrate := 4000, ms := 90 } ∧
      Picks (selectBest {} [{ name := "b", address := "y", bitrate := 4000, ms := 90 },
        { name := "a", address := "x", bitrate := 3000, ms := 20 }])
        { name := "b", address := "y", bitrate := 4000, ms := 90 }) :=
  ⟨And.symm ((selectBest_pair { name := "b", address := "y", bitrate := 4300, ms := 40 }
      { name := "a", address := "x", bitrate := 4000, ms := 80 }
      (by decide) (by decide) (by decide) (by decide)).2 (by decide) (by decide)),
   (selectBest_pair { name := "a", address := "x", bitrate := 3000, ms := 20 }
      { name := "b", address := "y", bitrate := 4000, ms := 90 }
      (by decide) (by decide) (by decide) (by decide)).1 (by decide)⟩

/-- Once the selection holds an evaluated server of at least 400 kbps, it keeps
holding such a server, whatever failed or evaluated servers follow. -/
theorem selectBest_keeps_good (servers : List ServerInfo) :
    ∀ (b : Best) (g : ServerInfo), Evaluated g → 400 ≤ g.bitrate → Picks b g →
      (∀ s ∈ servers, Failed s ∨ (Evaluated s ∧ 400 ≤ s.bitrate)) →
      ∃ s, (s = g ∨ s ∈ servers) ∧ Evaluated s ∧ 400 ≤ s.bitrate ∧
        Picks (selectBest b servers) s := by
  induction servers with
  | nil =>
    intro b g hg h400 hp _
    exact ⟨g, Or.inl rfl, hg, h400, hp⟩
  | cons x xs ih =>
    intro b g hg h400 hp hall
    have hx := hall x (List.mem_cons_self x xs)
    have hxs : ∀ s ∈ xs, Failed s ∨ (Evaluated s ∧ 400 ≤ s.bitrate) :=
      fun s hs => hall s (List.mem_cons_of_mem x hs)
    have hbb : b.bestBitrate = g.bitrate := hp.2.2.1
    have hbr : 0 ≤ b.bestBitrate ∧ b.bestBitrate < 2147483648 := by
      rw [hbb]; exact ⟨hg.1, hg.2.1⟩
    have hxr : 0 ≤ x.bitrate ∧ x.bitrate < 2147483648 := by
      rcases hx with hf | he
      · rw [hf.1]; decide
      · exact ⟨he.1.1, he.1.2.1⟩
    show ∃ s, (s = g ∨ s ∈ x :: xs) ∧ Evaluated s ∧ 400 ≤ s.bitrate ∧
      Picks (selectBest (selectStep b x) xs) s
    rw [selectStep_eq b x hxr hbr]
    split
    · rename_i hc
      have hgood : Evaluated x ∧ 400 ≤ x.bitrate := by
        rcases hx with hf | he
        · exfalso
          have := hf.1
          rcases hc with h | ⟨_, h, _⟩ <;> omega
        · exact he
      obtain ⟨s, hs, he, h4, hpk⟩ :=
        ih (Best.mk x.address x.name x.bitrate x.ms)
          x hgood.1 hgood.2 ⟨rfl, rfl, rfl, rfl⟩ hxs
      refine ⟨s, ?_, he, h4, hpk⟩
      rcases hs with rfl | hs
      · exact Or.inr (List.mem_cons_self _ _)
      · exact Or.inr (List.mem_cons_of_mem _ hs)
    · obtain ⟨s, hs, he, h4, hpk⟩ := ih b g hg h400 hp hxs
      refine ⟨s, ?_, he, h4, hpk⟩
      rcases hs with rfl | hs
      · exact Or.inl rfl
      · exact Or.inr (List.mem_cons_of_mem _ hs)

/-- Starting from a selection whose bitrate is still 0, the loop ends holding an
evaluated server as soon as the list has one of at least 400 kbps and no evaluated
server below 400 kbps. -/
theorem selectBest_reaches_good (servers : List ServerInfo) :
    ∀ (b : Best), b.bestBitrate = 0 →
      (∀ s ∈ servers, Failed s ∨ (Evaluated s ∧ 400 ≤ s.bitrate)) →
      (∃ s ∈ servers, Evaluated s) →
      ∃ s ∈ servers, Evaluated s ∧ 400 ≤ s.bitrate ∧ Picks (selectBest b servers) s := by
  induction servers with
  | nil =>
    intro b _ _ hex
    obtain ⟨s, hs, _⟩ := hex
    exact absurd hs (List.not_mem_nil s)
  | cons x xs ih =>
    intro b hb hall hex
    have hx := hall x (List.mem_cons_self x xs)
    have hxs : ∀ s ∈ xs, Failed s ∨ (Evaluated s ∧ 400 ≤ s.bitrate) :=
      fun s hs => hall s (List.mem_cons_of_mem x hs)
    show ∃ s ∈ x :: xs, Evaluated s ∧ 400 ≤ s.bitrate ∧
      Picks (selectBest (selectStep b x) xs) s
    rcases hx with hf | he
    · have hxe : ¬ Evaluated x := by
        intro h
        have h1 := h.2.2.1
        have h2 := hf.2
        omega
      have hex2 : ∃ s ∈ xs, Evaluated s := by
        obtain ⟨s, hs, hev⟩ := hex
        rcases List.mem_cons.1 hs with rfl | hs
        · exact absurd hev hxe
        · exact ⟨s, hs, hev⟩
      have hstep : (selectStep b x).bestBitrate = 0 := by
        rw [selectStep_eq b x (by rw [hf.1]; decide) (by rw [hb]; decide)]
        split
        · exact hf.1
        · exact hb
      obtain ⟨s, hs, h1, h2, h3⟩ := ih _ hstep hxs hex2
      exact ⟨s, List.mem_cons_of_mem _ hs, h1, h2, h3⟩
    · have hstep : selectStep b x =
          { bestServer := x.address, bestServerName := x.name,
            bestBitrate := x.bitrate, bestMS := x.ms } := by
        rw [selectStep_eq b x ⟨he.1.1, he.1.2.1⟩ (by rw [hb]; decide)]
        exact if_pos (Or.inl (by rw [hb]; have := he.2; omega))
      rw [hstep]
      obtain ⟨s, hs, h1, h2, h3⟩ :=
        selectBest_keeps_good xs (Best.mk x.address x.name x.bitrate x.ms)
          x he.1 he.2 ⟨rfl, rfl, rfl, rfl⟩ hxs
      refine ⟨s, ?_, h1, h2, h3⟩
      rcases hs with rfl | hs
      · exact List.mem_cons_self _ _
      · exact List.mem_cons_of_mem _ hs

/-- C6 (as stated, refuted): in a list of three candidates whose first server failed
(bitrate 0, round-trip -1) and whose other two were evaluated successfully at 300
and 350 kbps, the selection loop ends holding the failed server. -/
theorem selectBest_picks_failed :
    Failed { name := "a", address := "x" } ∧
      Evaluated { name := "b", address := "y", bitrate := 300, ms := 50 } ∧
      Evaluated { name := "c", address := "z", bitrate := 350, ms := 60 } ∧
      Picks (selectBest {} [{ name := "a", address := "x" },
          { name := "b", address := "y", bitrate := 300, ms := 50 },
          { name := "c", address := "z", bitrate := 350, ms := 60 }])
        { name := "a", address := "x" } := by
  decide

/-- C6 (amended): when every successfully evaluated server of the list recorded at
least 400 kbps and the list has at least one such server, the selection loop ends
holding a successfully evaluated server of the list, and no failed server (bitrate
0, round-trip -1) is the one chosen. -/
theorem selectBest_excludes_failed (servers : List ServerInfo)
    (hall : ∀ s ∈ servers, Failed s ∨ (Evaluated s ∧ 400 ≤ s.bitrate))
    (hex : ∃ s ∈ servers, Evaluated s) :
    (∃ s ∈ servers, Evaluated s ∧ Picks (selectBest {} servers) s) ∧
      ∀ f ∈ servers, Failed f → ¬ Picks (selectBest {} servers) f := by
  obtain ⟨s, hs, he, h4, hp⟩ := selectBest_reaches_good servers {} rfl hall hex
  refine ⟨⟨s, hs, he, hp⟩, ?_⟩
  intro f _ hf hpf
  have h1 : (selectBest {} servers).bestBitrate = s.bitrate := hp.2.2.1
  have h2 : (selectBest {} servers).bestBitrate = f.bitrate := hpf.2.2.1
  have h3 := hf.1
  omega

theorem selectBest_excludes_failed_witness :
    ¬ Picks (selectBest {} [{ name := "a", address := "x" },
        { name := "b", address := "y", bitrate := 4000, ms := 50 },
        { name := "c", address := "z" }]) { name := "a", address := "x" } :=
  (selectBest_excludes_failed
    [{ name := "a", address := "x" },
     { name := "b", address := "y", bitrate := 4000, ms := 50 },
     { name := "c", address := "z" }]
    (by decide) (by decide)).2 _ (by decide) (by decide)

/-! ## Theorems: bandwidth evaluation -/

/-- C division by 100 of an `int`: the floor quotient for a non-negative dividend,
the negated floor quotient of the negation otherwise. -/
theorem tdiv_hundred (w : Int) :
    Int.tdiv w 100 = if 0 ≤ w then w / 100 else -((-w) / 100) := by
  split
  · rename_i h
    exact Int.tdiv_eq_ediv h (by decide)
  · rename_i h
    have h1 : Int.tdiv (-w) 100 = (-w) / 100 := Int.tdiv_eq_ediv (by omega) (by decide)
    rw [← h1, Int.neg_tdiv, neg_neg]

/-- A call of `EvaluateBandwidth` that returns 0 has stored the verdict computed
from the measured bitrate, the connect time, and has set `success`. -/
theorem evaluateBandwidth_success (run : OutputRun) (server : ServerInfo) (success : Bool)
    (sb : Int) (r : EvalResult)
    (hr : EvaluateBandwidth run server success sb = some r) (hret : r.ret = 0) :
    r.server.bitrate =
        usableBitrate run.framesDropped
          (measuredBitrate (toInt32 run.totalBytes) run.total_time)
          (toInt32 run.bitrateSetting) ∧
      r.server.ms = run.connectTimeMs ∧ r.server.name = server.name ∧
      r.server.address = server.address ∧ r.success = true ∧
      r.startingBitrate = toInt32 run.bitrateSetting := by
  unfold EvaluateBandwidth at hr
  simp only [] at hr
  split at hr
  · cases hr; simp at hret
  split at hr
  · cases hr; simp at hret
  split at hr
  · cases hr; simp at hret
  split at hr
  · cases hr; simp at hret
  split at hr
  · cases hr; simp at hret
  split at hr
  · cases hr; simp at hret
  split at hr
  · cases hr
  · cases hr; simp at hret
  · cases hr
    exact ⟨rfl, rfl, rfl, rfl, rfl, rfl⟩

/-- C7: for every probe bitrate `p` in `[0, 2^31)` and every measured bitrate `m`
(the `int` the comparison uses) with `m ≥ 75%` of `p`, when no frame was dropped a
successful `EvaluateBandwidth` records `server.bitrate = p`. -/
theorem evaluateBandwidth_sustained (run : OutputRun) (server : ServerInfo) (success : Bool)
    (sb : Int) (r : EvalResult) (p m : Int)
    (hp : 0 ≤ p ∧ p < 2147483648)
    (hset : toInt32 run.bitrateSetting = p)
    (hmeas : toInt32 (measuredBitrate (toInt32 run.totalBytes) run.total_time) = m)
    (hd : run.framesDropped = 0)
    (hm : 75 * p ≤ 100 * m)
    (hr : EvaluateBandwidth run server success sb = some r) (hret : r.ret = 0) :
    r.server.bitrate = p := by
  rw [(evaluateBandwidth_success run server success sb r hr hret).1, hset]
  unfold usableBitrate
  rw [hmeas, hd, tdiv_hundred]
  have hmr : m < 2147483648 := by
    rw [← hmeas]; unfold toInt32; omega
  have hnot : ¬ ((0 : Int) ≠ 0 ∨
      m < if 0 ≤ toInt32 (p * 75) then toInt32 (p * 75) / 100
          else -(-toInt32 (p * 75) / 100)) := by
    rintro (h | h)
    · exact h rfl
    · unfold toInt32 at h
      split at h <;> omega
  exact if_neg hnot

theorem evaluateBandwidth_sustained_witness :
    EvaluateBandwidth (completedRun 10000000 10000000000 10000 0) {} false 2500 =
        some (EvalResult.mk 0 { bitrate := 10000, ms := 30 } true 10000 false) ∧
      toInt32 (measuredBitrate (toInt32 10000000) 10000000000) = 8000 ∧
      (EvalResult.mk 0 { bitrate := 10000, ms := 30 } true 10000 false).server.bitrate = 10000 :=
  ⟨by decide, by decide,
   evaluateBandwidth_sustained (completedRun 10000000 10000000000 10000 0) {} false 2500
     (EvalResult.mk 0 { bitrate := 10000, ms := 30 } true 10000 false)
     10000 8000 (by decide) (by decide) (by decide) rfl (by decide) (by decide) rfl⟩

/-- C8: for every measured bitrate `m` (the `int` used by the verdict) with
`0 ≤ 70 * m < 2^31`, a successful `EvaluateBandwidth` in which the output reports a
dropped frame records `server.bitrate = m * 70 / 100`, which is `⌊0.70 * m⌋`,
whatever the probe bitrate. -/
theorem evaluateBandwidth_dropped (run : OutputRun) (server : ServerInfo) (success : Bool)
    (sb : Int) (r : EvalResult) (m : Int)
    (hmeas : toInt32 (measuredBitrate (toInt32 run.totalBytes) run.total_time) = m)
    (hm : 0 ≤ 70 * m ∧ 70 * m < 2147483648)
    (hd : run.framesDropped ≠ 0)
    (hr : EvaluateBandwidth run server success sb = some r) (hret : r.ret = 0) :
    r.server.bitrate = m * 70 / 100 ∧ r.server.bitrate = ⌊(70 / 100 : ℚ) * (m : ℚ)⌋ := by
  have hb : r.server.bitrate = m * 70 / 100 := by
    rw [(evaluateBandwidth_success run server success sb r hr hret).1]
    unfold usableBitrate
    rw [if_pos (Or.inl hd), hmeas, tdiv_hundred]
    have h70 : toInt32 (m * 70) = m * 70 := by unfold toInt32; omega
    rw [h70, if_pos (by omega)]
  refine ⟨hb, ?_⟩
  rw [hb]
  have hq : (70 / 100 : ℚ) * (m : ℚ) = ((m * 70 : ℤ) : ℚ) / ((100 : ℕ) : ℚ) := by
    push_cast; ring
  rw [hq, Rat.floor_intCast_div_natCast]
  rfl

theorem evaluateBandwidth_dropped_witness :
    EvaluateBandwidth (completedRun 10000000 10000000000 10000 3) {} false 2500 =
        some (EvalResult.mk 0 { bitrate := 5600, ms := 30 } true 10000 false) ∧
      (EvalResult.mk 0 { bitrate := 5600, ms := 30 } true 10000 false).server.bitrate
        = 8000 * 70 / 100 :=
  ⟨by decide,
   (evaluateBandwidth_dropped (completedRun 10000000 10000000000 10000 3) {} false 2500
     (EvalResult.mk 0 { bitrate := 5600, ms := 30 } true 10000 false)
     8000 (by decide) (by decide) (by decide) (by decide) rfl).1⟩

/-- C9 (as stated, refuted): with probe bitrate 9999 kbps, no dropped frame and a
measured bitrate of 7499 kbps, which is below `0.75 * 9999 = 7499.25`, a successful
`EvaluateBandwidth` records 9999 and not the penalised `7499 * 70 / 100 = 5249`:
the source compares with the integer quotient `9999 * 75 / 100 = 7499`. -/
theorem evaluateBandwidth_exact_threshold_fails :
    measuredBitrate (toInt32 9373750) 10000000000 = 7499 ∧
      (100 * 7499 < 75 * 9999) ∧
      EvaluateBandwidth (completedRun 9373750 10000000000 9999 0) {} false 2500 =
        some (EvalResult.mk 0 { bitrate := 9999, ms := 30 } true 9999 false) ∧
      (9999 : Int) ≠ 7499 * 70 / 100 := by
  decide

/-- C9 (amended): for every probe bitrate `p ≥ 0` whose product `75 * p` fits an
`int` and every measured bitrate `m ≥ 0`, with no dropped frames a successful
`EvaluateBandwidth` records the penalised `m * 70 / 100` exactly when `m` is below
the integer quotient `75 * p / 100`, that is when `100 * (m + 1) ≤ 75 * p`, and
records `p` otherwise. -/
theorem evaluateBandwidth_threshold (run : OutputRun) (server : ServerInfo) (success : Bool)
    (sb : Int) (r : EvalResult) (p m : Int)
    (hp : 0 ≤ p ∧ 75 * p < 2147483648)
    (hset : toInt32 run.bitrateSetting = p)
    (hmeas : toInt32 (measuredBitrate (toInt32 run.totalBytes) run.total_time) = m)
    (hm : 0 ≤ m)
    (hd : run.framesDropped = 0)
    (hr : EvaluateBandwidth run server success sb = some r) (hret : r.ret = 0) :
    r.server.bitrate = (if m < 75 * p / 100 then m * 70 / 100 else p) ∧
      (m < 75 * p / 100 ↔ 100 * (m + 1) ≤ 75 * p) := by
  have hiff : m < 75 * p / 100 ↔ 100 * (m + 1) ≤ 75 * p := by omega
  refine ⟨?_, hiff⟩
  rw [(evaluateBandwidth_success run server success sb r hr hret).1, hset]
  unfold usableBitrate
  rw [hmeas, hd]
  have h75 : toInt32 (p * 75) = 75 * p := by unfold toInt32; omega
  rw [h75, tdiv_hundred, tdiv_hundred, if_pos (by omega : (0 : Int) ≤ 75 * p)]
  by_cases hlt : m < 75 * p / 100
  · have h70 : toInt32 (m * 70) = m * 70 := by unfold toInt32; omega
    rw [if_pos (Or.inr hlt), if_pos hlt, h70, if_pos (by omega)]
  · have hnot : ¬ ((0 : Int) ≠ 0 ∨ m < 75 * p / 100) := by
      rintro (h | h)
      · exact h rfl
      · exact hlt h
    rw [if_neg hnot, if_neg hlt]

theorem evaluateBandwidth_threshold_witness :
    EvaluateBandwidth (completedRun 9372500 10000000000 9999 0) {} false 2500 =
        some (EvalResult.mk 0 { bitrate := 5248, ms := 30 } true 9999 false) ∧
      (EvalResult.mk 0 { bitrate := 5248, ms := 30 } true 9999 false).server.bitrate =
        (if (7498 : Int) < 75 * 9999 / 100 then 7498 * 70 / 100 else 9999) :=
  ⟨by decide,
   (evaluateBandwidth_threshold (completedRun 9372500 10000000000 9999 0) {} false 2500
     (EvalResult.mk 0 { bitrate := 5248, ms := 30 } true 9999 false)
     9999 7498 (by decide) (by decide) (by decide) (by decide) rfl (by decide) rfl).1⟩

/-- C10: for every byte count `b` in `[0, 2^31)` and every elapsed time `t` in
nanoseconds, the measured bitrate is 0 when `t = 0` and `b * 8 * 10^9 / t / 1000`
(both divisions rounding down) otherwise, and the `uint64_t` product
`b * 8 * 10^9` stays below `2^64`. -/
theorem measuredBitrate_spec (b : Int) (t : Nat) (hb : 0 ≤ b ∧ b < 2147483648) :
    b * 8 * 1000000000 < 18446744073709551616 ∧
      measuredBitrate b t =
        (if t = 0 then 0 else b.toNat * 8 * 1000000000 / t / 1000) := by
  refine ⟨by omega, ?_⟩
  unfold measuredBitrate toUInt64
  have h1 : (b % 18446744073709551616).toNat = b.toNat := by omega
  have h2 : b.toNat * 8 % 18446744073709551616 = b.toNat * 8 := by omega
  have h3 : b.toNat * 8 * 1000000000 % 18446744073709551616 = b.toNat * 8 * 1000000000 := by
    omega
  rw [h1, h2, h3]
  by_cases ht : t = 0
  · simp [ht]
  · rw [if_pos (Nat.pos_of_ne_zero ht), if_neg ht]

theorem measuredBitrate_spec_witness :
    measuredBitrate 10000000 10000000000 =
        (if 10000000000 = 0 then 0
          else (10000000 : Int).toNat * 8 * 1000000000 / 10000000000 / 1000) ∧
      measuredBitrate 10000000 10000000000 = 8000 :=
  ⟨(measuredBitrate_spec 10000000 10000000000 (by decide)).2, by decide⟩

/-! ## Theorems: progress event queue -/

/-- Over any sequence of pushes and `Query` calls, the events returned by the
queries followed by the events still queued are the initial queue followed by the
pushed events, in order. -/
theorem runQueueOps_fifo (ops : List QueueOp) :
    ∀ g : Globals, ∃ returned : List AutoConfigInfo,
      g.events ++ pushedBy ops = returned ++ (runQueueOps ops g).2.events ∧
        (runQueueOps ops g).1.filter (fun r => decide (r ≠ [IpcValue.errorCodeOk]))
          = returned.map replyOf := by
  induction ops with
  | nil =>
    intro g
    exact ⟨[], by simp [runQueueOps, pushedBy], by simp [runQueueOps]⟩
  | cons op ops ih =>
    intro g
    cases op with
    | push e =>
      obtain ⟨ret, h1, h2⟩ := ih (pushEvent g e.event e.description e.percentage)
      refine ⟨ret, ?_, ?_⟩
      · simp only [runQueueOps, pushedBy]
        rw [← h1]
        simp [pushEvent]
      · simpa [runQueueOps] using h2
    | query =>
      cases hq : g.events with
      | nil =>
        have hQ : Query g = ([IpcValue.errorCodeOk], g) := by simp [Query, hq]
        obtain ⟨ret, h1, h2⟩ := ih g
        refine ⟨ret, ?_, ?_⟩
        · simp only [runQueueOps, pushedBy, hQ]
          rw [← h1, hq]
        · simp only [runQueueOps, hQ]
          simpa using h2
      | cons e rest =>
        have hQ : Query g = (replyOf e, { g with events := rest }) := by
          simp [Query, hq, replyOf]
        obtain ⟨ret, h1, h2⟩ := ih { g with events := rest }
        refine ⟨e :: ret, ?_, ?_⟩
        · simp only [runQueueOps, pushedBy, hQ]
          simp only [List.cons_append]
          rw [← h1]
        · simp only [runQueueOps, hQ]
          have hne : replyOf e ≠ [IpcValue.errorCodeOk] := by simp [replyOf]
          have hd : decide (replyOf e ≠ [IpcValue.errorCodeOk]) = true := decide_eq_true hne
          simp only [List.filter_cons, hd, if_true, h2, List.map_cons]

/-- C17: the progress queue is FIFO. A `Query` on a non-empty queue replies `Ok`
followed by the event, description and percentage of the oldest queued event and
removes exactly that event; a `Query` on an empty queue replies `Ok` alone and
leaves the queue empty; and over every sequence of pushes and `Query` calls the
returned events followed by the remaining queue are the initial queue followed by
the pushed events, in push order. -/
theorem query_fifo :
    (∀ (g : Globals) (e : AutoConfigInfo) (rest : List AutoConfigInfo),
      g.events = e :: rest →
        (Query g).1 = [IpcValue.errorCodeOk, IpcValue.string e.event,
          IpcValue.string e.description, IpcValue.double e.percentage] ∧
        (Query g).2.events = rest) ∧
    (∀ g : Globals, g.events = [] →
      (Query g).1 = [IpcValue.errorCodeOk] ∧ (Query g).2.events = []) ∧
    (∀ (ops : List QueueOp) (g : Globals), ∃ returned : List AutoConfigInfo,
      g.events ++ pushedBy ops = returned ++ (runQueueOps ops g).2.events ∧
        (runQueueOps ops g).1.filter (fun r => decide (r ≠ [IpcValue.errorCodeOk]))
          = returned.map replyOf) := by
  refine ⟨?_, ?_, fun ops g => runQueueOps_fifo ops g⟩
  · intro g e rest h
    simp [Query, h]
  · intro g h
    simp [Query, h]

/-! ## Theorems: candidate lists of the resolution search -/

/-- A call of the hardware `testRes` keeps the list within three candidates. -/
theorem testResHardware_length (N : Numerics) (g : Globals) (m : Int) (results : List Result)
    (c : TestCall) (h : results.length ≤ 3) :
    (testResHardware N g m results c).length ≤ 3 := by
  unfold testResHardware
  split
  · exact h
  · rename_i h3
    simp only []
    split
    · exact h
    · split
      · rw [List.length_append]; simp only [List.length_singleton]; omega
      · exact h

/-- A call of the hardware `testRes` never empties the list, and a forced call
leaves it non-empty. -/
theorem testResHardware_ne_nil (N : Numerics) (g : Globals) (m : Int) (results : List Result)
    (c : TestCall) (h : results ≠ [] ∨ c.force = true) :
    testResHardware N g m results c ≠ [] := by
  unfold testResHardware
  split
  · rename_i h3
    intro hn
    rw [hn] at h3
    simp at h3
  · simp only []
    rcases h with h | h
    · split
      · exact h
      · split
        · simp
        · exact h
    · simp [h]

/-- The hardware candidate list over any sequence of calls. -/
theorem foldl_testResHardware (N : Numerics) (g : Globals) (m : Int) (calls : List TestCall) :
    ∀ results : List Result, results.length ≤ 3 →
      ((calls.foldl (testResHardware N g m) results).length ≤ 3) ∧
      ((results ≠ [] ∨ ∃ c ∈ calls, c.force = true) →
        calls.foldl (testResHardware N g m) results ≠ []) := by
  induction calls with
  | nil =>
    intro results h
    refine ⟨h, ?_⟩
    rintro (h1 | ⟨c, hc, _⟩)
    · exact h1
    · exact absurd hc (List.not_mem_nil c)
  | cons c cs ih =>
    intro results h
    have hl := testResHardware_length N g m results c h
    obtain ⟨i1, i2⟩ := ih (testResHardware N g m results c) hl
    refine ⟨i1, ?_⟩
    intro hne
    apply i2
    rcases hne with h1 | ⟨d, hd, hf⟩
    · exact Or.inl (testResHardware_ne_nil N g m results c (Or.inl h1))
    · rcases List.mem_cons.1 hd with rfl | hd
      · exact Or.inl (testResHardware_ne_nil N g m results d (Or.inr hf))
      · exact Or.inr ⟨d, hd, hf⟩

/-- Both call sequences end with a forced call. -/
theorem testCalls_forced (g : Globals) : ∃ c ∈ testCalls g, c.force = true := by
  unfold testCalls
  split
  · exact ⟨⟨Divisor.d2_25, 0, 0, true⟩, by simp [fixedFpsCalls], rfl⟩
  · exact ⟨⟨Divisor.d2_25, 30, 1, true⟩, by simp [autoFpsCalls], rfl⟩

/-- The frame-rate preference removes at most the first of several candidates. -/
theorem dropLowFPS_spec (g : Globals) (results : List Result) :
    (results ≠ [] → dropLowFPS g results ≠ []) ∧
      (dropLowFPS g results).length ≤ results.length := by
  unfold dropLowFPS
  simp only []
  split
  · match results with
    | [] => simp
    | [a] => simp
    | a :: b :: rest =>
      simp only []
      split
      · split
        · simp
        · simp
      · simp
  · simp

/-- A call of the software `testRes` keeps the list within three candidates. -/
theorem testResSoftware_length (N : Numerics) (env : EncoderEnv) (g : Globals) (m : Int)
    (i : Nat) (results : List Result) (c : TestCall) (h : results.length ≤ 3) :
    (testResSoftware N env g m i results c).2.length ≤ 3 := by
  unfold testResSoftware
  split
  · exact h
  · rename_i h3
    simp only []
    split
    · exact h
    · split
      · exact h
      · split
        · exact h
        · split
          · exact h
          · split
            · exact h
            · simp only []
              split
              · rw [List.length_append]; simp only [List.length_singleton]; omega
              · exact h

/-- A call of the software `testRes` never empties the list, and a forced call that
returns `true` leaves it non-empty. -/
theorem testResSoftware_ne_nil (N : Numerics) (env : EncoderEnv) (g : Globals) (m : Int)
    (i : Nat) (results : List Result) (c : TestCall)
    (h : results ≠ [] ∨ (c.force = true ∧ (testResSoftware N env g m i results c).1 = true)) :
    (testResSoftware N env g m i results c).2 ≠ [] := by
  rcases h with h | ⟨hf, hok⟩
  · unfold testResSoftware
    split
    · exact h
    · simp only []
      split
      · exact h
      · split
        · exact h
        · split
          · exact h
          · split
            · exact h
            · split
              · exact h
              · simp only []
                split
                · simp
                · exact h
  · unfold testResSoftware at hok ⊢
    split
    · rename_i h3
      intro hn
      have hn2 : results = [] := hn
      rw [hn2] at h3
      simp at h3
    · rename_i h3
      rw [if_neg h3] at hok
      simp only [hf, Bool.not_true, Bool.false_and, Bool.true_or, if_true] at hok ⊢
      simp only [Bool.false_eq_true, if_false] at hok ⊢
      split
      · rename_i h1; rw [if_pos h1] at hok; simp at hok
      · split
        · rename_i h1 h2; rw [if_neg h1, if_pos h2] at hok; simp at hok
        · split
          · rename_i h1 h2 h4; rw [if_neg h1, if_neg h2, if_pos h4] at hok; simp at hok
          · simp

/-- The software candidate list over any sequence of calls all returning `true`. -/
theorem softwareTests_spec (N : Numerics) (env : EncoderEnv) (g : Globals) (m : Int)
    (calls : List TestCall) :
    ∀ (i : Nat) (results out : List Result), results.length ≤ 3 →
      softwareTests N env g m calls i results = some out →
      out.length ≤ 3 ∧ ((results ≠ [] ∨ ∃ c ∈ calls, c.force = true) → out ≠ []) := by
  induction calls with
  | nil =>
    intro i results out h hs
    simp only [softwareTests, Option.some.injEq] at hs
    subst hs
    refine ⟨h, ?_⟩
    rintro (h1 | ⟨c, hc, _⟩)
    · exact h1
    · exact absurd hc (List.not_mem_nil c)
  | cons c cs ih =>
    intro i results out h hs
    simp only [softwareTests] at hs
    split at hs
    · rename_i hok
      have hl := testResSoftware_length N env g m (i + 1) results c h
      obtain ⟨i1, i2⟩ := ih (i + 1) _ out hl hs
      refine ⟨i1, ?_⟩
      intro hne
      apply i2
      rcases hne with h1 | ⟨d, hd, hf⟩
      · exact Or.inl (testResSoftware_ne_nil N env g m (i + 1) results c (Or.inl h1))
      · rcases List.mem_cons.1 hd with rfl | hd
        · exact Or.inl (testResSoftware_ne_nil N env g m (i + 1) results d (Or.inr ⟨hf, hok⟩))
        · exact Or.inr ⟨d, hd, hf⟩
    · cases hs

/-- C12: for every ideal bitrate, core count, purpose, fps override and preference
flag, the candidate list built by `FindIdealHardwareResolution` holds between one
and three candidates, also after the frame-rate preference, so `results.front()` is
defined; the same holds in `TestSoftwareEncoding` whenever every call of `testRes`
returned `true`, and the function then returns `true`. -/
theorem candidates_nonempty_bounded (N : Numerics) (g : Globals) :
    (∀ pcores : Int,
      hardwareCandidates N pcores g ≠ [] ∧ (hardwareCandidates N pcores g).length ≤ 3 ∧
        dropLowFPS g (hardwareCandidates N pcores g) ≠ [] ∧
        ∃ g1, FindIdealHardwareResolution N pcores g = some g1) ∧
    (∀ (env : EncoderEnv) (results : List Result),
      softwareCandidates N env g = some results →
        results ≠ [] ∧ results.length ≤ 3 ∧ dropLowFPS g results ≠ [] ∧
          ∃ g1, TestSoftwareEncoding N env g = some (true, g1)) := by
  constructor
  · intro pcores
    have h := foldl_testResHardware N g
      (if pcores ≥ 4 then baseDataRate g 60 else 1280 * 720 * 30 + 1000) (testCalls g) []
      (by simp)
    have hne : hardwareCandidates N pcores g ≠ [] := h.2 (Or.inr (testCalls_forced g))
    have hd := (dropLowFPS_spec g (hardwareCandidates N pcores g)).1 hne
    refine ⟨hne, h.1, hd, ?_⟩
    cases hh : (dropLowFPS g (hardwareCandidates N pcores g)).head? with
    | none => rw [List.head?_eq_none_iff] at hh; exact absurd hh hd
    | some r =>
      simp only [FindIdealHardwareResolution, hh]
      exact ⟨_, rfl⟩
  · intro env results hs
    have h := softwareTests_spec N env g (softwareMaxDataRate env g) (testCalls g) 0 [] results
      (by simp) hs
    have hne : results ≠ [] := h.2 (Or.inr (testCalls_forced g))
    have hd := (dropLowFPS_spec g results).1 hne
    refine ⟨hne, h.1, hd, ?_⟩
    cases hh : (dropLowFPS g results).head? with
    | none => rw [List.head?_eq_none_iff] at hh; exact absurd hh hd
    | some r =>
      simp only [TestSoftwareEncoding, hs, hh]
      exact ⟨_, rfl⟩

set_option maxRecDepth 100000 in
theorem candidates_nonempty_bounded_witness :
    softwareCandidates sampleNumerics sampleEnv { idealBitrate := 0 } =
        some [⟨853, 480, 30, 1⟩] ∧
      ([⟨853, 480, 30, 1⟩] : List Result) ≠ [] :=
  ⟨by decide!,
   (((candidates_nonempty_bounded sampleNumerics { idealBitrate := 0 }).2 sampleEnv
      [⟨853, 480, 30, 1⟩] (by decide!))).1⟩

/-! ## Theorems: choice of the result -/

/-- C13 (as stated, refuted): with `preferHighFPS` and no specific frame rate, a 30
fps candidate followed by a 60 fps candidate of 960x540, whose area is exactly
960*540 = 518,400, is not dropped: the source requires the area to reach
`960 * 540 + 1000`. -/
theorem dropLowFPS_keeps_at_518400 :
    ({} : Globals).preferHighFPS = true ∧ ({} : Globals).specificFPSNum = 0 ∧
      (960 * 540 : Int) ≥ 518400 ∧
      dropLowFPS {} [⟨1280, 720, 30, 1⟩, ⟨960, 540, 60, 1⟩] =
        [⟨1280, 720, 30, 1⟩, ⟨960, 540, 60, 1⟩] ∧
      (dropLowFPS {} [⟨1280, 720, 30, 1⟩, ⟨960, 540, 60, 1⟩]).head? =
        some ⟨1280, 720, 30, 1⟩ := by
  decide

/-- C13 (amended): with `preferHighFPS` enabled and no specific frame rate, for every
candidate list whose first two entries are a 30 fps candidate followed by a 60 fps
candidate `y` whose pixel area (an `int`) is at least `960 * 540 + 1000 = 519,400`,
the 30 fps candidate is dropped, `y` is the chosen result of both probes' selection
and its frame rate becomes the ideal frame rate. -/
theorem dropLowFPS_prefers_60 (g : Globals) (x y : Result) (rest : List Result)
    (hs : g.specificFPSNum = 0) (hp : g.preferHighFPS = true)
    (hx : x.fps_num = 30) (hy : y.fps_num = 60)
    (harea : 960 * 540 + 1000 ≤ y.cx * y.cy) (hint : y.cx * y.cy < 2147483648) :
    dropLowFPS g (x :: y :: rest) = y :: rest ∧
      (dropLowFPS g (x :: y :: rest)).head? = some y ∧
      (applyResult g y).idealFPSNum = 60 ∧ (applyResult g y).idealFPSDen = y.fps_den ∧
      (∀ (N : Numerics) (pcores : Int), hardwareCandidates N pcores g = x :: y :: rest →
        FindIdealHardwareResolution N pcores g = some (applyResult g y)) := by
  have h32 : toInt32 (y.cx * y.cy) = y.cx * y.cy := by unfold toInt32; omega
  have hd : dropLowFPS g (x :: y :: rest) = y :: rest := by
    unfold dropLowFPS
    simp only [hs, hp, hx, hy, h32, List.length_cons, and_self, true_and, if_true]
    rw [if_pos (by omega), if_pos (by omega)]
  refine ⟨hd, by rw [hd]; rfl, ?_, rfl, ?_⟩
  · simp [applyResult, hy]
  · intro N pcores hc
    unfold FindIdealHardwareResolution
    rw [hc, hd]
    rfl

theorem dropLowFPS_prefers_60_witness :
    dropLowFPS {} [⟨1024, 576, 30, 1⟩, ⟨1024, 576, 60, 1⟩] = [⟨1024, 576, 60, 1⟩] ∧
      (1024 * 576 : Int) = 589824 :=
  ⟨(dropLowFPS_prefers_60 {} ⟨1024, 576, 30, 1⟩ ⟨1024, 576, 60, 1⟩ [] rfl rfl rfl rfl
      (by decide) (by decide)).1,
   by decide⟩

/-! ## Theorems: ideal resolution and bitrate -/

/-- After the assignment of a result, the product of the ideal dimensions as the
source evaluates it (in `uint64_t`) is at most 1280x720. -/
theorem applyResult_wrapped (g : Globals) (r : Result) :
    (applyResult g r).idealResolutionCX * (applyResult g r).idealResolutionCY
      % 18446744073709551616 ≤ 1280 * 720 := by
  unfold applyResult
  simp only []
  by_cases h : toUInt64 r.cx * toUInt64 r.cy % 18446744073709551616 > 1280 * 720
  · simp [h]
  · simp only [h, decide_False, Bool.false_eq_true, if_false]
    omega

/-- After the assignment of a result with non-negative `int` dimensions, the area
of the ideal resolution is at most 1280x720. -/
theorem applyResult_area (g : Globals) (r : Result)
    (hx : 0 ≤ r.cx ∧ r.cx < 2147483648) (hy : 0 ≤ r.cy ∧ r.cy < 2147483648) :
    AreaBounded (applyResult g r) := by
  have h := applyResult_wrapped g r
  unfold AreaBounded
  have hcx : (applyResult g r).idealResolutionCX < 2147483648 := by
    unfold applyResult toUInt64
    simp only []
    split <;> omega
  have hcy : (applyResult g r).idealResolutionCY < 2147483648 := by
    unfold applyResult toUInt64
    simp only []
    split <;> omega
  have hlt : (applyResult g r).idealResolutionCX * (applyResult g r).idealResolutionCY
      < 18446744073709551616 := by
    calc (applyResult g r).idealResolutionCX * (applyResult g r).idealResolutionCY
        ≤ 2147483648 * 2147483648 := Nat.mul_le_mul (le_of_lt hcx) (le_of_lt hcy)
      _ < 18446744073709551616 := by decide
  rw [Nat.mod_eq_of_lt hlt] at h
  exact h

/-- Every hardware candidate is the candidate computed by some call. -/
theorem foldl_testResHardware_mem (N : Numerics) (g : Globals) (m : Int)
    (calls : List TestCall) :
    ∀ results : List Result, (∀ r ∈ results, ∃ c, r = candidateOf N g c) →
      ∀ r ∈ calls.foldl (testResHardware N g m) results, ∃ c, r = candidateOf N g c := by
  induction calls with
  | nil => intro results h; exact h
  | cons c cs ih =>
    intro results h
    apply ih
    unfold testResHardware
    split
    · exact h
    · simp only []
      split
      · exact h
      · split
        · intro r hr
          rcases List.mem_append.1 hr with hr | hr
          · exact h r hr
          · exact ⟨c, List.mem_singleton.1 hr⟩
        · exact h

/-- Every software candidate is the candidate computed by some call. -/
theorem softwareTests_mem (N : Numerics) (env : EncoderEnv) (g : Globals) (m : Int)
    (calls : List TestCall) :
    ∀ (i : Nat) (results out : List Result), (∀ r ∈ results, ∃ c, r = candidateOf N g c) →
      softwareTests N env g m calls i results = some out →
      ∀ r ∈ out, ∃ c, r = candidateOf N g c := by
  induction calls with
  | nil =>
    intro i results out h hs
    simp only [softwareTests, Option.some.injEq] at hs
    subst hs
    exact h
  | cons c cs ih =>
    intro i results out h hs
    simp only [softwareTests] at hs
    split at hs
    · refine ih (i + 1) _ out ?_ hs
      unfold testResSoftware
      split
      · exact h
      · simp only []
        split
        · exact h
        · split
          · exact h
          · split
            · exact h
            · split
              · exact h
              · split
                · exact h
                · simp only []
                  split
                  · intro r hr
                    rcases List.mem_append.1 hr with hr | hr
                    · exact h r hr
                    · exact ⟨c, List.mem_singleton.1 hr⟩
                  · exact h
    · cases hs

/-- The frame-rate preference only removes candidates. -/
theorem dropLowFPS_mem (g : Globals) (results : List Result) :
    ∀ r ∈ dropLowFPS g results, r ∈ results := by
  unfold dropLowFPS
  simp only []
  split
  · match results with
    | [] => simp
    | [a] => simp
    | a :: b :: rest =>
      simp only []
      split
      · split
        · intro r hr; exact List.mem_cons_of_mem _ hr
        · intro r hr; exact hr
      · intro r hr; exact hr
  · intro r hr; exact hr

/-- The clamp of the bitrate leaves the ideal resolution untouched. -/
theorem clampIdealBitrate_resolution (g : Globals) (f : Rat) :
    (clampIdealBitrate g f).idealResolutionCX = g.idealResolutionCX ∧
      (clampIdealBitrate g f).idealResolutionCY = g.idealResolutionCY := by
  unfold clampIdealBitrate
  simp only []
  split_ifs <;> exact ⟨rfl, rfl⟩

/-- The hardware candidate list is never empty after the frame-rate preference. -/
theorem candidates_nonempty_bounded_aux (N : Numerics) (g : Globals) (pcores : Int) :
    dropLowFPS g (hardwareCandidates N pcores g) ≠ [] := by
  have h := foldl_testResHardware N g
    (if pcores ≥ 4 then baseDataRate g 60 else 1280 * 720 * 30 + 1000) (testCalls g) []
    (by simp)
  exact (dropLowFPS_spec g (hardwareCandidates N pcores g)).1
    (h.2 (Or.inr (testCalls_forced g)))

/-- C11: the area of the ideal resolution is at most 1280x720 in the initial state,
after `SetDefaultSettings`, after `FindIdealHardwareResolution` and after a
successful `TestSoftwareEncoding`, for every core count, bitrate and flag setting:
as the product the source evaluates (in `uint64_t`) for every candidate, and as the
exact area whenever the scaled resolutions are non-negative `int` values. -/
theorem idealResolution_area_bounded (N : Numerics) (g : Globals) :
    AreaBounded {} ∧
    AreaBounded (SetDefaultSettings g) ∧
    (∀ pcores : Int, ∃ g1, FindIdealHardwareResolution N pcores g = some g1 ∧
      g1.idealResolutionCX * g1.idealResolutionCY % 18446744073709551616 ≤ 1280 * 720 ∧
      (ScalesInRange N g → AreaBounded g1)) ∧
    (∀ (env : EncoderEnv) (g1 : Globals), TestSoftwareEncoding N env g = some (true, g1) →
      g1.idealResolutionCX * g1.idealResolutionCY % 18446744073709551616 ≤ 1280 * 720 ∧
      (ScalesInRange N g → AreaBounded g1)) := by
  refine ⟨Nat.le_refl _, Nat.le_refl _, ?_, ?_⟩
  · intro pcores
    cases hh : (dropLowFPS g (hardwareCandidates N pcores g)).head? with
    | none =>
      have hne := (candidates_nonempty_bounded_aux N g pcores)
      rw [List.head?_eq_none_iff] at hh
      exact absurd hh hne
    | some r =>
      refine ⟨applyResult g r, by simp only [FindIdealHardwareResolution, hh],
        applyResult_wrapped g r, ?_⟩
      intro hsc
      have hmem : r ∈ hardwareCandidates N pcores g :=
        dropLowFPS_mem g _ r (List.mem_of_mem_head? hh)
      obtain ⟨c, hc⟩ := foldl_testResHardware_mem N g _ (testCalls g) []
        (fun r hr => absurd hr (List.not_mem_nil r)) r hmem
      have hd := hsc c.div
      exact applyResult_area g r (by rw [hc]; exact hd.1) (by rw [hc]; exact hd.2)
  · intro env g1 hs
    unfold TestSoftwareEncoding at hs
    cases hc : softwareCandidates N env g with
    | none => rw [hc] at hs; simp at hs
    | some results =>
      rw [hc] at hs
      simp only [] at hs
      cases hh : (dropLowFPS g results).head? with
      | none => rw [hh] at hs; simp at hs
      | some r =>
        rw [hh] at hs
        simp only [Option.some.injEq, Prod.mk.injEq, true_and] at hs
        subst hs
        have hres := clampIdealBitrate_resolution (applyResult g r)
          (EstimateUpperBitrate N r.cx r.cy r.fps_num r.fps_den)
        refine ⟨?_, ?_⟩
        · show (clampIdealBitrate _ _).idealResolutionCX *
            (clampIdealBitrate _ _).idealResolutionCY % _ ≤ _
          rw [hres.1, hres.2]
          exact applyResult_wrapped g r
        · intro hsc
          have hmem : r ∈ results := dropLowFPS_mem g _ r (List.mem_of_mem_head? hh)
          obtain ⟨c, hcc⟩ := softwareTests_mem N env g _ (testCalls g) 0 [] results
            (fun r hr => absurd hr (List.not_mem_nil r)) hc r hmem
          have hd := hsc c.div
          have ha := applyResult_area g r (by rw [hcc]; exact hd.1) (by rw [hcc]; exact hd.2)
          unfold AreaBounded at ha ⊢
          show (clampIdealBitrate _ _).idealResolutionCX *
            (clampIdealBitrate _ _).idealResolutionCY ≤ _
          rw [hres.1, hres.2]
          exact ha

/-- A successful `TestSoftwareEncoding` is the assignment of the chosen candidate
followed by the clamp of the bitrate. -/
theorem testSoftwareEncoding_success (N : Numerics) (env : EncoderEnv) (g g1 : Globals)
    (hs : TestSoftwareEncoding N env g = some (true, g1)) :
    ∃ results r, softwareCandidates N env g = some results ∧
      (dropLowFPS g results).head? = some r ∧ g1 = afterSoftwareTest N g r := by
  unfold TestSoftwareEncoding at hs
  cases hc : softwareCandidates N env g with
  | none => rw [hc] at hs; simp at hs
  | some results =>
    rw [hc] at hs
    simp only [] at hs
    cases hh : (dropLowFPS g results).head? with
    | none => rw [hh] at hs; simp at hs
    | some r =>
      rw [hh] at hs
      simp only [Option.some.injEq, Prod.mk.injEq, true_and] at hs
      exact ⟨results, r, rfl, hh, hs.symm⟩

/-- The clamp never raises the bitrate. -/
theorem clampIdealBitrate_le (g : Globals) (f : Rat) :
    (clampIdealBitrate g f).idealBitrate ≤ g.idealBitrate := by
  unfold clampIdealBitrate
  simp only []
  split_ifs with h1 h2 h3
  · exact le_of_lt h2
  · exact le_refl _
  · exact le_of_lt h3
  · exact le_refl _

/-- A value in the `int` range is unchanged by the conversion to `int`. -/
theorem toInt32_of_range (x : Int) (h0 : -2147483648 ≤ x) (h1 : x < 2147483648) :
    toInt32 x = x := by
  unfold toInt32; omega

/-- A non-negative value below `2^64` is unchanged by the conversion to `uint64_t`. -/
theorem toUInt64_of_range (x : Int) (h0 : 0 ≤ x) (h1 : x < 18446744073709551616) :
    toUInt64 x = x.toNat := by
  unfold toUInt64
  rw [Int.emod_eq_of_lt h0 h1]

/-- The clamp as a minimum, for an upper bound `u = floor(f / 50) * 50` within the
`int` range. -/
theorem clampIdealBitrate_min (g : Globals) (f : Rat) (hf : 0 ≤ f) :
    (g.streamingEncoder = Encoder.x264 → ⌊f / 50⌋ * 50 < 2147483648 →
      ((clampIdealBitrate g f).idealBitrate : Int) = min (g.idealBitrate : Int) (50 * ⌊f / 50⌋)) ∧
    (g.streamingEncoder ≠ Encoder.x264 → ⌊f / 50⌋ * 50 * 114 < 2147483648 →
      ((clampIdealBitrate g f).idealBitrate : Int) =
        min (g.idealBitrate : Int) (50 * ⌊f / 50⌋ * 114 / 100)) := by
  have hk : 0 ≤ ⌊f / 50⌋ := Int.floor_nonneg.2 (div_nonneg hf (by norm_num))
  unfold clampIdealBitrate
  generalize ⌊f / 50⌋ = k at hk ⊢
  clear hf
  constructor
  · intro henc hb
    have h32 : toInt32 (k * 50) = k * 50 := toInt32_of_range _ (by omega) (by omega)
    simp only [henc, ne_eq, not_true_eq_false, if_false, h32]
    have h64 : toUInt64 (k * 50) = (k * 50).toNat :=
      toUInt64_of_range _ (by omega) (by omega)
    rw [h64]
    split_ifs with h
    · simp only []
      rw [min_def]
      split_ifs <;> omega
    · rw [min_def]
      split_ifs <;> omega
  · intro henc hb
    have h32 : toInt32 (k * 50) = k * 50 := toInt32_of_range _ (by omega) (by omega)
    have h114 : toInt32 (k * 50 * 114) = k * 50 * 114 :=
      toInt32_of_range _ (by omega) (by omega)
    have hpos : (0 : Int) ≤ k * 50 * 114 := by omega
    simp only [henc, ne_eq, not_false_eq_true, if_true, h32, h114, tdiv_hundred, hpos]
    have h64 : toUInt64 (k * 50 * 114 / 100) = (k * 50 * 114 / 100).toNat :=
      toUInt64_of_range _ (by omega) (by omega)
    rw [h64]
    have he : 50 * k * 114 / 100 = k * 50 * 114 / 100 := by
      rw [Int.mul_comm 50 k]
    rw [he]
    split_ifs with h
    · simp only []
      rw [min_def]
      split_ifs <;> omega
    · rw [min_def]
      split_ifs <;> omega

/-- C14: on a successful `TestSoftwareEncoding`, with `f ≥ 0` the value of
`EstimateUpperBitrate` for the chosen candidate and `b` the prior `idealBitrate`,
the new `idealBitrate` is `min(b, U)` where `U = 50 * floor(f / 50)` when the
streaming encoder is x264 and `U = (50 * floor(f / 50)) * 114 / 100` otherwise,
for every `f` whose rounded value (times 114 in the second case) fits an `int`;
and `idealBitrate` is never raised. -/
theorem testSoftwareEncoding_clamps_bitrate (N : Numerics) (env : EncoderEnv) (g g1 : Globals)
    (hs : TestSoftwareEncoding N env g = some (true, g1)) :
    ∃ results r, softwareCandidates N env g = some results ∧
      (dropLowFPS g results).head? = some r ∧
      g1.idealBitrate ≤ g.idealBitrate ∧
      (0 ≤ EstimateUpperBitrate N r.cx r.cy r.fps_num r.fps_den →
        (g.streamingEncoder = Encoder.x264 →
          ⌊EstimateUpperBitrate N r.cx r.cy r.fps_num r.fps_den / 50⌋ * 50 < 2147483648 →
          (g1.idealBitrate : Int) = min (g.idealBitrate : Int)
            (50 * ⌊EstimateUpperBitrate N r.cx r.cy r.fps_num r.fps_den / 50⌋)) ∧
        (g.streamingEncoder ≠ Encoder.x264 →
          ⌊EstimateUpperBitrate N r.cx r.cy r.fps_num r.fps_den / 50⌋ * 50 * 114
            < 2147483648 →
          (g1.idealBitrate : Int) = min (g.idealBitrate : Int)
            (50 * ⌊EstimateUpperBitrate N r.cx r.cy r.fps_num r.fps_den / 50⌋ * 114 / 100))) := by
  obtain ⟨results, r, hc, hh, hg⟩ := testSoftwareEncoding_success N env g g1 hs
  refine ⟨results, r, hc, hh, ?_, ?_⟩
  · rw [hg]
    exact clampIdealBitrate_le (applyResult g r) _
  · intro hf
    rw [hg]
    exact clampIdealBitrate_min (applyResult g r) _ hf

/-- The sample scaling yields non-negative `int` dimensions for the default base
resolution. -/
theorem sampleNumerics_scalesInRange :
    ScalesInRange sampleNumerics { idealBitrate := 20000 } := by
  unfold ScalesInRange
  intro d
  cases d <;> decide

set_option maxRecDepth 100000 in
theorem idealResolution_area_bounded_witness :
    ScalesInRange sampleNumerics { idealBitrate := 20000 } ∧
      TestSoftwareEncoding sampleNumerics sampleEnv { idealBitrate := 20000 } =
        some (true, afterSoftwareTest sampleNumerics { idealBitrate := 20000 }
          ⟨1920, 1080, 60, 1⟩) ∧
      AreaBounded (afterSoftwareTest sampleNumerics { idealBitrate := 20000 }
        ⟨1920, 1080, 60, 1⟩) :=
  ⟨sampleNumerics_scalesInRange, by decide!,
   ((idealResolution_area_bounded sampleNumerics { idealBitrate := 20000 }).2.2.2 sampleEnv
      (afterSoftwareTest sampleNumerics { idealBitrate := 20000 } ⟨1920, 1080, 60, 1⟩)
      (by decide!)).2 sampleNumerics_scalesInRange⟩

set_option maxRecDepth 100000 in
theorem testSoftwareEncoding_clamps_bitrate_witness :
    TestSoftwareEncoding sampleNumerics sampleEnv { idealBitrate := 20000 } =
        some (true, afterSoftwareTest sampleNumerics { idealBitrate := 20000 }
          ⟨1920, 1080, 60, 1⟩) ∧
      EstimateUpperBitrate sampleNumerics 1920 1080 60 1 = 13500 ∧
      (afterSoftwareTest sampleNumerics { idealBitrate := 20000 }
        ⟨1920, 1080, 60, 1⟩).idealBitrate = 13500 ∧
      (afterSoftwareTest sampleNumerics { idealBitrate := 20000 }
        ⟨1920, 1080, 60, 1⟩).idealBitrate ≤ 20000 :=
  ⟨by decide!, by decide!, by decide!,
   (testSoftwareEncoding_clamps_bitrate sampleNumerics sampleEnv { idealBitrate := 20000 }
      (afterSoftwareTest sampleNumerics { idealBitrate := 20000 } ⟨1920, 1080, 60, 1⟩)
      (by decide!)).elim fun _ h => h.elim fun _ h2 => h2.2.2.1⟩

/-! ## Theorems: encoder probes -/

/-- One detection step sets flags only, keeps them consistent and never clears one. -/
theorem detectEncoder_spec (g : Globals) (id : Option String) :
    (detectEncoder g id).type = g.type ∧
      (detectEncoder g id).preferHardware = g.preferHardware ∧
      (detectEncoder g id).softwareTested = g.softwareTested ∧
      (detectEncoder g id).streamingEncoder = g.streamingEncoder ∧
      (detectEncoder g id).recordingEncoder = g.recordingEncoder ∧
      (detectEncoder g id).recordingQuality = g.recordingQuality ∧
      (FlagsConsistent g → FlagsConsistent (detectEncoder g id)) := by
  cases id with
  | none => exact ⟨rfl, rfl, rfl, rfl, rfl, rfl, fun h => h⟩
  | some id =>
    unfold detectEncoder FlagsConsistent
    simp only []
    split_ifs <;> refine ⟨rfl, rfl, rfl, rfl, rfl, rfl, ?_⟩ <;> intro h <;>
      obtain ⟨h1, h2⟩ := h <;> refine ⟨?_, ?_⟩ <;> simp_all

/-- Detection over the whole enumeration: see `detectEncoder_spec`. -/
theorem testHardwareEncoding_spec (ids : List (Option String)) :
    ∀ g : Globals,
      (TestHardwareEncoding g ids).type = g.type ∧
      (TestHardwareEncoding g ids).preferHardware = g.preferHardware ∧
      (TestHardwareEncoding g ids).softwareTested = g.softwareTested ∧
      (TestHardwareEncoding g ids).streamingEncoder = g.streamingEncoder ∧
      (TestHardwareEncoding g ids).recordingEncoder = g.recordingEncoder ∧
      (TestHardwareEncoding g ids).recordingQuality = g.recordingQuality ∧
      (FlagsConsistent g → FlagsConsistent (TestHardwareEncoding g ids)) := by
  induction ids with
  | nil => intro g; exact ⟨rfl, rfl, rfl, rfl, rfl, rfl, fun h => h⟩
  | cons id ids ih =>
    intro g
    obtain ⟨a1, a2, a3, a4, a5, a6, a7⟩ := detectEncoder_spec g id
    obtain ⟨b1, b2, b3, b4, b5, b6, b7⟩ := ih (detectEncoder g id)
    show (TestHardwareEncoding (detectEncoder g id) ids).type = g.type ∧ _
    exact ⟨b1.trans a1, b2.trans a2, b3.trans a3, b4.trans a4, b5.trans a5, b6.trans a6,
      fun h => b7 (a7 h)⟩

/-- The bitrate clamp does not touch the encoder fields. -/
theorem clampIdealBitrate_view (g : Globals) (f : Rat) :
    encoderView (clampIdealBitrate g f) = encoderView g ∧
      (clampIdealBitrate g f).softwareTested = g.softwareTested := by
  unfold clampIdealBitrate
  simp only []
  split_ifs <;> exact ⟨rfl, rfl⟩

/-- `FindIdealHardwareResolution` does not touch the encoder fields. -/
theorem findIdeal_view (N : Numerics) (pcores : Int) (g g1 : Globals)
    (h : FindIdealHardwareResolution N pcores g = some g1) :
    encoderView g1 = encoderView g ∧ g1.softwareTested = g.softwareTested := by
  unfold FindIdealHardwareResolution at h
  split at h
  · cases h
  · cases h; exact ⟨rfl, rfl⟩

/-- `TestSoftwareEncoding` does not touch the encoder fields; it sets `softwareTested`
when it returns `true` and changes nothing when it returns `false`. -/
theorem testSoftwareEncoding_view (N : Numerics) (env : EncoderEnv) (g g1 : Globals) (b : Bool)
    (h : TestSoftwareEncoding N env g = some (b, g1)) :
    encoderView g1 = encoderView g ∧ (b = true → g1.softwareTested = true) ∧
      (b = false → g1 = g) := by
  cases b with
  | true =>
    obtain ⟨results, r, _, _, hg⟩ := testSoftwareEncoding_success N env g g1 h
    subst hg
    refine ⟨?_, fun _ => rfl, fun hb => Bool.noConfusion hb⟩
    exact (clampIdealBitrate_view (applyResult g r) _).1
  | false =>
    unfold TestSoftwareEncoding at h
    split at h
    · cases h; exact ⟨rfl, fun hb => Bool.noConfusion hb, fun _ => rfl⟩
    · split at h
      · cases h
      · cases h

/-- The shape of a run of `TestStreamEncoderThread` that reaches its end: the final
choice is made on a state `g4` whose encoder fields are those after detection, and
`softwareTested` tells which path was taken. -/
theorem streamThread_shape (N : Numerics) (env : EncoderEnv) (g g1 : Globals)
    (h : TestStreamEncoderThread N env g = some (true, g1)) :
    ∃ g4, g1 = pushEvent (chooseStreamingEncoder g4) "stopping_step" "streamingEncoder_test" 100 ∧
      encoderView g4 = encoderView (TestHardwareEncoding
        (pushEvent g "starting_step" "streamingEncoder_test" 0) env.encoders) ∧
      (g.softwareTested = true → g4.softwareTested = true) ∧
      (g4.softwareTested = false →
        g.preferHardware = true ∧ g4.hardwareEncodingAvailable = true) ∧
      (g4.softwareTested = true → g.softwareTested = false →
        (g.preferHardware = false ∨ g4.hardwareEncodingAvailable = false)) := by
  unfold TestStreamEncoderThread at h
  simp only [] at h
  have hd := testHardwareEncoding_spec env.encoders
    (pushEvent g "starting_step" "streamingEncoder_test" 0)
  generalize TestHardwareEncoding (pushEvent g "starting_step" "streamingEncoder_test" 0)
    env.encoders = g2 at h hd ⊢
  obtain ⟨-, hpref, hsoft, -, -, -, -⟩ := hd
  have hpref2 : g2.preferHardware = g.preferHardware := hpref
  have hsoft2 : g2.softwareTested = g.softwareTested := hsoft
  by_cases c1 : (!g2.softwareTested && (!g2.preferHardware || !g2.hardwareEncodingAvailable)) = true
  · rw [if_pos c1] at h
    cases hsw : TestSoftwareEncoding N env g2 with
    | none => rw [hsw] at h; simp at h
    | some r =>
      obtain ⟨b, g3⟩ := r
      rw [hsw] at h
      cases b with
      | false => simp at h
      | true =>
        obtain ⟨hv, hst, -⟩ := testSoftwareEncoding_view N env g2 g3 true hsw
        have hst2 : g3.softwareTested = true := hst rfl
        simp only [hst2, Bool.not_true, Bool.and_false, Bool.false_and, Bool.false_eq_true,
          if_false, Option.some.injEq, Prod.mk.injEq, true_and] at h
        refine ⟨g3, h.symm, hv, fun _ => hst2, ?_, ?_⟩
        · intro hf; rw [hst2] at hf; exact Bool.noConfusion hf
        · intro _ hgs
          have hview : g3.hardwareEncodingAvailable = g2.hardwareEncodingAvailable :=
            congrArg EncoderView.hardwareEncodingAvailable hv
          rw [hview, ← hpref2]
          rw [hsoft2, hgs] at c1
          cases hp : g2.preferHardware <;> cases hh : g2.hardwareEncodingAvailable <;>
            simp_all
  · rw [if_neg c1] at h
    simp only [] at h
    cases hf : (if (g2.preferHardware && !g2.softwareTested && g2.hardwareEncodingAvailable) = true
        then FindIdealHardwareResolution N env.pcores g2 else some g2) with
    | none => rw [hf] at h; simp at h
    | some g4 =>
      rw [hf] at h
      simp only [Option.some.injEq, Prod.mk.injEq, true_and] at h
      have hv : encoderView g4 = encoderView g2 ∧ g4.softwareTested = g2.softwareTested := by
        split at hf
        · exact findIdeal_view N env.pcores g2 g4 hf
        · cases hf; exact ⟨rfl, rfl⟩
      have hview : g4.hardwareEncodingAvailable = g2.hardwareEncodingAvailable :=
        congrArg EncoderView.hardwareEncodingAvailable hv.1
      refine ⟨g4, h.symm, hv.1, ?_, ?_, ?_⟩
      · intro hs; rw [hv.2, hsoft2]; exact hs
      · intro hs
        rw [hv.2] at hs
        rw [hview, ← hpref2]
        cases hp : g2.preferHardware <;> cases hh : g2.hardwareEncodingAvailable <;>
          simp_all
      · intro hs hgs
        rw [hv.2, hsoft2, hgs] at hs
        exact Bool.noConfusion hs

/-- C15 (as stated, refuted): starting from the initial state, a first run of the
stream-encoder probe on a machine without hardware encoders runs the software test
and completes; a second run, on which `jim_nvenc` is enumerated, completes with
hardware preferred and an NVENC variant detected, yet decides x264, because
`softwareTested` is already set. -/
theorem streamThread_x264_despite_nvenc :
    ((TestStreamEncoderThread sampleNumerics sampleEnv {}).bind fun r =>
        TestStreamEncoderThread sampleNumerics (envWithEncoders [some "jim_nvenc"]) r.2).map
      (fun r => (r.1, r.2.preferHardware, r.2.jimnvencAvailable,
        r.2.hardwareEncodingAvailable, r.2.streamingEncoder)) =
    some (true, true, true, true, Encoder.x264) := by
  decide!

/-- C15 (amended): when the stream-encoder probe runs to completion, it decides x264
if `softwareTested` was already set, or hardware is not preferred, or no hardware
encoder is available after detection; otherwise it decides NVENC when an NVENC
variant is detected, else QSV when QSV is detected, else AMD when AMD is detected,
and leaves the streaming encoder unchanged when none of the three is detected
(only Apple hardware). -/
theorem streamThread_decision (N : Numerics) (env : EncoderEnv) (g g1 : Globals)
    (h : TestStreamEncoderThread N env g = some (true, g1)) :
    ((g.softwareTested = true ∨ g.preferHardware = false ∨
        g1.hardwareEncodingAvailable = false) → g1.streamingEncoder = Encoder.x264) ∧
    (g.softwareTested = false → g.preferHardware = true →
      g1.hardwareEncodingAvailable = true →
        ((g1.nvencAvailable = true ∨ g1.jimnvencAvailable = true) →
          g1.streamingEncoder = Encoder.NVENC) ∧
        (g1.nvencAvailable = false → g1.jimnvencAvailable = false →
          g1.qsvAvailable = true → g1.streamingEncoder = Encoder.QSV) ∧
        (g1.nvencAvailable = false → g1.jimnvencAvailable = false →
          g1.qsvAvailable = false → g1.vceAvailable = true →
          g1.streamingEncoder = Encoder.AMD) ∧
        (g1.nvencAvailable = false → g1.jimnvencAvailable = false →
          g1.qsvAvailable = false → g1.vceAvailable = false →
          g1.streamingEncoder = g.streamingEncoder)) := by
  obtain ⟨g4, hg1, hv, f1, f2, f3⟩ := streamThread_shape N env g g1 h
  have hd := testHardwareEncoding_spec env.encoders
    (pushEvent g "starting_step" "streamingEncoder_test" 0)
  have hse : g4.streamingEncoder = g.streamingEncoder :=
    (congrArg EncoderView.streamingEncoder hv).trans hd.2.2.2.1
  subst hg1
  constructor
  · intro hc
    have hst : g4.softwareTested = true := by
      cases hs : g4.softwareTested
      · obtain ⟨hp, hh⟩ := f2 hs
        rcases hc with hc | hc | hc
        · rw [f1 hc] at hs; exact Bool.noConfusion hs
        · rw [hp] at hc; exact Bool.noConfusion hc
        · have hc2 : g4.hardwareEncodingAvailable = false := by
            unfold chooseStreamingEncoder pushEvent at hc
            split_ifs at hc <;> exact hc
          rw [hh] at hc2; exact Bool.noConfusion hc2
      · rfl
    simp [pushEvent, chooseStreamingEncoder, hst]
  · intro hs hp hh
    have hh4 : g4.hardwareEncodingAvailable = true := by
      unfold chooseStreamingEncoder pushEvent at hh
      split_ifs at hh <;> exact hh
    have hst : g4.softwareTested = false := by
      cases hs4 : g4.softwareTested
      · rfl
      · rcases f3 hs4 hs with hc | hc
        · rw [hp] at hc; exact Bool.noConfusion hc
        · rw [hh4] at hc; exact Bool.noConfusion hc
    refine ⟨?_, ?_, ?_, ?_⟩
    · intro hn
      unfold chooseStreamingEncoder pushEvent at hn ⊢
      simp only [hst] at hn ⊢
      split_ifs at hn ⊢ <;> simp_all
    · intro h1 h2 h3
      unfold chooseStreamingEncoder pushEvent at h1 h2 h3 ⊢
      simp only [hst] at h1 h2 h3 ⊢
      split_ifs at h1 h2 h3 ⊢ <;> simp_all
    · intro h1 h2 h3 h4
      unfold chooseStreamingEncoder pushEvent at h1 h2 h3 h4 ⊢
      simp only [hst] at h1 h2 h3 h4 ⊢
      split_ifs at h1 h2 h3 h4 ⊢ <;> simp_all
    · intro h1 h2 h3 h4
      unfold chooseStreamingEncoder pushEvent at h1 h2 h3 h4 ⊢
      simp only [hst] at h1 h2 h3 h4 ⊢
      split_ifs at h1 h2 h3 h4 ⊢ <;> simp_all

set_option maxRecDepth 100000 in
theorem streamThread_decision_witness :
    TestStreamEncoderThread sampleNumerics (envWithEncoders [some "obs_qsv11"]) {} =
        some (true, sampleStreamRun) ∧
      sampleStreamRun.streamingEncoder = Encoder.QSV :=
  ⟨by decide!,
   ((streamThread_decision sampleNumerics (envWithEncoders [some "obs_qsv11"]) {}
      sampleStreamRun (by decide!)).2 rfl rfl (by decide!)).2.1
      (by decide!) (by decide!) (by decide!)⟩

set_option maxRecDepth 100000 in
/-- C18: a run of the stream-encoder probe that fails pushes no event of kind
"error". On a machine without hardware encoders where the output of the live test
does not start, `TestSoftwareEncoding` returns `false` and the probe returns having
pushed only its `starting_step`: no `stopping_step` and no error event. -/
theorem streamThread_fails_silently :
    (TestStreamEncoderThread sampleNumerics envOutputFails {}).map
        (fun r => (r.1, r.2.events)) =
      some (false, [{ event := "starting_step", description := "streamingEncoder_test",
                      percentage := 0 }]) ∧
    (TestRecordingEncoderThread sampleNumerics envOutputFails {}).map
        (fun r => (r.1, r.2.events)) =
      some (false, [{ event := "starting_step", description := "recordingEncoder_test",
                      percentage := 0 }]) := by
  constructor <;> decide!

/-! ## Theorems: the bandwidth probe -/

/-- The evaluation loop pushes progress events only and leaves the ideal settings
untouched. -/
theorem evaluateServers_events (env : BandwidthEnv) (size : Nat) (servers : List ServerInfo) :
    ∀ (i : Nat) (g : Globals) (success : Bool) (out : List ServerInfo × Globals × Bool),
      evaluateServers env size servers i g success = some out →
      ∃ mid : List AutoConfigInfo, out.2.1.events = g.events ++ mid ∧
        (∀ e ∈ mid, e.event = "progress") ∧ idealSettings out.2.1 = idealSettings g := by
  induction servers with
  | nil =>
    intro i g success out h
    simp only [evaluateServers, Option.some.injEq] at h
    subst h
    exact ⟨[], by simp, by simp, rfl⟩
  | cons s rest ih =>
    intro i g success out h
    simp only [evaluateServers] at h
    cases hr : EvaluateBandwidth (env.runs i) s success g.startingBitrate with
    | none => rw [hr] at h; simp at h
    | some r =>
      rw [hr] at h
      simp only [] at h
      cases hrest : evaluateServers env size rest (i + 1)
          (pushEvent { g with startingBitrate := r.startingBitrate } "progress"
            "bandwidth_test" (((i : Rat) + 1) * 100 / (size : Rat))) r.success with
      | none => rw [hrest] at h; simp at h
      | some o =>
        rw [hrest] at h
        obtain ⟨mid, h1, h2, h3⟩ := ih _ _ _ _ hrest
        obtain ⟨rest1, g2, success1⟩ := o
        simp only [Option.some.injEq] at h
        subst h
        refine ⟨{ event := "progress", description := "bandwidth_test",
                  percentage := ((i : Rat) + 1) * 100 / (size : Rat) } :: mid, ?_, ?_, ?_⟩
        · rw [h1]; simp [pushEvent]
        · intro e he
          rcases List.mem_cons.1 he with rfl | he
          · rfl
          · exact h2 e he
        · rw [h3]; rfl

/-- The three ways `finishBandwidthTest` ends. -/
theorem finishBandwidthTest_spec (g : Globals) (servers : List ServerInfo) (best : Best)
    (success gotError : Bool) :
    (gotError = true → finishBandwidthTest g servers best success gotError = g) ∧
    (gotError = false → success = false →
      finishBandwidthTest g servers best success gotError =
        pushEvent g "error" "invalid_stream_settings" 0) ∧
    (gotError = false → success = true →
      (finishBandwidthTest g servers best success gotError).events =
        g.events ++ [{ event := "stopping_step", description := "bandwidth_test",
                       percentage := 100 }]) := by
  refine ⟨?_, ?_, ?_⟩
  · intro h; subst h; cases success <;> simp [finishBandwidthTest]
  · intro h1 h2; subst h1; subst h2; simp [finishBandwidthTest]
  · intro h1 h2; subst h1; subst h2; simp [finishBandwidthTest, pushEvent]
/-- The return value of `EvaluateBandwidth` is negative, or it is 0 and `success`
was set. -/
theorem evaluateBandwidth_ret (run : OutputRun) (server : ServerInfo) (success : Bool)
    (sb : Int) (r : EvalResult) (h : EvaluateBandwidth run server success sb = some r) :
    (r.ret < 0 ∧ r.success = success ∧ r.server = server) ∨ (r.ret = 0 ∧ r.success = true) := by
  unfold EvaluateBandwidth at h
  simp only [] at h
  split at h
  · cases h; exact Or.inl ⟨by show (-1 : Int) < 0; decide, rfl, rfl⟩
  split at h
  · cases h; exact Or.inl ⟨by show (-1 : Int) < 0; decide, rfl, rfl⟩
  split at h
  · cases h; exact Or.inl ⟨by show (-1 : Int) < 0; decide, rfl, rfl⟩
  split at h
  · cases h; exact Or.inl ⟨by show (-1 : Int) < 0; decide, rfl, rfl⟩
  split at h
  · cases h; exact Or.inl ⟨by show (-1 : Int) < 0; decide, rfl, rfl⟩
  split at h
  · cases h; exact Or.inl ⟨by show (-1 : Int) < 0; decide, rfl, rfl⟩
  split at h
  · cases h
  · cases h; exact Or.inl ⟨by show (-1 : Int) < 0; decide, rfl, rfl⟩
  · cases h; exact Or.inr ⟨rfl, rfl⟩

/-- The preparation of the service settings pushes no event and leaves the ideal
settings untouched. -/
theorem prepareService_frame (g1 : Globals) (url : String) :
    (prepareService g1 url).events = g1.events ∧
      idealSettings (prepareService g1 url) = idealSettings g1 ∧
      (prepareService g1 url).startingBitrate = g1.startingBitrate := by
  unfold prepareService
  simp only []
  split_ifs <;> exact ⟨rfl, rfl, rfl⟩

/-- The server tests push progress events and then one error event, keeping the
ideal settings, or no error event and the `stopping_step`. -/
theorem testServers_trace (env : BandwidthEnv) (g4 g6 : Globals)
    (h : testServers env g4 = some g6) :
    ∃ mid : List AutoConfigInfo, (∀ e ∈ mid, e.event = "progress") ∧
      ((g6.events = g4.events ++
            (mid ++ [AutoConfigInfo.mk "error" "invalid_stream_settings" 0]) ∧
          idealSettings g6 = idealSettings g4) ∨
        g6.events = g4.events ++
          (mid ++ [AutoConfigInfo.mk "stopping_step" "bandwidth_test" 100])) := by
  unfold testServers at h
  simp only [] at h
  split at h
  · cases hr : EvaluateBandwidth (env.runs 0) (ServerInfo.mk g4.serverName g4.server 0 (-1))
        false g4.startingBitrate with
    | none => rw [hr] at h; simp at h
    | some r =>
      rw [hr] at h
      simp only [] at h
      rcases evaluateBandwidth_ret _ _ _ _ r hr with ⟨hneg, -, -⟩ | ⟨hz, hs⟩
      · rw [if_pos hneg] at h
        simp only [Option.some.injEq] at h
        subst h
        rw [(finishBandwidthTest_spec _ _ _ _ _).1 rfl]
        exact ⟨[], by simp, Or.inl ⟨by simp [pushEvent], rfl⟩⟩
      · rw [if_neg (by omega)] at h
        simp only [Option.some.injEq] at h
        subst h
        refine ⟨[{ event := "progress", description := "bandwidth_test", percentage := 100 }],
          ?_, Or.inr ?_⟩
        · intro e he
          rw [List.mem_singleton.1 he]
        · rw [(finishBandwidthTest_spec _ _ _ _ _).2.2 rfl hs]
          simp [pushEvent]
  · cases he : evaluateServers env (serversToTest g4 env.catalog).length
        (serversToTest g4 env.catalog) 0 g4 false with
    | none => rw [he] at h; simp at h
    | some o =>
      rw [he] at h
      obtain ⟨mid, h1, h2, h3⟩ := evaluateServers_events env _ _ _ _ _ _ he
      obtain ⟨servers1, g5, success⟩ := o
      simp only [Option.some.injEq] at h
      subst h
      refine ⟨mid, h2, ?_⟩
      cases success with
      | false =>
        left
        rw [(finishBandwidthTest_spec _ _ _ _ _).2.1 rfl rfl]
        constructor
        · show g5.events ++ _ = _
          rw [show g5.events = g4.events ++ mid from h1]
          simp
        · exact h3
      | true =>
        right
        rw [(finishBandwidthTest_spec _ _ _ _ _).2.2 rfl rfl]
        rw [show g5.events = g4.events ++ mid from h1]
        simp

/-- Every run of the bandwidth probe that ends has the trace `BandwidthTrace`. -/
theorem testBandwidthThread_trace (env : BandwidthEnv) (g : Globals) (out : BandwidthOutcome)
    (h : TestBandwidthThread env g = some out) : BandwidthTrace g out.g := by
  unfold TestBandwidthThread at h
  simp only [] at h
  unfold BandwidthTrace
  split at h
  · cases h
    exact ⟨[], by simp, Or.inl ⟨"invalid_video_settings", by simp [pushEvent], rfl⟩⟩
  · split at h
    · cases h
      exact ⟨[], by simp, Or.inl ⟨"invalid_stream_settings",
        by simp [sendErrorMessage, pushEvent], rfl⟩⟩
    · rename_i cs hcs
      split at h
      · cases h
        exact ⟨[], by simp, Or.inl ⟨"invalid_stream_settings",
          by simp [sendErrorMessage, pushEvent], rfl⟩⟩
      · split at h
        · cases h
          exact ⟨[], by simp, Or.inl ⟨"invalid_stream_settings",
            by simp [sendErrorMessage, pushEvent], rfl⟩⟩
        · split at h
          · cases h
          · rename_i g6 ht
            cases h
            obtain ⟨mid, hm, hcase⟩ := testServers_trace env _ g6 ht
            have hf := fun g1 : Globals => prepareService_frame g1 cs.url
            refine ⟨mid, hm, ?_⟩
            rcases hcase with ⟨he, hi⟩ | he
            · left
              refine ⟨"invalid_stream_settings", ?_, ?_⟩
              · rw [he, (hf _).1]; simp [pushEvent]
              · rw [hi, (hf _).2.1]; rfl
            · right
              rw [he, (hf _).1]; simp [pushEvent]
/-- C19: every run of the bandwidth probe that pushes an error event leaves
`idealBitrate`, `idealResolutionCX`, `idealResolutionCY`, `idealFPSNum` and
`idealFPSDen` as they were before the run. -/
theorem bandwidthProbe_error_keeps_ideal (env : BandwidthEnv) (g : Globals)
    (out : BandwidthOutcome) (pushed : List AutoConfigInfo)
    (h : TestBandwidthThread env g = some out)
    (hp : out.g.events = g.events ++ pushed)
    (herr : ∃ e ∈ pushed, e.event = "error") :
    out.g.idealBitrate = g.idealBitrate ∧
      out.g.idealResolutionCX = g.idealResolutionCX ∧
      out.g.idealResolutionCY = g.idealResolutionCY ∧
      out.g.idealFPSNum = g.idealFPSNum ∧ out.g.idealFPSDen = g.idealFPSDen := by
  obtain ⟨mid, hm, hcase⟩ := testBandwidthThread_trace env g out h
  rcases hcase with ⟨label, -, hi⟩ | he
  · unfold idealSettings at hi
    simp only [Prod.mk.injEq] at hi
    exact hi
  · exfalso
    rw [hp] at he
    have hpe := List.append_cancel_left he
    obtain ⟨e, hmem, hev⟩ := herr
    rw [hpe] at hmem
    rcases List.mem_cons.1 hmem with rfl | hmem
    · simp at hev
    · rcases List.mem_append.1 hmem with hmem | hmem
      · rw [hm e hmem] at hev; simp at hev
      · rw [List.mem_singleton.1 hmem] at hev; simp at hev

set_option maxRecDepth 100000 in
/-- Witness for C19: when no output starts, the probe of the sample globals ends in
an error event and keeps the ideal settings 6000, 1920x1080 and 60/1. -/
theorem bandwidthProbe_error_keeps_ideal_witness :
    (probeOutcome refusedBandwidthEnv).g.events.map (fun e => e.event) =
        ["starting_step", "progress", "progress", "progress", "error"] ∧
      ((probeOutcome refusedBandwidthEnv).g.idealBitrate = sampleProbeGlobals.idealBitrate ∧
        (probeOutcome refusedBandwidthEnv).g.idealResolutionCX =
          sampleProbeGlobals.idealResolutionCX ∧
        (probeOutcome refusedBandwidthEnv).g.idealResolutionCY =
          sampleProbeGlobals.idealResolutionCY ∧
        (probeOutcome refusedBandwidthEnv).g.idealFPSNum = sampleProbeGlobals.idealFPSNum ∧
        (probeOutcome refusedBandwidthEnv).g.idealFPSDen = sampleProbeGlobals.idealFPSDen) :=
  ⟨by decide!,
    bandwidthProbe_error_keeps_ideal refusedBandwidthEnv sampleProbeGlobals
      (probeOutcome refusedBandwidthEnv) (probeOutcome refusedBandwidthEnv).g.events
      (by decide!) (by decide!)
      ⟨AutoConfigInfo.mk "error" "invalid_stream_settings" 0, by decide!, rfl⟩⟩

/-- A non-zero first byte decides `astrcmp_n` against a prefix starting with another
byte: no label compares equal to both "Canada:" and "Mexico:". -/
theorem canada_mexico_exclusive (s : List Char) :
    ¬ (astrcmp_n s "Canada:".toList 7 = 0 ∧ astrcmp_n s "Mexico:".toList 7 = 0) := by
  rintro ⟨h1, h2⟩
  have e1 : cur "Canada:".toList = 67 := by decide
  have e2 : cur "Mexico:".toList = 77 := by decide
  unfold astrcmp_n at h1 h2
  rw [e1] at h1
  rw [e2] at h2
  by_cases a1 : cur s < 67
  · rw [if_pos a1] at h1; exact absurd h1 (by decide)
  · rw [if_neg a1] at h1
    by_cases a2 : cur s > 67
    · rw [if_pos a2] at h1; exact absurd h1 (by decide)
    · have hs : cur s < 77 := by omega
      rw [if_pos hs] at h2; exact absurd h2 (by decide)

/-- C27: when the selected service is Beam, region testing is enabled and not all
five regions are enabled, `CanTestServer` returns the `regionNA` flag for every
label, whatever its prefix. -/
theorem canTestServer_beam_regionNA (g : Globals) (label : String)
    (hsvc : g.serviceSelected = Service.Beam) (htest : g.testRegions = true)
    (hall : (g.regionNA && g.regionSA && g.regionEU && g.regionAS && g.regionOC) = false) :
    CanTestServer g label = g.regionNA := by
  have hx := canada_mexico_exclusive label.toList
  have hx2 : astrcmp_n label.toList "Canada:".toList "Canada:".length ≠ 0 ∨
      astrcmp_n label.toList "Mexico:".toList "Mexico:".length ≠ 0 := by
    by_cases h : astrcmp_n label.toList "Canada:".toList 7 = 0
    · exact Or.inr (fun h2 => hx ⟨h, h2⟩)
    · exact Or.inl h
  unfold CanTestServer
  simp only [hsvc, htest, hall]
  rw [if_pos trivial, if_pos (Or.inr hx2), if_neg (by decide), if_neg (by decide),
    if_neg (by decide)]

/-- Witness for C27: with only the EU region enabled, a Beam label starting with
"EU:" is rejected, following `regionNA`. -/
theorem canTestServer_beam_regionNA_witness :
    CanTestServer { serviceSelected := Service.Beam, testRegions := true, regionEU := true }
        "EU: Amsterdam" =
      ({ serviceSelected := Service.Beam, testRegions := true, regionEU := true } :
        Globals).regionNA :=
  canTestServer_beam_regionNA _ _ rfl rfl rfl
/-! ## Theorems: the stream key of the bandwidth probe -/

/-- The evaluation loop keeps the stored key and the selected service. -/
theorem evaluateServers_key (env : BandwidthEnv) (size : Nat) (servers : List ServerInfo) :
    ∀ (i : Nat) (g : Globals) (success : Bool) (out : List ServerInfo × Globals × Bool),
      evaluateServers env size servers i g success = some out →
      out.2.1.key = g.key ∧ out.2.1.serviceSelected = g.serviceSelected := by
  induction servers with
  | nil =>
    intro i g success out h
    simp only [evaluateServers, Option.some.injEq] at h
    subst h
    exact ⟨rfl, rfl⟩
  | cons s rest ih =>
    intro i g success out h
    simp only [evaluateServers] at h
    cases hr : EvaluateBandwidth (env.runs i) s success g.startingBitrate with
    | none => rw [hr] at h; simp at h
    | some r =>
      rw [hr] at h
      simp only [] at h
      cases hrest : evaluateServers env size rest (i + 1)
          (pushEvent { g with startingBitrate := r.startingBitrate } "progress"
            "bandwidth_test" (((i : Rat) + 1) * 100 / (size : Rat))) r.success with
      | none => rw [hrest] at h; simp at h
      | some o =>
        rw [hrest] at h
        obtain ⟨h1, h2⟩ := ih _ _ _ _ hrest
        obtain ⟨rest1, g2, success1⟩ := o
        simp only [Option.some.injEq] at h
        subst h
        exact ⟨h1, h2⟩

/-- The end of the probe keeps the stored key and the selected service. -/
theorem finishBandwidthTest_key (g : Globals) (servers : List ServerInfo) (best : Best)
    (success gotError : Bool) :
    (finishBandwidthTest g servers best success gotError).key = g.key ∧
      (finishBandwidthTest g servers best success gotError).serviceSelected =
        g.serviceSelected := by
  cases success <;> cases gotError <;> exact ⟨rfl, rfl⟩

/-- The server tests keep the stored key and the selected service. -/
theorem testServers_key (env : BandwidthEnv) (g4 g6 : Globals)
    (h : testServers env g4 = some g6) :
    g6.key = g4.key ∧ g6.serviceSelected = g4.serviceSelected := by
  unfold testServers at h
  simp only [] at h
  split at h
  · cases hr : EvaluateBandwidth (env.runs 0) (ServerInfo.mk g4.serverName g4.server 0 (-1))
        false g4.startingBitrate with
    | none => rw [hr] at h; simp at h
    | some r =>
      rw [hr] at h
      simp only [] at h
      split at h
      · simp only [Option.some.injEq] at h
        subst h
        exact finishBandwidthTest_key _ _ _ _ _
      · simp only [Option.some.injEq] at h
        subst h
        exact finishBandwidthTest_key _ _ _ _ _
  · cases he : evaluateServers env (serversToTest g4 env.catalog).length
        (serversToTest g4 env.catalog) 0 g4 false with
    | none => rw [he] at h; simp at h
    | some o =>
      rw [he] at h
      have hk := evaluateServers_key env _ _ _ _ _ _ he
      obtain ⟨servers1, g5, success⟩ := o
      simp only [Option.some.injEq] at h
      subst h
      have hf := finishBandwidthTest_key g5 servers1 {} success false
      exact ⟨hf.1.trans hk.1, hf.2.trans hk.2⟩

/-- Among the prefixes of a list that do not end in a dropped element, the one
left by dropping from the right is the longest. -/
theorem rdropWhile_longest (f : Char → Bool) (l : List Char) :
    ∀ p : List Char, p <+: l → (∀ c, p.getLast? = some c → f c = false) →
      p.length ≤ (l.rdropWhile f).length := by
  induction l using List.reverseRecOn with
  | nil =>
    intro p hp _
    rw [List.prefix_nil.1 hp]
    exact Nat.zero_le _
  | append_singleton l x ih =>
    intro p hp hl
    by_cases hx : f x = true
    · rw [List.rdropWhile_concat_pos _ _ _ hx]
      rcases List.prefix_concat_iff.1 hp with rfl | hp2
      · have := hl x (List.getLast?_concat l)
        rw [hx] at this
        exact absurd this (by decide)
      · exact ih p hp2 hl
    · rw [List.rdropWhile_concat_neg _ _ _ hx]
      exact hp.length_le

/-- The result of `string_depad_key` is a prefix of the key followed by padding
only, does not end in padding, is the longest such prefix, and is left unchanged
by a second call. -/
theorem string_depad_key_spec (k : String) :
    (∃ pad : List Char, k.data = (string_depad_key k).data ++ pad ∧
        ∀ c ∈ pad, isPadding c = true) ∧
      (∀ c, (string_depad_key k).data.getLast? = some c → isPadding c = false) ∧
      (∀ p : List Char, p <+: k.data → (∀ c, p.getLast? = some c → isPadding c = false) →
        p.length ≤ (string_depad_key k).data.length) ∧
      string_depad_key (string_depad_key k) = string_depad_key k := by
  have hdef : ∀ s : String, (string_depad_key s).data = s.data.rdropWhile isPadding :=
    fun _ => rfl
  have hsplit : k.data = k.data.rdropWhile isPadding ++ k.data.rtakeWhile isPadding := by
    unfold List.rdropWhile List.rtakeWhile
    rw [← List.reverse_append, List.takeWhile_append_dropWhile, List.reverse_reverse]
  refine ⟨⟨_, by rw [hdef]; exact hsplit, fun c hc => List.mem_rtakeWhile_imp hc⟩, ?_, ?_, ?_⟩
  · intro c hc
    rw [hdef] at hc
    have hne : k.data.rdropWhile isPadding ≠ [] := by
      intro h0; rw [h0] at hc; simp at hc
    have hnot := List.rdropWhile_last_not isPadding k.data hne
    rw [List.getLast?_eq_getLast _ hne] at hc
    simp only [Option.some.injEq] at hc
    rw [← hc]
    simpa using hnot
  · intro p hp hpl
    rw [hdef]
    exact rdropWhile_longest isPadding k.data p hp hpl
  · apply String.ext
    rw [hdef, hdef, List.rdropWhile_idempotent]

/-- C30: in a run of the bandwidth probe that reaches the server tests with the
stream key `k` of the current service, if the selected service is Twitch the stored
key is `string_depad_key k` (the key without its trailing spaces, tabs, carriage
returns and line feeds: the longest prefix not ending in one of them, unchanged by
a second call) while the key sent for the test is the original `k` followed by
"?bandwidthtest"; for every other service the stored key is `k` and the tested key
equals it. -/
theorem bandwidthProbe_key (env : BandwidthEnv) (g : Globals) (out : BandwidthOutcome)
    (cs : CurrentService) (tested : String)
    (h : TestBandwidthThread env g = some out) (hcs : env.currentService = some cs)
    (ht : out.keyToEvaluate = some tested) :
    (out.g.serviceSelected = Service.Twitch →
        out.g.key = string_depad_key cs.key ∧ tested = cs.key ++ "?bandwidthtest") ∧
      (out.g.serviceSelected ≠ Service.Twitch → out.g.key = cs.key ∧ tested = cs.key) ∧
      ((∃ pad : List Char, cs.key.data = (string_depad_key cs.key).data ++ pad ∧
          ∀ c ∈ pad, isPadding c = true) ∧
        (∀ c, (string_depad_key cs.key).data.getLast? = some c → isPadding c = false) ∧
        (∀ p : List Char, p <+: cs.key.data →
          (∀ c, p.getLast? = some c → isPadding c = false) →
          p.length ≤ (string_depad_key cs.key).data.length) ∧
        string_depad_key (string_depad_key cs.key) = string_depad_key cs.key) := by
  refine ⟨?_, ?_, string_depad_key_spec cs.key⟩
  all_goals
    unfold TestBandwidthThread at h
    simp only [hcs] at h
    split at h
    · cases h; simp at ht
    split at h
    · cases h; simp at ht
    split at h
    · cases h; simp at ht
    split at h
    · cases h
    rename_i g6 h6
    cases h
    simp only [Option.some.injEq] at ht
    obtain ⟨k1, k2⟩ := testServers_key env _ g6 h6
    intro hsel
    simp only [] at hsel ⊢
    rw [k2] at hsel
    rw [k1, ← ht]
    unfold prepareService keyToEvaluate at *
    simp only [] at hsel ⊢
    split_ifs at hsel ⊢ <;> simp_all

set_option maxRecDepth 100000 in
/-- Witness for C30: for the Twitch key "live_abc \n" the stored key becomes
"live_abc" and the tested key is "live_abc \n?bandwidthtest". -/
theorem bandwidthProbe_key_witness :
    string_depad_key "live_abc \n" = "live_abc" ∧
      ((probeOutcome sampleBandwidthEnv).g.key = string_depad_key "live_abc \n" ∧
        "live_abc \n?bandwidthtest" = "live_abc \n" ++ "?bandwidthtest") :=
  ⟨by decide,
    (bandwidthProbe_key sampleBandwidthEnv sampleProbeGlobals (probeOutcome sampleBandwidthEnv)
      (CurrentService.mk true "Twitch" "live_abc \n" "") "live_abc \n?bandwidthtest"
      (by decide!) rfl (by decide!)).1 (by decide!)⟩
/-! ## Theorems: the single-server path of the bandwidth probe -/

/-- Every entry of the candidate list is unevaluated: bitrate 0, round trip -1. -/
theorem serversToTest_unevaluated (g : Globals) (catalog : List (String × String)) :
    ∀ s ∈ serversToTest g catalog, Failed s := by
  have hget : ∀ s ∈ GetServers g catalog, Failed s := by
    induction catalog with
    | nil => intro s hs; simp [GetServers] at hs
    | cons c rest ih =>
      obtain ⟨name, server⟩ := c
      intro s hs
      unfold GetServers at hs
      split at hs
      · rcases List.mem_cons.1 hs with rfl | hs
        · exact ⟨rfl, rfl⟩
        · exact ih s hs
      · exact ih s hs
  have hfew : ∀ l : List ServerInfo, (∀ s ∈ l, Failed s) → ∀ s ∈ useFirstIfFew l, Failed s := by
    intro l hl s hs
    unfold useFirstIfFew at hs
    split at hs
    · unfold resize at hs
      rcases List.mem_append.1 hs with hs | hs
      · exact hl s (List.mem_of_mem_take hs)
      · rw [(List.mem_replicate.1 hs).2]
        exact ⟨rfl, rfl⟩
    · exact hl s hs
  unfold serversToTest
  split
  · apply hfew
    intro s hs
    rw [List.mem_singleton.1 hs]
    exact ⟨rfl, rfl⟩
  · exact hfew _ hget

/-- The candidate list is never empty. -/
theorem serversToTest_ne_nil (g : Globals) (catalog : List (String × String)) :
    serversToTest g catalog ≠ [] := by
  have hfew : ∀ l : List ServerInfo, useFirstIfFew l ≠ [] := by
    intro l h
    cases l with
    | nil => simp [useFirstIfFew, resize] at h
    | cons a t =>
      unfold useFirstIfFew at h
      split at h
      · simp [resize] at h
      · exact absurd h (List.cons_ne_nil _ _)
  exact hfew _

/-- The selection loop over unevaluated candidates, started from the result of a
single evaluation with bitrate `b`: nothing changes when `b ≥ 400`, and the first
candidate is taken when `b < 400`. -/
theorem selectBest_unevaluated (servers : List ServerInfo) (hs : ∀ s ∈ servers, Failed s)
    (b0 : Best) (hb : 0 ≤ b0.bestBitrate ∧ b0.bestBitrate < 2147483648)
    (hms : b0.bestMS = 2147483647) :
    (400 ≤ b0.bestBitrate → selectBest b0 servers = b0) ∧
      (b0.bestBitrate < 400 → ∀ first rest, servers = first :: rest →
        selectBest b0 servers = Best.mk first.address first.name 0 (-1)) := by
  have hkeep : ∀ (l : List ServerInfo) (b : Best), (∀ s ∈ l, Failed s) →
      (0 ≤ b.bestBitrate ∧ b.bestBitrate < 2147483648) →
      (400 ≤ b.bestBitrate ∨ (b.bestBitrate = 0 ∧ b.bestMS = -1)) → selectBest b l = b := by
    intro l
    induction l with
    | nil => intro b _ _ _; rfl
    | cons s rest ih =>
      intro b hl hbr hcase
      have hf := hl s (List.mem_cons_self _ _)
      have hstep : selectStep b s = b := by
        rw [selectStep_eq b s (by rw [hf.1]; decide) hbr, hf.1, hf.2]
        apply if_neg
        rintro (h | ⟨h1, h2, h3⟩)
        · omega
        · rcases hcase with h | ⟨h, h'⟩
          · omega
          · rw [h'] at h3; exact absurd h3 (by decide)
      show selectBest (selectStep b s) rest = b
      rw [hstep]
      exact ih b (fun t ht => hl t (List.mem_cons_of_mem _ ht)) hbr hcase
  refine ⟨fun h => hkeep servers b0 hs hb (Or.inl h), ?_⟩
  intro hlt first rest hl
  subst hl
  have hf := hs first (List.mem_cons_self _ _)
  have hstep : selectStep b0 first = Best.mk first.address first.name 0 (-1) := by
    rw [selectStep_eq b0 first (by rw [hf.1]; decide) hb, hf.1, hf.2, hms]
    apply if_pos
    exact Or.inr ⟨by omega, by omega, by decide⟩
  show selectBest (selectStep b0 first) rest = _
  rw [hstep]
  exact hkeep rest _ (fun t ht => hs t (List.mem_cons_of_mem _ ht))
    ⟨Int.le_refl 0, by show (0 : Int) < 2147483648; decide⟩ (Or.inr ⟨rfl, rfl⟩)

/-- The bitrate `EvaluateBandwidth` records is an `int`. -/
theorem usableBitrate_range (framesDropped : Int) (bitrate : Nat) (x : Int) :
    -2147483648 ≤ usableBitrate framesDropped bitrate (toInt32 x) ∧
      usableBitrate framesDropped bitrate (toInt32 x) < 2147483648 := by
  unfold usableBitrate
  split
  · rw [tdiv_hundred (toInt32 (toInt32 ↑bitrate * 70))]
    generalize toInt32 ↑bitrate * 70 = y
    unfold toInt32
    split <;> omega
  · unfold toInt32; omega

/-- C28: in the single-server path of the bandwidth probe (`serverName` non-empty),
when the evaluation returns 0 with recorded bitrate `b ≥ 0`, the candidate list
holds only unevaluated entries (bitrate 0, round trip -1) and the probe decides: if
`b ≥ 400`, `idealBitrate = b` with the evaluated server address and name; if
`b < 400`, `idealBitrate = 0` with the address and name of the first candidate. -/
theorem singleServer_decision (env : BandwidthEnv) (g4 : Globals) (r : EvalResult)
    (hname : g4.serverName ≠ "")
    (hr : EvaluateBandwidth (env.runs 0) (ServerInfo.mk g4.serverName g4.server 0 (-1)) false
      g4.startingBitrate = some r)
    (hret : r.ret = 0) (hb : 0 ≤ r.server.bitrate) :
    (∀ s ∈ serversToTest g4 env.catalog, s.bitrate = 0 ∧ s.ms = -1) ∧
      ∃ g6, testServers env g4 = some g6 ∧
        (400 ≤ r.server.bitrate →
          (g6.idealBitrate : Int) = r.server.bitrate ∧ g6.server = g4.server ∧
            g6.serverName = g4.serverName) ∧
        (r.server.bitrate < 400 →
          ∃ first rest, serversToTest g4 env.catalog = first :: rest ∧
            g6.idealBitrate = 0 ∧ g6.server = first.address ∧ g6.serverName = first.name) := by
  have hun := serversToTest_unevaluated g4 env.catalog
  refine ⟨hun, ?_⟩
  obtain ⟨e1, e2, e3, e4, e5, e6⟩ := evaluateBandwidth_success _ _ _ _ r hr hret
  have hrange := usableBitrate_range (env.runs 0).framesDropped
    (measuredBitrate (toInt32 (env.runs 0).totalBytes) (env.runs 0).total_time)
    (env.runs 0).bitrateSetting
  rw [← e1] at hrange
  have hsel := selectBest_unevaluated (serversToTest g4 env.catalog) hun
    (Best.mk r.server.address r.server.name r.server.bitrate 2147483647)
    ⟨hb, hrange.2⟩ rfl
  have hts : testServers env g4 = some (finishBandwidthTest
      (pushEvent { g4 with startingBitrate := r.startingBitrate } "progress" "bandwidth_test" 100)
      (serversToTest g4 env.catalog)
      (Best.mk r.server.address r.server.name r.server.bitrate 2147483647) r.success false) := by
    unfold testServers
    simp only []
    rw [if_pos hname, hr]
    simp only []
    rw [if_neg (by omega)]
  refine ⟨_, hts, ?_, ?_⟩
  · intro h400
    rw [e5]
    simp only [finishBandwidthTest, pushEvent, Bool.not_true, Bool.false_and, Bool.or_false,
      Bool.not_false, if_true, Bool.false_eq_true, if_false]
    rw [hsel.1 h400]
    refine ⟨?_, e4, e3⟩
    show ((toUInt64 r.server.bitrate : Nat) : Int) = r.server.bitrate
    rw [toUInt64_of_range _ hb (by omega)]
    omega
  · intro hlt
    cases hl : serversToTest g4 env.catalog with
    | nil => exact absurd hl (serversToTest_ne_nil g4 env.catalog)
    | cons first rest =>
      refine ⟨first, rest, rfl, ?_⟩
      rw [e5]
      simp only [finishBandwidthTest, pushEvent, Bool.not_true, Bool.false_and, Bool.or_false,
        Bool.not_false, if_true, Bool.false_eq_true, if_false]
      rw [← hl, hsel.2 hlt first rest hl]
      exact ⟨rfl, rfl, rfl⟩

set_option maxRecDepth 100000 in
/-- Witness for C28: after `InitializeAutoConfig`, an evaluation recording 210 kbps
makes the probe decide bitrate 0 and the first catalogue server. -/
theorem singleServer_decision_witness :
    decidedServer slowBandwidthEnv (InitializeAutoConfig sampleProbeGlobals) =
        some (0, "rtmp://ams", "EU: Amsterdam") ∧
      ((∀ s ∈ serversToTest (InitializeAutoConfig sampleProbeGlobals) slowBandwidthEnv.catalog,
          s.bitrate = 0 ∧ s.ms = -1) ∧
        ∃ g6, testServers slowBandwidthEnv (InitializeAutoConfig sampleProbeGlobals) = some g6 ∧
          (400 ≤ slowEvaluation.server.bitrate →
            (g6.idealBitrate : Int) = slowEvaluation.server.bitrate ∧
              g6.server = (InitializeAutoConfig sampleProbeGlobals).server ∧
              g6.serverName = (InitializeAutoConfig sampleProbeGlobals).serverName) ∧
          (slowEvaluation.server.bitrate < 400 →
            ∃ first rest,
              serversToTest (InitializeAutoConfig sampleProbeGlobals) slowBandwidthEnv.catalog =
                  first :: rest ∧
                g6.idealBitrate = 0 ∧ g6.server = first.address ∧
                g6.serverName = first.name)) :=
  ⟨by decide!,
    singleServer_decision slowBandwidthEnv (InitializeAutoConfig sampleProbeGlobals)
      slowEvaluation (by decide) (by decide!) rfl (by decide)⟩
/-! ## Theorems: how far the selection can fall below the best bitrate -/

/-- Counterexample for C25: three evaluated servers with falling bitrates 1000,
700, 400 and falling round-trip times; each is "close" to the one before, so the
last is chosen, 600 kbps below the first. -/
theorem selectBest_drifts_below_max :
    (∀ s ∈ [ServerInfo.mk "a" "rtmp://a" 1000 50, ServerInfo.mk "b" "rtmp://b" 700 40,
        ServerInfo.mk "c" "rtmp://c" 400 30], Evaluated s) ∧
      selectBest {} [ServerInfo.mk "a" "rtmp://a" 1000 50, ServerInfo.mk "b" "rtmp://b" 700 40,
          ServerInfo.mk "c" "rtmp://c" 400 30] = Best.mk "rtmp://c" "c" 400 30 ∧
      ∃ s ∈ [ServerInfo.mk "a" "rtmp://a" 1000 50, ServerInfo.mk "b" "rtmp://b" 700 40,
          ServerInfo.mk "c" "rtmp://c" 400 30],
        (selectBest {} [ServerInfo.mk "a" "rtmp://a" 1000 50,
          ServerInfo.mk "b" "rtmp://b" 700 40,
          ServerInfo.mk "c" "rtmp://c" 400 30]).bestBitrate + 400 ≤ s.bitrate := by
  refine ⟨by decide, by decide, ServerInfo.mk "a" "rtmp://a" 1000 50, by decide, by decide⟩

/-- C25 (amended): for every non-empty list of evaluated servers, the selection
loop ends on a server of the list that no later server of the list beats by 400
kbps or more. -/
theorem selectBest_later_within_400 (servers : List ServerInfo) (hne : servers ≠ [])
    (hev : ∀ s ∈ servers, Evaluated s) :
    ∃ pre s post, servers = pre ++ s :: post ∧ Picks (selectBest {} servers) s ∧
      ∀ t ∈ post, t.bitrate < s.bitrate + 400 := by
  induction servers using List.reverseRecOn with
  | nil => exact absurd rfl hne
  | append_singleton l x ih =>
    have hx := hev x (by simp)
    have hfold : selectBest {} (l ++ [x]) = selectStep (selectBest {} l) x := by
      unfold selectBest
      rw [List.foldl_append]
      rfl
    rw [hfold]
    by_cases hl : l = []
    · subst hl
      refine ⟨[], x, [], rfl, ?_, by simp⟩
      show Picks (selectStep {} x) x
      rw [selectStep_init x ⟨hx.1, hx.2.1⟩ hx.2.2.2]
      exact ⟨rfl, rfl, rfl, rfl⟩
    · obtain ⟨pre, s, post, hsplit, hp, hpost⟩ :=
        ih hl (fun t ht => hev t (List.mem_append_left _ ht))
      have hs : Evaluated s := hev s (by rw [hsplit]; simp)
      have hb : 0 ≤ (selectBest {} l).bestBitrate ∧
          (selectBest {} l).bestBitrate < 2147483648 := by
        rw [hp.2.2.1]; exact ⟨hs.1, hs.2.1⟩
      rw [selectStep_eq _ x ⟨hx.1, hx.2.1⟩ hb]
      split
      · exact ⟨l, x, [], rfl, ⟨rfl, rfl, rfl, rfl⟩, by simp⟩
      · rename_i hcond
        refine ⟨pre, s, post ++ [x], by rw [hsplit]; simp, hp, ?_⟩
        intro t ht
        rcases List.mem_append.1 ht with ht | ht
        · exact hpost t ht
        · rw [List.mem_singleton.1 ht]
          have h1 : ¬ (selectBest {} l).bestBitrate + 400 ≤ x.bitrate :=
            fun h => hcond (Or.inl h)
          rw [hp.2.2.1] at h1
          omega

/-- Witness for C25 (amended): on the falling list the last server is chosen and
nothing follows it. -/
theorem selectBest_later_within_400_witness :
    ∃ pre s post,
      [ServerInfo.mk "a" "rtmp://a" 1000 50, ServerInfo.mk "b" "rtmp://b" 700 40,
          ServerInfo.mk "c" "rtmp://c" 400 30] = pre ++ s :: post ∧
        Picks (selectBest {} [ServerInfo.mk "a" "rtmp://a" 1000 50,
          ServerInfo.mk "b" "rtmp://b" 700 40, ServerInfo.mk "c" "rtmp://c" 400 30]) s ∧
        ∀ t ∈ post, t.bitrate < s.bitrate + 400 :=
  selectBest_later_within_400 _ (by decide) (by decide)

/-! ## Theorems: detection of hardware encoders -/

/-- A character with code 0 is NUL. -/
theorem char_toNat_eq_zero (c : Char) (h : c.toNat = 0) : c = Char.ofNat 0 := by
  rw [← Char.ofNat_toNat c, h]

/-- On strings without NUL, `strcmp` returns 0 exactly for equal strings. -/
theorem strcmp_eq_zero_iff (s : List Char) :
    ∀ t : List Char, Char.ofNat 0 ∉ s → Char.ofNat 0 ∉ t → (strcmp s t = 0 ↔ s = t) := by
  induction s with
  | nil =>
    intro t _ ht
    cases t with
    | nil => simp [strcmp, cur]
    | cons c t =>
      have hc : c.toNat ≠ 0 := fun h => ht (by rw [← char_toNat_eq_zero c h]; simp)
      simp [strcmp, cur, hc]
  | cons a s ih =>
    intro t hs ht
    have ha : a.toNat ≠ 0 := fun h => hs (by rw [← char_toNat_eq_zero a h]; simp)
    cases t with
    | nil =>
      have : a.toNat > 0 := Nat.pos_of_ne_zero ha
      simp [strcmp, cur, this]
    | cons c t =>
      have hs2 : Char.ofNat 0 ∉ s := fun h => hs (List.mem_cons_of_mem _ h)
      have ht2 : Char.ofNat 0 ∉ t := fun h => ht (List.mem_cons_of_mem _ h)
      unfold strcmp
      simp only [cur, List.headD_cons, List.tail_cons]
      by_cases h1 : a.toNat < c.toNat
      · rw [if_pos h1]
        have : a ≠ c := fun h => by rw [h] at h1; exact Nat.lt_irrefl _ h1
        simp [this]
      · rw [if_neg h1]
        by_cases h2 : a.toNat > c.toNat
        · rw [if_pos h2]
          have : a ≠ c := fun h => by rw [h] at h2; exact Nat.lt_irrefl _ h2
          simp [this]
        · rw [if_neg h2, if_neg ha]
          have hac : a = c := by
            have : a.toNat = c.toNat := by omega
            rw [← Char.ofNat_toNat a, ← Char.ofNat_toNat c, this]
          rw [ih t hs2 ht2]
          simp [hac]

/-- The comparison `strcmp(id, name) == 0` of `TestHardwareEncoding` is equality of
the identifiers. -/
theorem strcmp_id (id name : String) (hid : IsCString id) (hname : IsCString name) :
    (strcmp id.toList name.toList = 0) ↔ id = name := by
  rw [strcmp_eq_zero_iff _ _ hid hname]
  constructor
  · intro h; exact String.ext h
  · intro h; rw [h]

/-- One detection step: each flag is set by its own identifiers and never cleared. -/
theorem detectEncoder_flags (g : Globals) (oid : Option String)
    (hid : ∀ id, oid = some id → IsCString id) :
    ((detectEncoder g oid).nvencAvailable = true ↔
        g.nvencAvailable = true ∨ oid = some "ffmpeg_nvenc") ∧
      ((detectEncoder g oid).jimnvencAvailable = true ↔
        g.jimnvencAvailable = true ∨ oid = some "jim_nvenc") ∧
      ((detectEncoder g oid).qsvAvailable = true ↔
        g.qsvAvailable = true ∨ oid = some "obs_qsv11") ∧
      ((detectEncoder g oid).vceAvailable = true ↔
        g.vceAvailable = true ∨ oid = some "amd_amf_h264") ∧
      ((detectEncoder g oid).appleHWAvailable = true ↔
        g.appleHWAvailable = true ∨ oid = some APPLE_HARDWARE_VIDEO_ENCODER ∨
          oid = some APPLE_HARDWARE_VIDEO_ENCODER_M1) ∧
      ((detectEncoder g oid).hardwareEncodingAvailable = true ↔
        g.hardwareEncodingAvailable = true ∨ oid = some "ffmpeg_nvenc" ∨
          oid = some "jim_nvenc" ∨ oid = some "obs_qsv11" ∨ oid = some "amd_amf_h264" ∨
          oid = some APPLE_HARDWARE_VIDEO_ENCODER ∨
          oid = some APPLE_HARDWARE_VIDEO_ENCODER_M1) := by
  cases oid with
  | none => simp [detectEncoder]
  | some id =>
    have hc := hid id rfl
    have e1 := strcmp_id id "ffmpeg_nvenc" hc (by decide)
    have e2 := strcmp_id id "jim_nvenc" hc (by decide)
    have e3 := strcmp_id id "obs_qsv11" hc (by decide)
    have e4 := strcmp_id id "amd_amf_h264" hc (by decide)
    have e5 := strcmp_id id APPLE_HARDWARE_VIDEO_ENCODER hc (by decide)
    have e6 := strcmp_id id APPLE_HARDWARE_VIDEO_ENCODER_M1 hc (by decide)
    unfold detectEncoder
    simp only [e1, e2, e3, e4, e5, e6, Option.some.injEq]
    by_cases h1 : id = "ffmpeg_nvenc"
    · subst h1; simp [APPLE_HARDWARE_VIDEO_ENCODER, APPLE_HARDWARE_VIDEO_ENCODER_M1]
    by_cases h2 : id = "jim_nvenc"
    · subst h2; simp [APPLE_HARDWARE_VIDEO_ENCODER, APPLE_HARDWARE_VIDEO_ENCODER_M1]
    by_cases h3 : id = "obs_qsv11"
    · subst h3; simp [APPLE_HARDWARE_VIDEO_ENCODER, APPLE_HARDWARE_VIDEO_ENCODER_M1]
    by_cases h4 : id = "amd_amf_h264"
    · subst h4; simp [APPLE_HARDWARE_VIDEO_ENCODER, APPLE_HARDWARE_VIDEO_ENCODER_M1]
    by_cases h5 : id = APPLE_HARDWARE_VIDEO_ENCODER
    · subst h5; simp [APPLE_HARDWARE_VIDEO_ENCODER, APPLE_HARDWARE_VIDEO_ENCODER_M1]
    by_cases h6 : id = APPLE_HARDWARE_VIDEO_ENCODER_M1
    · subst h6; simp [APPLE_HARDWARE_VIDEO_ENCODER, APPLE_HARDWARE_VIDEO_ENCODER_M1]
    simp [h1, h2, h3, h4, h5, h6]

/-- A flag that each detection step sets exactly on the identifiers in `P` is set
after the enumeration exactly when it was set before or an identifier in `P`
was enumerated. -/
theorem testHardwareEncoding_fold (f : Globals → Bool) (P : Option String → Prop)
    (ids : List (Option String))
    (hstep : ∀ g oid, oid ∈ ids → (f (detectEncoder g oid) = true ↔ f g = true ∨ P oid)) :
    ∀ g, f (TestHardwareEncoding g ids) = true ↔ f g = true ∨ ∃ oid ∈ ids, P oid := by
  induction ids with
  | nil => intro g; simp [TestHardwareEncoding]
  | cons oid rest ih =>
    intro g
    show f (TestHardwareEncoding (detectEncoder g oid) rest) = true ↔ _
    rw [ih (fun g o ho => hstep g o (List.mem_cons_of_mem _ ho)) (detectEncoder g oid),
      hstep g oid (List.mem_cons_self _ _)]
    simp only [List.exists_mem_cons_iff]
    tauto

/-- C24: for every enumerated list of encoder identifiers (null entries skipped) and
every prior flag state, after `TestHardwareEncoding` each family flag is true iff it
was true before or one of its identifiers occurs in the list, and
`hardwareEncodingAvailable` is true iff it was true before or any of those
identifiers occurs; so `hardwareEncodingAvailable` stays equal to the disjunction
of the five family flags, as it is in the initial all-false state. -/
theorem testHardwareEncoding_flags (g : Globals) (ids : List (Option String))
    (hids : ∀ id, some id ∈ ids → IsCString id) :
    ((TestHardwareEncoding g ids).nvencAvailable = true ↔
        g.nvencAvailable = true ∨ some "ffmpeg_nvenc" ∈ ids) ∧
      ((TestHardwareEncoding g ids).jimnvencAvailable = true ↔
        g.jimnvencAvailable = true ∨ some "jim_nvenc" ∈ ids) ∧
      ((TestHardwareEncoding g ids).qsvAvailable = true ↔
        g.qsvAvailable = true ∨ some "obs_qsv11" ∈ ids) ∧
      ((TestHardwareEncoding g ids).vceAvailable = true ↔
        g.vceAvailable = true ∨ some "amd_amf_h264" ∈ ids) ∧
      ((TestHardwareEncoding g ids).appleHWAvailable = true ↔
        g.appleHWAvailable = true ∨ some APPLE_HARDWARE_VIDEO_ENCODER ∈ ids ∨
          some APPLE_HARDWARE_VIDEO_ENCODER_M1 ∈ ids) ∧
      ((TestHardwareEncoding g ids).hardwareEncodingAvailable = true ↔
        g.hardwareEncodingAvailable = true ∨ some "ffmpeg_nvenc" ∈ ids ∨
          some "jim_nvenc" ∈ ids ∨ some "obs_qsv11" ∈ ids ∨ some "amd_amf_h264" ∈ ids ∨
          some APPLE_HARDWARE_VIDEO_ENCODER ∈ ids ∨
          some APPLE_HARDWARE_VIDEO_ENCODER_M1 ∈ ids) ∧
      (g.hardwareEncodingAvailable = anyFamily g →
        (TestHardwareEncoding g ids).hardwareEncodingAvailable =
          anyFamily (TestHardwareEncoding g ids)) ∧
      ({} : Globals).hardwareEncodingAvailable = anyFamily {} := by
  have hstep : ∀ (g : Globals) (oid : Option String), oid ∈ ids → _ :=
    fun g oid ho => detectEncoder_flags g oid (fun id hid => hids id (hid ▸ ho))
  have h1 := testHardwareEncoding_fold (fun g => g.nvencAvailable)
    (fun oid => oid = some "ffmpeg_nvenc") ids (fun g oid ho => (hstep g oid ho).1) g
  have h2 := testHardwareEncoding_fold (fun g => g.jimnvencAvailable)
    (fun oid => oid = some "jim_nvenc") ids (fun g oid ho => (hstep g oid ho).2.1) g
  have h3 := testHardwareEncoding_fold (fun g => g.qsvAvailable)
    (fun oid => oid = some "obs_qsv11") ids (fun g oid ho => (hstep g oid ho).2.2.1) g
  have h4 := testHardwareEncoding_fold (fun g => g.vceAvailable)
    (fun oid => oid = some "amd_amf_h264") ids (fun g oid ho => (hstep g oid ho).2.2.2.1) g
  have h5 := testHardwareEncoding_fold (fun g => g.appleHWAvailable)
    (fun oid => oid = some APPLE_HARDWARE_VIDEO_ENCODER ∨
      oid = some APPLE_HARDWARE_VIDEO_ENCODER_M1) ids
    (fun g oid ho => (hstep g oid ho).2.2.2.2.1) g
  have h6 := testHardwareEncoding_fold (fun g => g.hardwareEncodingAvailable)
    (fun oid => oid = some "ffmpeg_nvenc" ∨ oid = some "jim_nvenc" ∨ oid = some "obs_qsv11" ∨
      oid = some "amd_amf_h264" ∨ oid = some APPLE_HARDWARE_VIDEO_ENCODER ∨
      oid = some APPLE_HARDWARE_VIDEO_ENCODER_M1) ids
    (fun g oid ho => (hstep g oid ho).2.2.2.2.2) g
  simp only [and_or_left, exists_or, exists_eq_right] at h1 h2 h3 h4 h5 h6
  refine ⟨h1, h2, h3, h4, h5, h6, ?_, rfl⟩
  intro hinv
  have hb : ∀ a b : Bool, (a = true ↔ b = true) → a = b := by decide
  apply hb
  rw [h6]
  unfold anyFamily at hinv ⊢
  simp only [Bool.or_eq_true]
  rw [h1, h2, h3, h4, h5, hinv]
  simp only [Bool.or_eq_true]
  generalize (g.nvencAvailable = true) = a1
  generalize (g.jimnvencAvailable = true) = a2
  generalize (g.qsvAvailable = true) = a3
  generalize (g.vceAvailable = true) = a4
  generalize (g.appleHWAvailable = true) = a5
  generalize (some "ffmpeg_nvenc" ∈ ids) = b1
  generalize (some "jim_nvenc" ∈ ids) = b2
  generalize (some "obs_qsv11" ∈ ids) = b3
  generalize (some "amd_amf_h264" ∈ ids) = b4
  generalize (some APPLE_HARDWARE_VIDEO_ENCODER ∈ ids) = b5
  generalize (some APPLE_HARDWARE_VIDEO_ENCODER_M1 ∈ ids) = b6
  apply Iff.of_eq
  ac_rfl

/-- Witness for C24: an enumeration with a null entry, x264, QSV and the new NVENC
sets exactly the QSV and new-NVENC flags and the combined flag. -/
theorem testHardwareEncoding_flags_witness :
    ((TestHardwareEncoding {} [none, some "obs_x264", some "obs_qsv11",
        some "jim_nvenc"]).qsvAvailable = true ↔
      ({} : Globals).qsvAvailable = true ∨
        some "obs_qsv11" ∈ [none, some "obs_x264", some "obs_qsv11", some "jim_nvenc"]) ∧
      (TestHardwareEncoding {} [none, some "obs_x264", some "obs_qsv11",
          some "jim_nvenc"]).qsvAvailable = true ∧
      (TestHardwareEncoding {} [none, some "obs_x264", some "obs_qsv11",
          some "jim_nvenc"]).nvencAvailable = false :=
  ⟨(testHardwareEncoding_flags {} [none, some "obs_x264", some "obs_qsv11", some "jim_nvenc"]
      (by intro id h; simp at h; rcases h with rfl | rfl | rfl <;> decide)).2.2.1,
    by decide, by decide⟩
/-! ## Theorems: the guard of the bitrate estimates -/

/-- The cost model of `sampleNumerics` is zero on a resolution without area. -/
theorem sampleNumerics_zeroAtZeroArea : ZeroAtZeroArea sampleNumerics := by
  intro cx cy n d h
  show ((cx * cy * n : Int) : Rat) / (d : Rat) = 0
  rcases h with h | h <;> simp [h]

/-- C22: with the cost model taken over exact numbers, `EstimateMinBitrate` and
`EstimateUpperBitrate` return exactly 0 for every candidate whenever the magnitude
of their reference value (reference cost divided by 5800, respectively 3000) is
below the double epsilon, in particular `EstimateMinBitrate` returns 0 whenever the
base resolution has zero area; in every other case they return the cost of the
candidate divided by the reference value, which is not zero. -/
theorem estimateBitrate_guard (N : Numerics) (g : Globals) (cx cy fps_num fps_den : Int) :
    (|minReference N g| < epsilon → EstimateMinBitrate N g cx cy fps_num fps_den = 0) ∧
      (¬ |minReference N g| < epsilon →
        minReference N g ≠ 0 ∧
          EstimateMinBitrate N g cx cy fps_num fps_den =
            N.bitrateVal cx cy fps_num fps_den / minReference N g) ∧
      (|upperReference N| < epsilon → EstimateUpperBitrate N cx cy fps_num fps_den = 0) ∧
      (¬ |upperReference N| < epsilon →
        upperReference N ≠ 0 ∧
          EstimateUpperBitrate N cx cy fps_num fps_den =
            N.bitrateVal cx cy fps_num fps_den / upperReference N) ∧
      (ZeroAtZeroArea N → g.baseResolutionCX * g.baseResolutionCY = 0 →
        EstimateMinBitrate N g cx cy fps_num fps_den = 0) := by
  have heps : (0 : Rat) < epsilon := by unfold epsilon; norm_num
  have hguard : ∀ v : Rat, (v < epsilon ∧ v > -epsilon) ↔ |v| < epsilon := by
    intro v
    rw [abs_lt]
    constructor
    · rintro ⟨h1, h2⟩; exact ⟨h2, h1⟩
    · rintro ⟨h1, h2⟩; exact ⟨h2, h1⟩
  have hmin : ∀ h : |minReference N g| < epsilon,
      EstimateMinBitrate N g cx cy fps_num fps_den = 0 := by
    intro h
    unfold EstimateMinBitrate
    exact if_pos ((hguard _).2 h)
  refine ⟨hmin, ?_, ?_, ?_, ?_⟩
  · intro h
    refine ⟨?_, ?_⟩
    · intro h0
      rw [h0, abs_zero] at h
      exact h heps
    · unfold EstimateMinBitrate
      exact if_neg (fun hc => h ((hguard _).1 hc))
  · intro h
    unfold EstimateUpperBitrate
    exact if_pos ((hguard _).2 h)
  · intro h
    refine ⟨?_, ?_⟩
    · intro h0
      rw [h0, abs_zero] at h
      exact h heps
    · unfold EstimateUpperBitrate
      exact if_neg (fun hc => h ((hguard _).1 hc))
  · intro hz harea
    apply hmin
    have h0 : N.bitrateVal (toInt32 g.baseResolutionCX) (toInt32 g.baseResolutionCY) 60 1 = 0 := by
      apply hz
      rcases Nat.mul_eq_zero.1 harea with h | h
      · left; rw [h]; rfl
      · right; rw [h]; rfl
    unfold minReference
    rw [h0, zero_div, abs_zero]
    exact heps

set_option maxRecDepth 100000 in
/-- Witness for C22: with the sample cost model, a base resolution 0x1080 makes
`EstimateMinBitrate` return 0, and for the base resolution 1920x1080 the estimate of
1280x720 at 30 fps is the cost ratio. -/
theorem estimateBitrate_guard_witness :
    EstimateMinBitrate sampleNumerics { baseResolutionCX := 0, baseResolutionCY := 1080 }
        1280 720 30 1 = 0 ∧
      (minReference sampleNumerics { baseResolutionCX := 1920, baseResolutionCY := 1080 } ≠ 0 ∧
        EstimateMinBitrate sampleNumerics { baseResolutionCX := 1920, baseResolutionCY := 1080 }
            1280 720 30 1 =
          sampleNumerics.bitrateVal 1280 720 30 1 /
            minReference sampleNumerics { baseResolutionCX := 1920, baseResolutionCY := 1080 }) :=
  ⟨(estimateBitrate_guard sampleNumerics { baseResolutionCX := 0, baseResolutionCY := 1080 }
      1280 720 30 1).2.2.2.2 sampleNumerics_zeroAtZeroArea (by decide),
    (estimateBitrate_guard sampleNumerics { baseResolutionCX := 1920, baseResolutionCY := 1080 }
      1280 720 30 1).2.1 (by decide!)⟩

/-! ## Theorems: the polling loop and the waits of `EvaluateBandwidth` -/

/-- Observations of an inactive output without `errorOnStop` keep the loop going. -/
theorem pollLoop_inactive_prefix (n : Nat) (l : List (Bool × Bool)) :
    pollLoop (List.replicate n (false, false) ++ l) = pollLoop l := by
  induction n with
  | zero => rfl
  | succ n ih =>
    rw [List.replicate_succ, List.cons_append]
    show (if (!false) = true then (if false = true then PollOutcome.aborted
      else pollLoop (List.replicate n (false, false) ++ l)) else PollOutcome.exited) = _
    simpa using ih

/-- Counterexample for C26: the loop ends at the first observation of an active
output, and on an output observed inactive without `errorOnStop` it is still running
after any number of observations, so that `EvaluateBandwidth` has not returned. -/
theorem pollLoop_exits_when_active :
    pollLoop [(true, false)] = PollOutcome.exited ∧
      (∀ n : Nat, pollLoop (List.replicate n (false, false)) = PollOutcome.running) ∧
      (∀ n : Nat, EvaluateBandwidth
        { completedRun 10000000 10000000000 10000 0 with
          polls := List.replicate n (false, false) } {} false 2500 = none) := by
  have h : ∀ n : Nat, pollLoop (List.replicate n (false, false)) = PollOutcome.running := by
    intro n
    have := pollLoop_inactive_prefix n []
    rw [List.append_nil] at this
    rw [this]
    rfl
  refine ⟨rfl, h, ?_⟩
  intro n
  unfold EvaluateBandwidth completedRun
  simp only [h n]
  rfl

/-- C26 (amended): in a run that reaches `obs_output_stop`, the polling loop goes on
while the output is observed inactive without `errorOnStop`, for any number `n` of
observations; it exits at the first observation of an active output, after which
`EvaluateBandwidth` returns 0; it aborts with force-stop and return value -1 at the
first observation of an inactive output with `errorOnStop`; and while neither is
observed `EvaluateBandwidth` has not returned. -/
theorem evaluateBandwidth_poll (run : OutputRun) (server : ServerInfo) (success : Bool)
    (sb : Int) (h : ReachesStop run) :
    (∀ n e rest, run.polls = List.replicate n (false, false) ++ (true, e) :: rest →
        ∃ r, EvaluateBandwidth run server success sb = some r ∧ r.ret = 0 ∧
          r.forceStopped = false) ∧
      (∀ n rest, run.polls = List.replicate n (false, false) ++ (false, true) :: rest →
        EvaluateBandwidth run server success sb =
          some (EvalResult.mk (-1) server success sb true)) ∧
      (∀ n, run.polls = List.replicate n (false, false) →
        EvaluateBandwidth run server success sb = none) := by
  obtain ⟨h1, h2, h3, h4, h5, h6⟩ := h
  refine ⟨?_, ?_, ?_⟩
  · intro n e rest hp
    have hl : pollLoop run.polls = PollOutcome.exited := by
      rw [hp, pollLoop_inactive_prefix]; rfl
    unfold EvaluateBandwidth
    simp only [h1, h2, h3, h4, h5, h6, hl]
    exact ⟨_, rfl, rfl, rfl⟩
  · intro n rest hp
    have hl : pollLoop run.polls = PollOutcome.aborted := by
      rw [hp, pollLoop_inactive_prefix]; rfl
    unfold EvaluateBandwidth
    simp only [h1, h2, h3, h4, h5, h6, hl]
    rfl
  · intro n hp
    have hl : pollLoop run.polls = PollOutcome.running := by
      have := pollLoop_inactive_prefix n []
      rw [List.append_nil] at this
      rw [hp, this]; rfl
    unfold EvaluateBandwidth
    simp only [h1, h2, h3, h4, h5, h6, hl]
    rfl

/-- Witness for C26 (amended): after two observations of an inactive output, a third
with `errorOnStop` makes `EvaluateBandwidth` force-stop and return -1. -/
theorem evaluateBandwidth_poll_witness :
    EvaluateBandwidth
        { completedRun 10000000 10000000000 10000 0 with
          polls := [(false, false), (false, false), (false, true), (true, false)] }
        {} false 2500 =
      some (EvalResult.mk (-1) {} false 2500 true) :=
  (evaluateBandwidth_poll
    { completedRun 10000000 10000000000 10000 0 with
      polls := [(false, false), (false, false), (false, true), (true, false)] }
    {} false 2500 (by decide)).2.1 2 [(true, false)] rfl

set_option maxRecDepth 100000 in
/-- C21: `EvaluateBandwidth` does not read `cancel` after the wait for the stop
signal nor after the wait for the deactivate signal. A run in which `cancel` is set
during these waits returns 0 with `success` set and a bitrate recorded, without a
forced stop, and the probe goes on to push `stopping_step`. -/
theorem evaluateBandwidth_ignores_late_cancel :
    (∀ (run : OutputRun) (c1 c2 : Bool) (server : ServerInfo) (success : Bool) (sb : Int),
        EvaluateBandwidth { run with cancelAfterStop := c1, cancelAfterDeactivate := c2 }
            server success sb =
          EvaluateBandwidth run server success sb) ∧
      (lateCancelRun.cancelAfterStop = true ∧ lateCancelRun.cancelAfterDeactivate = true) ∧
      EvaluateBandwidth lateCancelRun (ServerInfo.mk "Auto (Recommended)" "auto" 0 (-1))
          false 2500 =
        some (EvalResult.mk 0 (ServerInfo.mk "Auto (Recommended)" "auto" 10000 30) true 10000
          false) ∧
      probeEventKinds lateCancelEnv (InitializeAutoConfig sampleProbeGlobals) =
        some ["starting_step", "progress", "stopping_step"] := by
  refine ⟨fun run c1 c2 server success sb => rfl, ⟨rfl, rfl⟩, by decide!, by decide!⟩
/-! ## Theorems: `CheckSettings` -/

/-- C29: `CheckSettings` returns whenever the waits on a started output return, and
it returns false exactly when service creation fails (pushing the error
"invalid_service"), the probe video settings cannot be applied (pushing the error
"invalid_video_settings"), or `cancel` is set when it is about to start the output;
in every other case it returns true and pushes nothing, whether or not the output
starts or signals its start. -/
theorem checkSettings_result (env : CheckEnv) (g : Globals) :
    ((env.serviceOk = true → env.setVideoOk = true → env.cancelAtLock = false →
        env.startOk = true → env.waitsReturn = true) →
      ∃ r, CheckSettings env g = some r) ∧
    (∀ r, CheckSettings env g = some r →
      (r.1 = false ↔ env.serviceOk = false ∨ env.setVideoOk = false ∨
        env.cancelAtLock = true) ∧
      (env.serviceOk = false → r.2 = pushEvent g "error" "invalid_service" 100) ∧
      (env.serviceOk = true → env.setVideoOk = false →
        r.2 = pushEvent g "error" "invalid_video_settings" 100) ∧
      (env.serviceOk = true → env.setVideoOk = true → r.2 = g)) := by
  obtain ⟨a, b, c, d, e, f⟩ := env
  cases a <;> cases b <;> cases c <;> cases d <;> cases e <;> cases f <;>
    simp [CheckSettings]

/-- Witness for C29: with `cancel` set at the lock, `CheckSettings` returns false and
pushes nothing. -/
theorem checkSettings_result_witness :
    CheckSettings cancelledCheck {} = some (false, {}) ∧
      ((false, ({} : Globals)).1 = false ↔ cancelledCheck.serviceOk = false ∨
        cancelledCheck.setVideoOk = false ∨ cancelledCheck.cancelAtLock = true) :=
  ⟨rfl, ((checkSettings_result cancelledCheck {}).2 (false, {}) rfl).1⟩
/-! ## Theorems: the configuration writes -/

/-- Reading a key after `configSet`. -/
theorem configSet_get (c : Config) (sect name : String) (v : ConfigValue) (s n : String) :
    configSet c sect name v s n = if s = sect ∧ n = name then some v else c s n := rfl

/-- A value below `2^63` is unchanged by the conversion to `int64_t`. -/
theorem toInt64_of_lt (n : Nat) (h : n < 9223372036854775808) : toInt64 n = n := by
  unfold toInt64; omega

/-- The final choice of the stream probe assigns NVENC, QSV, AMD or x264, or leaves
the streaming encoder as it was. -/
theorem chooseStreamingEncoder_probeEncoder (g : Globals)
    (h : ProbeEncoder g.streamingEncoder) :
    ProbeEncoder (chooseStreamingEncoder g).streamingEncoder := by
  have hn : ProbeEncoder Encoder.NVENC := by decide
  have hq : ProbeEncoder Encoder.QSV := by decide
  have ha : ProbeEncoder Encoder.AMD := by decide
  have hx : ProbeEncoder Encoder.x264 := by decide
  unfold chooseStreamingEncoder
  split_ifs
  · exact hn
  · exact hq
  · exact ha
  · exact h
  · exact hx

/-- The streaming encoder is never an Apple hardware encoder: this holds in the
initial state, after `SetDefaultSettings`, and after every run of the stream probe
that reaches its end from a state where it holds. -/
theorem streamingEncoder_probeEncoder (N : Numerics) (env : EncoderEnv) (g g1 : Globals) :
    ProbeEncoder ({} : Globals).streamingEncoder ∧
      ProbeEncoder (SetDefaultSettings g).streamingEncoder ∧
      (TestStreamEncoderThread N env g = some (true, g1) →
        ProbeEncoder g.streamingEncoder → ProbeEncoder g1.streamingEncoder) := by
  have hx : ProbeEncoder Encoder.x264 := by decide
  refine ⟨hx, hx, ?_⟩
  intro h hg
  obtain ⟨g4, hg1, hview, -, -, -⟩ := streamThread_shape N env g g1 h
  have hd := (testHardwareEncoding_spec env.encoders
    (pushEvent g "starting_step" "streamingEncoder_test" 0)).2.2.2.1
  have h4 : g4.streamingEncoder = g.streamingEncoder := by
    have := congrArg EncoderView.streamingEncoder hview
    exact this.trans hd
  rw [hg1]
  show ProbeEncoder (chooseStreamingEncoder g4).streamingEncoder
  exact chooseStreamingEncoder_probeEncoder g4 (h4 ▸ hg)

/-- C23: with the configuration store as a key/value map, for the streaming encoders
the probes assign and ideal values below `2^63`, a successful `SaveStreamSettings`
sets `SimpleOutput.VBitrate` to `idealBitrate` and `SimpleOutput.StreamEncoder` to
the display name of the streaming encoder ("nvenc", "qsv", "amd", or the x264 name
otherwise) and removes `SimpleOutput.UseAdvanced`; `SaveSettings` sets
`Output.Mode = "Simple"`, `SimpleOutput.RecQuality` ("Small" for High, "Stream"
otherwise), `Video.OutputCX`/`OutputCY` to the ideal resolution, `Video.Canvases = 1`
and `Output.DynamicBitrate = false`, writes `Video.FPSType = 0` and `Video.FPSCommon`
(the decimal text of `idealFPSNum`) exactly when `fpsType` is not `UseCurrent`, and
writes `SimpleOutput.RecEncoder` exactly when `recordingEncoder` is not `Stream`;
every other key is left unchanged. -/
theorem saveSettings_writes (t : Target) (g : Globals) (c : Config)
    (hs : ProbeEncoder g.streamingEncoder)
    (hb : g.idealBitrate < 9223372036854775808)
    (hx : g.idealResolutionCX < 9223372036854775808)
    (hy : g.idealResolutionCY < 9223372036854775808) :
    ((SaveStreamSettings t true g c).2 "SimpleOutput" "VBitrate" =
          some (ConfigValue.int g.idealBitrate) ∧
        (SaveStreamSettings t true g c).2 "SimpleOutput" "StreamEncoder" =
          some (ConfigValue.string
            (if g.streamingEncoder = Encoder.NVENC then "nvenc"
              else if g.streamingEncoder = Encoder.QSV then "qsv"
              else if g.streamingEncoder = Encoder.AMD then "amd"
              else SIMPLE_ENCODER_X264 t)) ∧
        (SaveStreamSettings t true g c).2 "SimpleOutput" "UseAdvanced" = none ∧
        (∀ s n, (s, n) ∉ streamSettingsKeys →
          (SaveStreamSettings t true g c).2 s n = c s n) ∧
        (∀ s n, (SaveStreamSettings t false g c).2 s n = c s n)) ∧
      (GetEncoderDisplayName t Encoder.NVENC = "nvenc" ∧
        GetEncoderDisplayName t Encoder.QSV = "qsv" ∧
        GetEncoderDisplayName t Encoder.AMD = "amd" ∧
        GetEncoderDisplayName t Encoder.x264 = SIMPLE_ENCODER_X264 t ∧
        GetEncoderDisplayName t Encoder.Stream = SIMPLE_ENCODER_X264 t) ∧
      ((SaveSettings t g c).2 "Output" "Mode" = some (ConfigValue.string "Simple") ∧
        (SaveSettings t g c).2 "SimpleOutput" "RecQuality" =
          some (ConfigValue.string
            (if g.recordingQuality = Quality.High then "Small" else "Stream")) ∧
        (SaveSettings t g c).2 "Video" "OutputCX" = some (ConfigValue.int g.idealResolutionCX) ∧
        (SaveSettings t g c).2 "Video" "OutputCY" = some (ConfigValue.int g.idealResolutionCY) ∧
        (SaveSettings t g c).2 "Video" "Canvases" = some (ConfigValue.int 1) ∧
        (SaveSettings t g c).2 "Output" "DynamicBitrate" = some (ConfigValue.bool false) ∧
        (g.fpsType ≠ FPSType.UseCurrent →
          (SaveSettings t g c).2 "Video" "FPSType" = some (ConfigValue.uint 0) ∧
            (SaveSettings t g c).2 "Video" "FPSCommon" =
              some (ConfigValue.string (toString g.idealFPSNum))) ∧
        (g.fpsType = FPSType.UseCurrent →
          (SaveSettings t g c).2 "Video" "FPSType" = c "Video" "FPSType" ∧
            (SaveSettings t g c).2 "Video" "FPSCommon" = c "Video" "FPSCommon") ∧
        (g.recordingEncoder ≠ Encoder.Stream →
          (SaveSettings t g c).2 "SimpleOutput" "RecEncoder" =
            some (ConfigValue.string (GetEncoderDisplayName t g.recordingEncoder))) ∧
        (g.recordingEncoder = Encoder.Stream →
          (SaveSettings t g c).2 "SimpleOutput" "RecEncoder" = c "SimpleOutput" "RecEncoder") ∧
        (∀ s n, (s, n) ∉ settingsKeys → (SaveSettings t g c).2 s n = c s n)) := by
  have hname : GetEncoderDisplayName t g.streamingEncoder =
      (if g.streamingEncoder = Encoder.NVENC then "nvenc"
        else if g.streamingEncoder = Encoder.QSV then "qsv"
        else if g.streamingEncoder = Encoder.AMD then "amd"
        else SIMPLE_ENCODER_X264 t) := by
    obtain ⟨h1, h2⟩ := hs
    generalize g.streamingEncoder = e at h1 h2 ⊢
    cases e
    · rfl
    · rfl
    · rfl
    · rfl
    · rfl
    · exact absurd rfl h1
    · exact absurd rfl h2
  have eb := toInt64_of_lt _ hb
  have ex := toInt64_of_lt _ hx
  have ey := toInt64_of_lt _ hy
  refine ⟨⟨?_, ?_, ?_, ?_, ?_⟩, ⟨rfl, rfl, rfl, rfl, rfl⟩,
    ⟨?_, ?_, ?_, ?_, ?_, ?_, ?_, ?_, ?_, ?_, ?_⟩⟩
  · simp [SaveStreamSettings, config_set_int, config_set_string, config_remove_value,
      configSet, pushEvent, eb]
  · rw [← hname]
    simp [SaveStreamSettings, config_set_int, config_set_string, config_remove_value,
      configSet, pushEvent]
  · simp [SaveStreamSettings, config_set_int, config_set_string, config_remove_value,
      configSet, pushEvent]
  · intro s n h
    simp only [streamSettingsKeys, List.mem_cons, Prod.mk.injEq, List.mem_nil_iff, or_false,
      not_or] at h
    obtain ⟨h1, h2, h3⟩ := h
    simp [SaveStreamSettings, config_set_int, config_set_string, config_remove_value,
      configSet, h1, h2, h3]
  · intro s n
    simp [SaveStreamSettings]
  · simp [SaveSettings, config_set_int, config_set_string, config_set_bool, config_set_uint,
      configSet, pushEvent]
    split_ifs <;> rfl
  · simp [SaveSettings, config_set_int, config_set_string, config_set_bool, config_set_uint,
      configSet, pushEvent]
    split_ifs <;> rfl
  · simp [SaveSettings, config_set_int, config_set_string, config_set_bool, config_set_uint,
      configSet, pushEvent, ex]
    split_ifs <;> rfl
  · simp [SaveSettings, config_set_int, config_set_string, config_set_bool, config_set_uint,
      configSet, pushEvent, ey]
    split_ifs <;> rfl
  · simp [SaveSettings, config_set_int, config_set_string, config_set_bool, config_set_uint,
      configSet, pushEvent]
    split_ifs <;> rfl
  · simp [SaveSettings, config_set_int, config_set_string, config_set_bool, config_set_uint,
      configSet, pushEvent]
    split_ifs <;> rfl
  · intro h
    simp [SaveSettings, config_set_int, config_set_string, config_set_bool, config_set_uint,
      configSet, pushEvent, h]
  · intro h
    simp [SaveSettings, config_set_int, config_set_string, config_set_bool, config_set_uint,
      configSet, pushEvent, h]
    split_ifs <;> simp [config_set_string, configSet]
  · intro h
    simp [SaveSettings, config_set_int, config_set_string, config_set_bool, config_set_uint,
      configSet, pushEvent, h]
    split_ifs <;> rfl
  · intro h
    simp [SaveSettings, config_set_int, config_set_string, config_set_bool, config_set_uint,
      configSet, pushEvent, h]
    split_ifs <;> rfl
  · intro s n h
    simp only [settingsKeys, List.mem_cons, Prod.mk.injEq, List.mem_nil_iff, or_false,
      not_or] at h
    obtain ⟨h1, h2, h3, h4, h5, h6, h7, h8, h9⟩ := h
    simp only [SaveSettings, config_set_int, config_set_string, config_set_bool,
      config_set_uint, configSet, pushEvent]
    split_ifs <;> simp [configSet, config_set_string, h1, h2, h3, h4, h5, h6, h7, h8, h9]

/-- Witness for C23: from an empty store, saving the stream settings of a state with
bitrate 6000 and the NVENC encoder writes 6000 and "nvenc". -/
theorem saveSettings_writes_witness :
    (SaveStreamSettings Target.win32 true
          { idealBitrate := 6000, streamingEncoder := Encoder.NVENC } emptyConfig).2
        "SimpleOutput" "VBitrate" =
      some (ConfigValue.int
        (({ idealBitrate := 6000, streamingEncoder := Encoder.NVENC } : Globals).idealBitrate)) ∧
    (SaveStreamSettings Target.win32 true
          { idealBitrate := 6000, streamingEncoder := Encoder.NVENC } emptyConfig).2
        "SimpleOutput" "StreamEncoder" =
      some (ConfigValue.string "nvenc") :=
  ⟨(saveSettings_writes Target.win32 { idealBitrate := 6000, streamingEncoder := Encoder.NVENC }
      emptyConfig (by decide) (by decide) (by decide) (by decide)).1.1, rfl⟩

end AutoConfig
